import Mathlib

/-!
# RetroMix DJ: beat analysis, deck transport and sync engine

A shallow embedding of the beat/tempo analysis worker
(`src/js/workers/beat-detection-worker.js`), of the deck transport
(`src/js/audio-engine.js`, `src/js/audio-engine-loop.js`), of the sync engine
(`src/js/beat-manager.js`) and of the loop system (`src/js/loop-system.js`),
together with theorems about them.

In the main development numbers are exact: a JavaScript number is a rational, or
one of the three special values `Infinity`, `-Infinity`, `NaN` that division by
zero produces; rounding error of binary floating point is left out there. The
entry count of the beat grid and the buckets of the tempo histogram depend on
that rounding: the section on binary64 arithmetic repeats `generateBeatGrid` and
`determineBPM` with every arithmetic result rounded to binary64, and the
statements about them are made for those definitions. The sign of zero is not
modelled.
-/

namespace RetroMix

/-! ## JavaScript numbers in exact arithmetic -/

/-- A JavaScript number: a finite value (exact rational) or a special value. -/
inductive JSNum where
  | fin (q : ℚ)
  | posInf
  | negInf
  | nan
  deriving DecidableEq, Repr

/-- An exception raised by the JavaScript runtime. -/
inductive JSError where
  | rangeError
  | typeError
  deriving DecidableEq, Repr

namespace JSNum

/-- The infinity that carries the sign of a non-zero rational. -/
def infOfSign (q : ℚ) : JSNum := if 0 < q then posInf else negInf

/-- JavaScript `a * b`. -/
def mul : JSNum → JSNum → JSNum
  | fin a, fin b => fin (a * b)
  | fin a, posInf => if a = 0 then nan else infOfSign a
  | fin a, negInf => if a = 0 then nan else infOfSign (-a)
  | posInf, fin b => if b = 0 then nan else infOfSign b
  | negInf, fin b => if b = 0 then nan else infOfSign (-b)
  | posInf, posInf => posInf
  | posInf, negInf => negInf
  | negInf, posInf => negInf
  | negInf, negInf => posInf
  | nan, _ => nan
  | _, nan => nan

/-- JavaScript `a / b`; a zero divisor counts as `+0`. -/
def div : JSNum → JSNum → JSNum
  | fin a, fin b => if b = 0 then (if a = 0 then nan else infOfSign a) else fin (a / b)
  | fin _, posInf => fin 0
  | fin _, negInf => fin 0
  | posInf, fin b => if 0 ≤ b then posInf else negInf
  | negInf, fin b => if 0 ≤ b then negInf else posInf
  | posInf, posInf => nan
  | posInf, negInf => nan
  | negInf, posInf => nan
  | negInf, negInf => nan
  | nan, _ => nan
  | _, nan => nan

/-- JavaScript `a + b`. -/
def add : JSNum → JSNum → JSNum
  | fin a, fin b => fin (a + b)
  | fin _, posInf => posInf
  | fin _, negInf => negInf
  | posInf, fin _ => posInf
  | negInf, fin _ => negInf
  | posInf, posInf => posInf
  | negInf, negInf => negInf
  | posInf, negInf => nan
  | negInf, posInf => nan
  | nan, _ => nan
  | _, nan => nan

/-- JavaScript `a < b` (false as soon as one side is `NaN`). -/
def lt : JSNum → JSNum → Bool
  | fin a, fin b => decide (a < b)
  | fin _, posInf => true
  | negInf, fin _ => true
  | negInf, posInf => true
  | _, _ => false

/-- JavaScript `a > b`. -/
def gt (a b : JSNum) : Bool := lt b a

/-- JavaScript `Math.floor`. -/
def floor : JSNum → JSNum
  | fin a => fin (⌊a⌋ : ℤ)
  | x => x

/-- JavaScript `Math.round`: the nearest integer, a half rounding up. -/
def round : JSNum → JSNum
  | fin a => fin (⌊a + 1 / 2⌋ : ℤ)
  | x => x

/-- The number is neither infinite nor `NaN`. -/
def isFinite : JSNum → Bool
  | fin _ => true
  | _ => false

/-- JavaScript `a >= b` (false as soon as one side is `NaN`). -/
def ge : JSNum → JSNum → Bool
  | fin a, fin b => decide (b ≤ a)
  | fin _, negInf => true
  | posInf, fin _ => true
  | posInf, posInf => true
  | posInf, negInf => true
  | negInf, negInf => true
  | _, _ => false

end JSNum

open JSNum

/-- The length argument of `new Array(n)`: an integer in `0 .. 2^32 - 1` gives an
array of that length, anything else (negative, fractional, `2^32` or more,
infinite, `NaN`) raises a `RangeError`. -/
def arrayLength : JSNum → Except JSError Nat
  | fin q =>
    if q.den = 1 ∧ 0 ≤ q.num ∧ q.num < 2 ^ 32 then .ok q.num.toNat else .error .rangeError
  | _ => .error .rangeError

/-! ## Beat detection worker -/

/-- The worker's `generateBeatGrid(bpm, duration)` in exact arithmetic; see
`Binary64.generateBeatGrid` for the rounded quotient and products. -/
def generateBeatGrid (bpm duration : JSNum) : Except JSError (List JSNum) :=
  let beatInterval := div (fin 60) bpm
  let numBeats := add (floor (div duration beatInterval)) (fin 1)
  match arrayLength numBeats with
  | .error e => .error e
  | .ok n => .ok ((List.range n).map fun (i : Nat) => mul (fin (i : ℚ)) beatInterval)

/-- The worker's `analyzeIntervals(peaks)`: the differences of consecutive peaks. -/
def analyzeIntervals : List ℚ → List ℚ
  | a :: b :: rest => (b - a) :: analyzeIntervals (b :: rest)
  | _ => []

/-- The histogram key of an interval, `Math.round(interval * 100) / 100`, in exact
arithmetic; see `Binary64.roundedInterval` for the rounded product and quotient. -/
def roundedInterval (interval : ℚ) : ℚ := ((⌊interval * 100 + 1 / 2⌋ : ℤ) : ℚ) / 100

/-- A JavaScript object used as a histogram: its own properties in creation
order. A key is the number whose decimal string names the property. -/
abbrev Histogram := List (ℚ × Nat)

/-- The statement `histogram[k] = (histogram[k] || 0) + 1`: an existing property
is updated in place, a new one is created after the others. -/
def Histogram.bump (k : ℚ) : Histogram → Histogram
  | [] => [(k, 1)]
  | (k0, c) :: rest => if k0 = k then (k0, c + 1) :: rest else (k0, c) :: Histogram.bump k rest

/-- The histogram that the `forEach` over the intervals builds. -/
def buildHistogram (intervals : List ℚ) : Histogram :=
  intervals.foldl (fun h interval => Histogram.bump (roundedInterval interval) h) []

/-- The property name is an array index: the decimal string of an integer in
`0 .. 2^32 - 2`. -/
def isArrayIndex (k : ℚ) : Bool := decide (k.den = 1 ∧ 0 ≤ k.num ∧ k.num < 2 ^ 32 - 1)

/-- The order in which `for (const interval in histogram)` visits the
properties: array-index keys first, in ascending numeric order, then the other
keys in creation order. -/
def forInOrder (h : Histogram) : List (ℚ × Nat) :=
  (h.filter fun e => isArrayIndex e.1).insertionSort (fun a b => a.1 ≤ b.1)
    ++ h.filter fun e => !isArrayIndex e.1

/-- One pass of the loop body `if (histogram[interval] > maxCount) ...`; the state
is `(maxCount, mostCommonInterval)`. -/
def mostCommonStep (acc : Nat × ℚ) (e : ℚ × Nat) : Nat × ℚ :=
  if e.2 > acc.1 then (e.2, e.1) else acc

/-- The search for the most common interval: `(maxCount, mostCommonInterval)`
after the `for ... in` loop, started from `(0, 0)`. -/
def mostCommon (intervals : List ℚ) : Nat × ℚ :=
  (forInOrder (buildHistogram intervals)).foldl mostCommonStep (0, 0)

/-- The octave correction of `determineBPM`: `if (bpm < 60) bpm *= 2; else if (bpm > 180) bpm /= 2`. -/
def octaveCorrect (bpm : JSNum) : JSNum :=
  if lt bpm (fin 60) then mul bpm (fin 2)
  else if gt bpm (fin 180) then div bpm (fin 2)
  else bpm

/-- The expression `Math.round(bpm * 10) / 10`. -/
def roundToTenth (bpm : JSNum) : JSNum := div (round (mul bpm (fin 10))) (fin 10)

/-- The object `{ bpm, confidence }` that `determineBPM` returns. -/
structure BpmResult where
  bpm : JSNum
  confidence : JSNum
  deriving DecidableEq, Repr

/-- The worker's `determineBPM(intervals, sampleRate)` in exact arithmetic; the
sample rate is not used by the function body. -/
def determineBPM (intervals : List ℚ) : BpmResult :=
  if intervals.length = 0 then
    { bpm := fin 120, confidence := fin 0 }
  else
    let mc := mostCommon intervals
    let bpm := octaveCorrect (div (fin 60) (fin mc.2))
    let totalIntervals := intervals.length
    let confidence := div (fin (mc.1 : ℚ)) (fin (totalIntervals : ℚ))
    { bpm := roundToTenth bpm, confidence := confidence }

/-- The value `histogram[k] || 0` of a property read. -/
def Histogram.get : Histogram → ℚ → Nat
  | [], _ => 0
  | (k0, c) :: rest, k => if k0 = k then c else Histogram.get rest k

/-- The property names of a histogram, in creation order. -/
def Histogram.keys (h : Histogram) : List ℚ := h.map Prod.fst

/-! ## Beat detection worker: preprocessing, onsets and the whole pipeline

Sample values are finite, so a signal is a list of exact rationals; the rounding
of `Float32Array` storage is not modelled. The sample rate handed to the worker
is a finite number. -/

/-- The length argument of `new Float32Array(n)`: `NaN` counts as 0, a fraction is
truncated toward zero, and a negative or infinite length raises a `RangeError`.
Typed arrays are unbounded lists. -/
def typedArrayLength : JSNum → Except JSError Nat
  | fin q =>
    let t : ℤ := if 0 ≤ q then ⌊q⌋ else ⌈q⌉
    if t < 0 then .error .rangeError else .ok t.toNat
  | nan => .ok 0
  | _ => .error .rangeError

/-- The worker's `downsample(data, factor)`. The factor is the integer
`Math.floor(sampleRate / 11025)`. Every index `i * factor` that is read lies inside
`data` (theorem `downsample_reads_in_range`), so the default of the read is never
used. -/
def downsample (data : List ℚ) (factor : ℤ) : Except JSError (List ℚ) :=
  match typedArrayLength (floor (div (fin (data.length : ℚ)) (fin (factor : ℚ)))) with
  | .error e => .error e
  | .ok len => .ok ((List.range len).map fun (i : Nat) => data.getD (i * factor.toNat) 0)

/-- The smoothing factor `alpha` of the low-pass filter. -/
def alpha : ℚ := 5 / 100

/-- The loop of `lowPassFilter` from index 1 on; `prev` is `result[i - 1]`. -/
def lowPassFrom (prev : ℚ) : List ℚ → List ℚ
  | [] => []
  | x :: xs => (alpha * x + (1 - alpha) * prev) :: lowPassFrom (alpha * x + (1 - alpha) * prev) xs

/-- The worker's `lowPassFilter(data, sampleRate)`; the sample rate is not used by
the function body. On empty data the store `result[0] = data[0]` falls outside
the array and is ignored. -/
def lowPassFilter : List ℚ → List ℚ
  | [] => []
  | x :: xs => x :: lowPassFrom x xs

/-- The worker's `computeEnergy(data)`. -/
def computeEnergy (data : List ℚ) : List ℚ := data.map fun x => x * x

/-- The inner loop of `findPeaks`: no `j` in `[i - windowSize, i + windowSize]` other
than `i` has `energyData[j] >= energyData[i]`. The body runs only when
`windowSize ≥ 0`, and the outer loop then keeps `i` in
`[windowSize, length - windowSize)`, so every index read lies inside the signal. -/
def isPeak (energyData : List ℚ) (windowSize i : ℤ) : Bool :=
  (List.range (2 * windowSize + 1).toNat).all fun (k : Nat) =>
    let j : ℤ := i - windowSize + k
    !(decide (j ≠ i) && decide (energyData.getD j.toNat 0 ≥ energyData.getD i.toNat 0))

/-- One pass of the outer loop of `findPeaks`; the state is the list of accepted
sample indices and `lastPeakIndex`. -/
def peakStep (energyData : List ℚ) (windowSize minPeakDistance : ℤ) (acc : List ℤ × ℤ) (i : ℤ) :
    List ℤ × ℤ :=
  if isPeak energyData windowSize i && decide (i - acc.2 ≥ minPeakDistance) then
    (acc.1 ++ [i], i)
  else acc

/-- The sample indices that `findPeaks` accepts, in the order of the loop
`for (let i = windowSize; i < energyData.length - windowSize; i++)`. -/
def findPeakIndices (energyData : List ℚ) (sampleRate : ℚ) : List ℤ :=
  let windowSize : ℤ := ⌊sampleRate * (5 / 100)⌋
  let minPeakDistance : ℤ := ⌊sampleRate * (3 / 10)⌋
  let lastPeakIndex : ℤ := -minPeakDistance
  let indices := (List.range ((energyData.length : ℤ) - windowSize - windowSize).toNat).map
    fun (k : Nat) => windowSize + (k : ℤ)
  (indices.foldl (peakStep energyData windowSize minPeakDistance) ([], lastPeakIndex)).1

/-- The worker's `findPeaks(energyData, sampleRate)` for a finite, non-zero sample
rate: every accepted index `i` is pushed as `i / sampleRate`. -/
def findPeaks (energyData : List ℚ) (sampleRate : ℚ) : List ℚ :=
  (findPeakIndices energyData sampleRate).map fun (i : ℤ) => (i : ℚ) / sampleRate

/-- Steps 1 to 3 of `detectBPM`, up to the energy signal: the energy data and the
downsampled rate `sampleRate / downsampleFactor` handed to `findPeaks`. -/
def preprocess (audioData : List ℚ) (sampleRate : ℚ) : Except JSError (List ℚ × JSNum) :=
  let downsampleFactor : ℤ := ⌊sampleRate / 11025⌋
  match downsample audioData downsampleFactor with
  | .error e => .error e
  | .ok downsampledData =>
    let downsampledRate := div (fin sampleRate) (fin (downsampleFactor : ℚ))
    let filteredData := lowPassFilter downsampledData
    .ok (computeEnergy filteredData, downsampledRate)

/-- The object `{ bpm, beatGrid, confidence }` that `detectBPM` returns. -/
structure DetectResult where
  bpm : JSNum
  beatGrid : List JSNum
  confidence : JSNum
  deriving DecidableEq, Repr

/-- The worker's `detectBPM(audioData, sampleRate)`. A downsampled rate that is not
finite arises only from the factor 0, which leaves no samples; the loop of
`findPeaks` then does not run (its bound `energyData.length - windowSize` is
`-Infinity` or `NaN`) and there are no peaks. -/
def detectBPM (audioData : List ℚ) (sampleRate : ℚ) : Except JSError DetectResult :=
  match preprocess audioData sampleRate with
  | .error e => .error e
  | .ok (energyData, downsampledRate) =>
    let peaks :=
      match downsampledRate with
      | fin r => findPeaks energyData r
      | _ => []
    let intervals := analyzeIntervals peaks
    let bpmResult := determineBPM intervals
    match generateBeatGrid bpmResult.bpm
        (div (fin (audioData.length : ℚ)) (fin sampleRate)) with
    | .error e => .error e
    | .ok beatGrid =>
      .ok { bpm := bpmResult.bpm, beatGrid := beatGrid, confidence := bpmResult.confidence }

/-! ## The worker in binary64 arithmetic

JavaScript numbers are IEEE 754 binary64 values. The definitions of this section
repeat `generateBeatGrid` and `determineBPM` with every arithmetic result rounded
to binary64 (round to nearest, ties to even, overflow to infinity). A finite
binary64 value is the rational it denotes; there is no negative zero. -/

namespace Binary64

/-- The integer nearest to `x`, the even one when `x` lies half-way between two. -/
def roundEven (x : ℚ) : ℤ :=
  if x - (⌊x⌋ : ℤ) < 1 / 2 then ⌊x⌋
  else if 1 / 2 < x - (⌊x⌋ : ℤ) then ⌊x⌋ + 1
  else if ⌊x⌋ % 2 = 0 then ⌊x⌋ else ⌊x⌋ + 1

/-- The binary exponent that binary64 uses for a non-zero `x`: `floor(log2 |x|)`, and
`-1022` for everything below the smallest normal number. -/
def exponent (x : ℚ) : ℤ := max (Int.log 2 |x|) (-1022)

/-- The distance between neighbouring binary64 values at the magnitude of `x`: the
significand has 53 bits. -/
def ulp (x : ℚ) : ℚ := (2 : ℚ) ^ (exponent x - 52)

/-- The multiple of `ulp x` nearest to `x`, the one with the even significand when
`x` lies half-way between two. -/
def nearest (x : ℚ) : ℚ := (roundEven (x / ulp x) : ℚ) * ulp x

/-- The binary64 value of an exact result `x`: `x` rounded to nearest, ties to
even; a rounded magnitude of `2^1024` or more is an infinity. -/
def ofRat (x : ℚ) : JSNum :=
  if x = 0 then fin 0
  else if (2 : ℚ) ^ (1024 : ℕ) ≤ |nearest x| then infOfSign x
  else fin (nearest x)

/-- The rational is a binary64 value. -/
def IsDouble (x : ℚ) : Prop := ofRat x = fin x

/-- A computed number stored as binary64. -/
def store : JSNum → JSNum
  | fin q => ofRat q
  | x => x

/-- JavaScript `a * b` on binary64 values. -/
def mul (a b : JSNum) : JSNum := store (JSNum.mul a b)

/-- JavaScript `a / b` on binary64 values. -/
def div (a b : JSNum) : JSNum := store (JSNum.div a b)

/-- JavaScript `a + b` on binary64 values. -/
def add (a b : JSNum) : JSNum := store (JSNum.add a b)

/-- The worker's `generateBeatGrid(bpm, duration)` on binary64 numbers. -/
def generateBeatGrid (bpm duration : JSNum) : Except JSError (List JSNum) :=
  let beatInterval := Binary64.div (fin 60) bpm
  let numBeats := Binary64.add (JSNum.floor (Binary64.div duration beatInterval)) (fin 1)
  match arrayLength numBeats with
  | .error e => .error e
  | .ok n => .ok ((List.range n).map fun (i : Nat) => Binary64.mul (fin (i : ℚ)) beatInterval)

/-- The histogram key of an interval, `Math.round(interval * 100) / 100`. -/
def roundedInterval (interval : ℚ) : JSNum :=
  Binary64.div (JSNum.round (Binary64.mul (fin interval) (fin 100))) (fin 100)

/-- A JavaScript object used as a histogram: its own properties in creation
order. A key is the number whose string names the property. -/
abbrev Histogram := List (JSNum × Nat)

/-- The statement `histogram[k] = (histogram[k] || 0) + 1`: an existing property
is updated in place, a new one is created after the others. -/
def Histogram.bump (k : JSNum) : Histogram → Histogram
  | [] => [(k, 1)]
  | (k0, c) :: rest =>
    if k0 = k then (k0, c + 1) :: rest else (k0, c) :: Histogram.bump k rest

/-- The histogram that the `forEach` over the intervals builds. -/
def buildHistogram (intervals : List ℚ) : Histogram :=
  intervals.foldl (fun h interval => Histogram.bump (Binary64.roundedInterval interval) h) []

/-- The value `histogram[k] || 0` of a property read. -/
def Histogram.get : Histogram → JSNum → Nat
  | [], _ => 0
  | (k0, c) :: rest, k => if k0 = k then c else Histogram.get rest k

/-- The property names of a histogram, in creation order. -/
def Histogram.keys (h : Histogram) : List JSNum := h.map Prod.fst

/-- The property name is an array index: the decimal string of an integer in
`0 .. 2^32 - 2`. -/
def isArrayIndex : JSNum → Bool
  | fin k => decide (k.den = 1 ∧ 0 ≤ k.num ∧ k.num < 2 ^ 32 - 1)
  | _ => false

/-- The numeric value of an array-index key. -/
def indexValue : JSNum → ℚ
  | fin k => k
  | _ => 0

/-- The order in which `for (const interval in histogram)` visits the
properties: array-index keys first, in ascending numeric order, then the other
keys in creation order. -/
def forInOrder (h : Histogram) : List (JSNum × Nat) :=
  (h.filter fun e => isArrayIndex e.1).insertionSort
      (fun a b => indexValue a.1 ≤ indexValue b.1)
    ++ h.filter fun e => !isArrayIndex e.1

/-- One pass of the loop body `if (histogram[interval] > maxCount) ...`; the state
is `(maxCount, mostCommonInterval)`. -/
def mostCommonStep (acc : Nat × JSNum) (e : JSNum × Nat) : Nat × JSNum :=
  if e.2 > acc.1 then (e.2, e.1) else acc

/-- The search for the most common interval: `(maxCount, mostCommonInterval)`
after the `for ... in` loop, started from `(0, 0)`. -/
def mostCommon (intervals : List ℚ) : Nat × JSNum :=
  (Binary64.forInOrder (Binary64.buildHistogram intervals)).foldl Binary64.mostCommonStep
    (0, fin 0)

/-- The octave correction of `determineBPM`:
`if (bpm < 60) bpm *= 2; else if (bpm > 180) bpm /= 2`. -/
def octaveCorrect (bpm : JSNum) : JSNum :=
  if lt bpm (fin 60) then Binary64.mul bpm (fin 2)
  else if gt bpm (fin 180) then Binary64.div bpm (fin 2)
  else bpm

/-- The expression `Math.round(bpm * 10) / 10`. -/
def roundToTenth (bpm : JSNum) : JSNum :=
  Binary64.div (JSNum.round (Binary64.mul bpm (fin 10))) (fin 10)

/-- The worker's `determineBPM(intervals, sampleRate)` on binary64 numbers; the
sample rate is not used by the function body. -/
def determineBPM (intervals : List ℚ) : BpmResult :=
  if intervals.length = 0 then
    { bpm := fin 120, confidence := fin 0 }
  else
    let mc := Binary64.mostCommon intervals
    let bpm := Binary64.octaveCorrect (Binary64.div (fin 60) mc.2)
    let totalIntervals := intervals.length
    let confidence := Binary64.div (fin (mc.1 : ℚ)) (fin (totalIntervals : ℚ))
    { bpm := Binary64.roundToTenth bpm, confidence := confidence }

end Binary64

/-- The binary64 value nearest to 0.495. -/
def d495 : ℚ := 4458563631096791 / 2 ^ 53

/-- The binary64 value nearest to 0.49. -/
def d49 : ℚ := 2206763817411543 / 2 ^ 52

/-! ## Deck transport (`src/js/audio-engine.js`)

Times, rates and tempi held by a deck are finite numbers, so they are exact
rationals. The audio graph (gain and filter nodes) carries no transport state
and is left out. -/

/-- The two decks of the console. -/
inductive DeckId where
  | left
  | right
  deriving DecidableEq, Repr

/-- A decoded track, as far as the transport reads it. -/
structure AudioBuffer where
  duration : ℚ
  deriving DecidableEq, Repr

/-- A buffer source node: its `playbackRate.value` and the offset given to
`start(0, offset)`. -/
structure SourceNode where
  playbackRate : ℚ
  offset : ℚ
  deriving DecidableEq, Repr

/-- The `beatTracking` record of a deck. -/
structure BeatTracking where
  bpm : ℚ
  beatGrid : List ℚ
  confidence : ℚ
  deriving DecidableEq, Repr

/-- The deck object built by `createDeck`. -/
structure Deck where
  buffer : Option AudioBuffer
  source : Option SourceNode
  loaded : Bool
  isPlaying : Bool
  startTime : ℚ
  pauseTime : ℚ
  playbackRate : ℚ
  beatTracking : BeatTracking
  /-- Added by `audio-engine-loop.js`; `none` is `undefined`. -/
  loopStart : Option ℚ := none
  /-- Added by `audio-engine-loop.js`; `none` is `undefined`. -/
  loopEnd : Option ℚ := none
  /-- Added by `audio-engine-loop.js`; `undefined` counts as `false`. -/
  loopEnabled : Bool := false
  /-- Added by `audio-engine-loop.js`: `none` is `undefined`, otherwise the array of
  cue positions, where an entry `none` is `null` or a hole of the array. -/
  hotCues : Option (List (Option ℚ)) := none
  deriving DecidableEq, Repr

/-- A `CustomEvent` dispatched on the document. The source only listens for
`trackloaded` and never dispatches it. -/
inductive Event where
  | ratechanged (deckId : DeckId) (rate : ℚ)
  | trackended (deckId : DeckId)
  | bpmdetected (deckId : DeckId) (bpm confidence : ℚ)
  | timechanged (deckId : DeckId) (time : ℚ)
  | looppointschanged (deckId : DeckId) (startPoint : ℚ) (endPoint : Option JSNum)
  | hotcueset (deckId : DeckId) (index : Nat) (position : ℚ)
  | hotcuejump (deckId : DeckId) (index : Nat) (position : ℚ)
  | hotcuecleared (deckId : DeckId) (index : Nat)
  | hotcuesreset (deckId : DeckId)
  | trackloaded (deckId : DeckId)
  deriving DecidableEq, Repr

/-- The engine: the clock `audioContext.currentTime`, the two decks, and the
events dispatched so far (oldest first). -/
structure AudioEngine where
  currentTime : ℚ
  left : Deck
  right : Deck
  events : List Event := []
  deriving DecidableEq, Repr

/-- The deck object returned by `createDeck`. -/
def createDeck : Deck :=
  { buffer := none, source := none, loaded := false, isPlaying := false,
    startTime := 0, pauseTime := 0, playbackRate := 1,
    beatTracking := { bpm := 0, beatGrid := [], confidence := 0 } }

namespace AudioEngine

/-- The lookup `this.decks[deckId]`. -/
def deck (e : AudioEngine) : DeckId → Deck
  | .left => e.left
  | .right => e.right

/-- A write to the fields of `this.decks[deckId]`. -/
def setDeck (e : AudioEngine) (deckId : DeckId) (d : Deck) : AudioEngine :=
  match deckId with
  | .left => { e with left := d }
  | .right => { e with right := d }

/-- The call `document.dispatchEvent(event)`. -/
def dispatch (e : AudioEngine) (ev : Event) : AudioEngine :=
  { e with events := e.events ++ [ev] }

/-- The method `getCurrentTime(deckId)`. -/
def getCurrentTime (e : AudioEngine) (deckId : DeckId) : ℚ :=
  let deck := e.deck deckId
  if !deck.isPlaying then deck.pauseTime
  else (e.currentTime - deck.startTime) * deck.playbackRate

/-- The method `setPlaybackRate(deckId, rate)`. -/
def setPlaybackRate (e : AudioEngine) (deckId : DeckId) (rate : ℚ) : AudioEngine :=
  let deck := e.deck deckId
  let deck := { deck with playbackRate := rate }
  let deck :=
    match deck.source with
    | some src => { deck with source := some { src with playbackRate := rate } }
    | none => deck
  (e.setDeck deckId deck).dispatch (.ratechanged deckId rate)

/-- The method `jumpToBeat(deckId, beatIndex)`, with the boolean it returns. -/
def jumpToBeat (e : AudioEngine) (deckId : DeckId) (beatIndex : Nat) : Bool × AudioEngine :=
  let deck := e.deck deckId
  if beatIndex ≥ deck.beatTracking.beatGrid.length then (false, e)
  else
    let beatTime := deck.beatTracking.beatGrid.getD beatIndex 0
    if deck.isPlaying then
      let source : SourceNode := { playbackRate := deck.playbackRate, offset := beatTime }
      let deck := { deck with source := some source, startTime := e.currentTime - beatTime }
      (true, e.setDeck deckId deck)
    else
      (true, e.setDeck deckId { deck with pauseTime := beatTime })

/-- The method `getBPM(deckId)`. -/
def getBPM (e : AudioEngine) (deckId : DeckId) : ℚ := (e.deck deckId).beatTracking.bpm

/-- The method `getEffectiveBPM(deckId)`. -/
def getEffectiveBPM (e : AudioEngine) (deckId : DeckId) : ℚ :=
  let baseBPM := (e.deck deckId).beatTracking.bpm
  let playbackRate := (e.deck deckId).playbackRate
  baseBPM * playbackRate

/-- The method `syncTempo(sourceDeckId, targetDeckId)`, with the boolean it returns. -/
def syncTempo (e : AudioEngine) (sourceDeckId targetDeckId : DeckId) : Bool × AudioEngine :=
  let sourceBPM := e.getEffectiveBPM sourceDeckId
  let targetBaseBPM := (e.deck targetDeckId).beatTracking.bpm
  if sourceBPM ≤ 0 ∨ targetBaseBPM ≤ 0 then (false, e)
  else
    let newRate := sourceBPM / targetBaseBPM
    (true, e.setPlaybackRate targetDeckId newRate)

/-- The method `playDeck(deckId)`, with the boolean it returns. -/
def playDeck (e : AudioEngine) (deckId : DeckId) : Bool × AudioEngine :=
  let deck := e.deck deckId
  match deck.buffer with
  | none => (false, e)
  | some _ =>
    let startPosition : ℚ := if deck.pauseTime > 0 then deck.pauseTime else 0
    let source : SourceNode := { playbackRate := deck.playbackRate, offset := startPosition }
    let deck := { deck with
      source := some source, startTime := e.currentTime - startPosition, isPlaying := true }
    (true, e.setDeck deckId deck)

/-- The method `pauseDeck(deckId)`, with the boolean it returns. -/
def pauseDeck (e : AudioEngine) (deckId : DeckId) : Bool × AudioEngine :=
  let deck := e.deck deckId
  if deck.isPlaying = false ∨ deck.source = none then (false, e)
  else
    let deck := { deck with
      pauseTime := e.getCurrentTime deckId, source := none, isPlaying := false }
    (true, e.setDeck deckId deck)

/-- The method `stopDeck(deckId)`, with the boolean it returns. -/
def stopDeck (e : AudioEngine) (deckId : DeckId) : Bool × AudioEngine :=
  let deck := e.deck deckId
  let deck := { deck with source := none, isPlaying := false, pauseTime := 0 }
  (true, e.setDeck deckId deck)

/-- The handler `source.onended` that `playDeck`, `jumpToBeat` and `jumpToTime`
install on every source they start. -/
def onSourceEnded (e : AudioEngine) (deckId : DeckId) : AudioEngine :=
  let deck := e.deck deckId
  if deck.isPlaying then
    (e.setDeck deckId { deck with isPlaying := false, pauseTime := 0 }).dispatch
      (.trackended deckId)
  else e

/-- The handler `worker.onmessage` of `detectBPM`: the analysis result for the deck
named in the message arrives. -/
def onBpmResult (e : AudioEngine) (deckId : DeckId) (bpm : ℚ) (beatGrid : List ℚ)
    (confidence : ℚ) : AudioEngine :=
  let deck := e.deck deckId
  (e.setDeck deckId { deck with
    beatTracking := { bpm := bpm, beatGrid := beatGrid, confidence := confidence } }).dispatch
    (.bpmdetected deckId bpm confidence)

/-- The method `loadTrack(deckId, file)` on its successful path. The method is
asynchronous: it stops a playing deck, then awaits the reading and the decoding of
the file, and only afterwards writes the decoded `audioBuffer` into the deck.
`between` is what other calls and the clock do to the engine while the method is
suspended in its two awaits; it is `id` when nothing runs in between. The waveform
data is not modelled, and the analysis started by `detectBPM` reports back later
through `onBpmResult`. No event is dispatched. -/
def loadTrack (e : AudioEngine) (deckId : DeckId) (audioBuffer : AudioBuffer)
    (between : AudioEngine → AudioEngine) : AudioEngine :=
  let e := if (e.deck deckId).isPlaying then (e.stopDeck deckId).2 else e
  let e := between e
  let deck := e.deck deckId
  e.setDeck deckId { deck with buffer := some audioBuffer, loaded := true, pauseTime := 0 }

/-- The method `jumpToTime(deckId, time)` of `audio-engine-loop.js`, with the
boolean it returns. -/
def jumpToTime (e : AudioEngine) (deckId : DeckId) (time : ℚ) : Bool × AudioEngine :=
  let deck := e.deck deckId
  match deck.buffer with
  | none => (false, e)
  | some buffer =>
    let time := max 0 (min buffer.duration time)
    let deck :=
      if deck.isPlaying then
        { deck with
          source := some { playbackRate := deck.playbackRate, offset := time },
          startTime := e.currentTime - time }
      else { deck with pauseTime := time }
    (true, (e.setDeck deckId deck).dispatch (.timechanged deckId time))

/-- The method `setLoopPoints(deckId, startPoint, endPoint)` of
`audio-engine-loop.js`, with the boolean it returns. -/
def setLoopPoints (e : AudioEngine) (deckId : DeckId) (startPoint endPoint : ℚ) :
    Bool × AudioEngine :=
  let deck := e.deck deckId
  match deck.buffer with
  | none => (false, e)
  | some buffer =>
    let startPoint := max 0 (min buffer.duration startPoint)
    let endPoint := max (startPoint + 1 / 10) (min buffer.duration endPoint)
    (true, e.setDeck deckId { deck with loopStart := some startPoint, loopEnd := some endPoint })

/-- JavaScript `!x` for a number that may be `undefined` or `null`: true for a
missing value and for 0. -/
def isFalsy : Option ℚ → Bool
  | none => true
  | some x => decide (x = 0)

/-- The method `enableLoop(deckId)`, with the boolean it returns. The comparison
`currentTime >= deck.loopEnd` is only reached with a loop end that is a number. -/
def enableLoop (e : AudioEngine) (deckId : DeckId) : Bool × AudioEngine :=
  let deck := e.deck deckId
  if deck.buffer = none ∨ isFalsy deck.loopStart = true ∨ isFalsy deck.loopEnd = true then
    (false, e)
  else
    let e := e.setDeck deckId { deck with loopEnabled := true }
    let currentTime := e.getCurrentTime deckId
    if currentTime ≥ deck.loopEnd.getD 0 then
      (true, (e.jumpToTime deckId (deck.loopStart.getD 0)).2)
    else (true, e)

/-- The method `disableLoop(deckId)`, with the boolean it returns. -/
def disableLoop (e : AudioEngine) (deckId : DeckId) : Bool × AudioEngine :=
  (true, e.setDeck deckId { e.deck deckId with loopEnabled := false })

/-- The method `isLoopEnabled(deckId)`. -/
def isLoopEnabled (e : AudioEngine) (deckId : DeckId) : Bool := (e.deck deckId).loopEnabled

/-- The assignment `array[index] = value`, which lengthens the array with holes
when the index lies beyond its end. -/
def arraySet (array : List (Option ℚ)) (index : Nat) (value : Option ℚ) : List (Option ℚ) :=
  if index < array.length then array.set index value
  else array ++ List.replicate (index - array.length) none ++ [value]

/-- The read `array[index]`, where `none` is `undefined`, `null` or a hole. -/
def arrayGet (array : List (Option ℚ)) (index : Nat) : Option ℚ := array.getD index none

/-- The method `setHotCue(deckId, index, position = null)`; the result `none` is the
returned `false`, and `some p` the returned position. -/
def setHotCue (e : AudioEngine) (deckId : DeckId) (index : Nat) (position : Option ℚ) :
    Option ℚ × AudioEngine :=
  let deck := e.deck deckId
  match deck.buffer with
  | none => (none, e)
  | some buffer =>
    let hotCues := deck.hotCues.getD []
    let position :=
      match position with
      | none => e.getCurrentTime deckId
      | some p => p
    let position := max 0 (min buffer.duration position)
    (some position,
      e.setDeck deckId { deck with hotCues := some (arraySet hotCues index (some position)) })

/-- The method `jumpToHotCue(deckId, index)`, with the boolean it returns. -/
def jumpToHotCue (e : AudioEngine) (deckId : DeckId) (index : Nat) : Bool × AudioEngine :=
  let deck := e.deck deckId
  match deck.hotCues with
  | none => (false, e)
  | some hotCues =>
    if deck.buffer = none ∨ isFalsy (arrayGet hotCues index) = true then (false, e)
    else e.jumpToTime deckId ((arrayGet hotCues index).getD 0)

/-- The method `clearHotCue(deckId, index)`, with the boolean it returns. -/
def clearHotCue (e : AudioEngine) (deckId : DeckId) (index : Nat) : Bool × AudioEngine :=
  let deck := e.deck deckId
  match deck.hotCues with
  | none => (false, e)
  | some hotCues =>
    (true, e.setDeck deckId { deck with hotCues := some (arraySet hotCues index none) })

end AudioEngine

/-! ## Sync engine (`src/js/beat-manager.js`) -/

/-- One entry of `beatGridData`. -/
structure BeatGridData where
  bpm : ℚ
  beatGrid : List ℚ
  confidence : ℚ
  phase : ℚ
  deriving DecidableEq, Repr

/-- The record `syncSettings`. -/
structure SyncSettings where
  tempoSync : Bool := true
  phaseSync : Bool := true
  keySync : Bool := false
  deriving DecidableEq, Repr

/-- The beat manager: the engine it drives, its own beat data per deck, the beat
counters and the sync settings. -/
structure BeatManager where
  audioEngine : AudioEngine
  left : BeatGridData
  right : BeatGridData
  leftCounter : Nat := 0
  rightCounter : Nat := 0
  syncSettings : SyncSettings := {}
  deriving DecidableEq, Repr

/-- One pass of the loop that looks for the beat closest to `time`; the state is
`(closestBeatIndex, minDistance)` and `e` is `(i, beatGrid[i])`. -/
def closestStep (time : ℚ) (acc : Nat × JSNum) (e : Nat × ℚ) : Nat × JSNum :=
  let distance := |time - e.2|
  if lt (fin distance) acc.2 then (e.1, fin distance) else acc

/-- The source loop of `syncPhase`: the index of the beat closest to `time`,
started from index 0 and distance `Infinity`. -/
def closestSourceBeat (beatGrid : List ℚ) (time : ℚ) : Nat :=
  ((beatGrid.enum).foldl (closestStep time) (0, posInf)).1

/-- One pass of the target loop of `syncPhase`, which only looks at the beats
with `i % 4 === sourceBeatInBar`; the index `-1` is `none`. -/
def closestTargetStep (time : ℚ) (sourceBeatInBar : Nat) (acc : Option Nat × JSNum)
    (e : Nat × ℚ) : Option Nat × JSNum :=
  if e.1 % 4 = sourceBeatInBar then
    let distance := |time - e.2|
    if lt (fin distance) acc.2 then (some e.1, fin distance) else acc
  else acc

/-- The target loop of `syncPhase`, started from index `-1` and distance `Infinity`. -/
def closestTargetBeat (beatGrid : List ℚ) (time : ℚ) (sourceBeatInBar : Nat) : Option Nat :=
  ((beatGrid.enum).foldl (closestTargetStep time sourceBeatInBar) (none, posInf)).1

namespace BeatManager

/-- The lookup `this.beatGridData[deckId]`. -/
def beatGridData (bm : BeatManager) : DeckId → BeatGridData
  | .left => bm.left
  | .right => bm.right

/-- The method `getEffectiveBPM(deckId)`. -/
def getEffectiveBPM (bm : BeatManager) (deckId : DeckId) : ℚ :=
  let baseBPM := (bm.beatGridData deckId).bpm
  let playbackRate := (bm.audioEngine.deck deckId).playbackRate
  baseBPM * playbackRate

/-- The method `syncTempo(sourceDeckId, targetDeckId)`, with the boolean it returns. -/
def syncTempo (bm : BeatManager) (sourceDeckId targetDeckId : DeckId) : Bool × BeatManager :=
  let sourceBPM := bm.getEffectiveBPM sourceDeckId
  let targetBaseBPM := (bm.beatGridData targetDeckId).bpm
  if sourceBPM ≤ 0 ∨ targetBaseBPM ≤ 0 then (false, bm)
  else
    let newRate := sourceBPM / targetBaseBPM
    (true, { bm with audioEngine := bm.audioEngine.setPlaybackRate targetDeckId newRate })

/-- The method `syncPhase(sourceDeckId, targetDeckId)`, with the boolean it returns. -/
def syncPhase (bm : BeatManager) (sourceDeckId targetDeckId : DeckId) : Bool × BeatManager :=
  let sourceData := bm.beatGridData sourceDeckId
  let targetData := bm.beatGridData targetDeckId
  let targetDeck := bm.audioEngine.deck targetDeckId
  if sourceData.beatGrid.length = 0 ∨ targetData.beatGrid.length = 0
      ∨ targetDeck.isPlaying = false then (false, bm)
  else
    let sourceTime := bm.audioEngine.getCurrentTime sourceDeckId
    let closestSourceBeatIndex := closestSourceBeat sourceData.beatGrid sourceTime
    let sourceBeatInBar := closestSourceBeatIndex % 4
    let targetTime := bm.audioEngine.getCurrentTime targetDeckId
    match closestTargetBeat targetData.beatGrid targetTime sourceBeatInBar with
    | none => (false, bm)
    | some closestTargetBeatIndex =>
      let targetBeatTime := targetData.beatGrid.getD closestTargetBeatIndex 0
      let adjustment := targetBeatTime - targetTime
      if |adjustment| > 1 / 100 then
        (true, { bm with
          audioEngine := (bm.audioEngine.jumpToBeat targetDeckId closestTargetBeatIndex).2 })
      else (true, bm)

/-- The method `syncDeck(sourceDeckId, targetDeckId)`. -/
def syncDeck (bm : BeatManager) (sourceDeckId targetDeckId : DeckId) : BeatManager :=
  let bm := if bm.syncSettings.tempoSync then (bm.syncTempo sourceDeckId targetDeckId).2 else bm
  if bm.syncSettings.phaseSync then (bm.syncPhase sourceDeckId targetDeckId).2 else bm

/-- The handler `beatDetectionWorker.onmessage`: the analysis result for the deck
named in the message arrives. -/
def onWorkerMessage (bm : BeatManager) (deckId : DeckId) (bpm : ℚ) (beatGrid : List ℚ)
    (confidence : ℚ) : BeatManager :=
  let data := { bm.beatGridData deckId with
    bpm := bpm, beatGrid := beatGrid, confidence := confidence }
  let bm := match deckId with
    | .left => { bm with left := data }
    | .right => { bm with right := data }
  { bm with audioEngine := bm.audioEngine.dispatch (.bpmdetected deckId bpm confidence) }

end BeatManager

/-! ## Loops and hot cues (`src/js/loop-system.js`) -/

/-- One entry of `loopSettings`. The end point may be `undefined` (`none`) or a
number that is not finite. -/
structure LoopSettings where
  enabled : Bool := false
  startPoint : ℚ := 0
  endPoint : Option JSNum := some (fin 0)
  size : ℚ := 4
  autoLoop : Bool := false
  deriving DecidableEq, Repr

/-- The loop system: the engine it drives, the loop settings of the two decks and
their eight hot-cue slots (`none` is `null`). Slot indices are `0 .. 7`. -/
structure LoopSystem where
  audioEngine : AudioEngine
  left : LoopSettings := {}
  right : LoopSettings := {}
  hotCuesLeft : Fin 8 → Option ℚ := fun _ => none
  hotCuesRight : Fin 8 → Option ℚ := fun _ => none

/-- The array `loopSizeOptions`. -/
def loopSizeOptions : List ℚ := [1 / 4, 1 / 2, 1, 2, 4, 8, 16, 32]

/-- The read `array[index]` for an index that is any number: only a non-negative
integer below the length names an element, everything else gives `undefined`. -/
def numberIndexRead (array : List ℚ) (index : ℚ) : Option ℚ :=
  if index.den = 1 ∧ 0 ≤ index.num then array[index.num.toNat]? else none

namespace LoopSystem

/-- The lookup `this.loopSettings[deckId]`. -/
def loopSettings (ls : LoopSystem) : DeckId → LoopSettings
  | .left => ls.left
  | .right => ls.right

/-- A write to the fields of `this.loopSettings[deckId]`. -/
def setLoopSettings (ls : LoopSystem) (deckId : DeckId) (v : LoopSettings) : LoopSystem :=
  match deckId with
  | .left => { ls with left := v }
  | .right => { ls with right := v }

/-- The lookup `this.hotCues[deckId]`. -/
def hotCues (ls : LoopSystem) : DeckId → Fin 8 → Option ℚ
  | .left => ls.hotCuesLeft
  | .right => ls.hotCuesRight

/-- A write to `this.hotCues[deckId]`. -/
def setHotCues (ls : LoopSystem) (deckId : DeckId) (v : Fin 8 → Option ℚ) : LoopSystem :=
  match deckId with
  | .left => { ls with hotCuesLeft := v }
  | .right => { ls with hotCuesRight := v }

/-- The call `document.dispatchEvent(event)`. -/
def dispatch (ls : LoopSystem) (ev : Event) : LoopSystem :=
  { ls with audioEngine := ls.audioEngine.dispatch ev }

/-- The comparison `currentTime >= loopSettings.endPoint`; an `undefined` end point
compares as `NaN`. -/
def reachedEnd (currentTime : ℚ) : Option JSNum → Bool
  | none => false
  | some endPoint => ge (fin currentTime) endPoint

/-- The method `findClosestBeatIndex(deckId, time)`. -/
def findClosestBeatIndex (ls : LoopSystem) (deckId : DeckId) (time : ℚ) : ℤ :=
  let beatGrid := (ls.audioEngine.deck deckId).beatTracking.beatGrid
  if beatGrid.length = 0 then -1
  else ((beatGrid.enum.foldl (closestStep time) (0, posInf)).1 : ℤ)

/-- The method `applyLoopPoints(deckId)`, with the boolean it returns. The frame
callback that `setupLoopEndDetection` schedules is `checkLoopEnd`. -/
def applyLoopPoints (ls : LoopSystem) (deckId : DeckId) : Bool × LoopSystem :=
  let loopSettings := ls.loopSettings deckId
  let deck := ls.audioEngine.deck deckId
  if deck.source = none ∨ deck.buffer = none then (false, ls)
  else
    let currentTime := ls.audioEngine.getCurrentTime deckId
    if reachedEnd currentTime loopSettings.endPoint then
      (true, { ls with audioEngine := (ls.audioEngine.jumpToTime deckId loopSettings.startPoint).2 })
    else (true, ls)

/-- One run of the frame callback `checkLoopEnd` of `setupLoopEndDetection`. -/
def checkLoopEnd (ls : LoopSystem) (deckId : DeckId) : LoopSystem :=
  let loopSettings := ls.loopSettings deckId
  if !loopSettings.enabled then ls
  else
    let currentTime := ls.audioEngine.getCurrentTime deckId
    if reachedEnd currentTime loopSettings.endPoint then
      { ls with audioEngine := (ls.audioEngine.jumpToTime deckId loopSettings.startPoint).2 }
    else ls

/-- The method `setLoopPoints(deckId, startPoint, endPoint)` of the loop system. -/
def setLoopPoints (ls : LoopSystem) (deckId : DeckId) (startPoint : ℚ)
    (endPoint : Option JSNum) : LoopSystem :=
  let ls := ls.setLoopSettings deckId
    { ls.loopSettings deckId with startPoint := startPoint, endPoint := endPoint }
  let ls := if (ls.loopSettings deckId).enabled then (ls.applyLoopPoints deckId).2 else ls
  ls.dispatch (.looppointschanged deckId startPoint endPoint)

/-- The end point that `setLoopFromCurrentPosition` and `updateLoopPointsFromBeats`
compute from the start beat: `beatGrid[endBeatIndex]` when
`endBeatIndex < beatGrid.length`, otherwise `startPoint + beatDuration * loopSize`. -/
def beatLoopEnd (deck : Deck) (closestBeatIndex : ℤ) (startPoint loopSize : ℚ) : Option JSNum :=
  let endBeatIndex : ℚ := (closestBeatIndex : ℚ) + loopSize
  if endBeatIndex < (deck.beatTracking.beatGrid.length : ℚ) then
    (numberIndexRead deck.beatTracking.beatGrid endBeatIndex).map fin
  else
    let beatDuration := div (fin 60) (fin deck.beatTracking.bpm)
    some (add (fin startPoint) (mul beatDuration (fin loopSize)))

/-- The method `setLoopFromCurrentPosition(deckId)`. -/
def setLoopFromCurrentPosition (ls : LoopSystem) (deckId : DeckId) : LoopSystem :=
  let currentTime := ls.audioEngine.getCurrentTime deckId
  let deck := ls.audioEngine.deck deckId
  if deck.beatTracking.beatGrid.length > 0 then
    let closestBeatIndex := ls.findClosestBeatIndex deckId currentTime
    let startPoint := deck.beatTracking.beatGrid.getD closestBeatIndex.toNat 0
    let loopSize := (ls.loopSettings deckId).size
    let endPoint := beatLoopEnd deck closestBeatIndex startPoint loopSize
    ls.setLoopPoints deckId startPoint endPoint
  else
    ls.setLoopPoints deckId currentTime (some (fin (currentTime + 4)))

/-- The method `disableLoop(deckId)` of the loop system. -/
def disableLoop (ls : LoopSystem) (deckId : DeckId) : LoopSystem :=
  ls.setLoopSettings deckId { ls.loopSettings deckId with enabled := false }

/-- The method `resetLoopPoints(deckId)`. -/
def resetLoopPoints (ls : LoopSystem) (deckId : DeckId) : LoopSystem :=
  ls.setLoopSettings deckId
    { ls.loopSettings deckId with enabled := false, startPoint := 0, endPoint := some (fin 0) }

/-- The method `setHotCue(deckId, index)` of the loop system, with the position it
returns. -/
def setHotCue (ls : LoopSystem) (deckId : DeckId) (index : Fin 8) : ℚ × LoopSystem :=
  let currentTime := ls.audioEngine.getCurrentTime deckId
  let ls := ls.setHotCues deckId (Function.update (ls.hotCues deckId) index (some currentTime))
  (currentTime, ls.dispatch (.hotcueset deckId index currentTime))

/-- The method `jumpToHotCue(deckId, index)` of the loop system, with the boolean it
returns. -/
def jumpToHotCue (ls : LoopSystem) (deckId : DeckId) (index : Fin 8) : Bool × LoopSystem :=
  match ls.hotCues deckId index with
  | none => (false, ls)
  | some position =>
    let ls := { ls with audioEngine := (ls.audioEngine.jumpToTime deckId position).2 }
    (true, ls.dispatch (.hotcuejump deckId index position))

/-- The method `clearHotCue(deckId, index)` of the loop system, with the boolean it
returns. -/
def clearHotCue (ls : LoopSystem) (deckId : DeckId) (index : Fin 8) : Bool × LoopSystem :=
  let ls := ls.setHotCues deckId (Function.update (ls.hotCues deckId) index none)
  (true, ls.dispatch (.hotcuecleared deckId index))

/-- The method `resetHotCues(deckId)`. -/
def resetHotCues (ls : LoopSystem) (deckId : DeckId) : LoopSystem :=
  (ls.setHotCues deckId fun _ => none).dispatch (.hotcuesreset deckId)

/-- The listener for `trackloaded` that `setupEventListeners` registers. -/
def onTrackLoaded (ls : LoopSystem) (deckId : DeckId) : LoopSystem :=
  (ls.resetLoopPoints deckId).resetHotCues deckId

end LoopSystem

/-! ## Test scenarios -/

/-- An engine whose left deck has base BPM `bs` and playback rate `rs` and whose
right deck has base BPM `bt`; everything else is as `createDeck` leaves it. -/
def scenarioEngine (bs rs bt : ℚ) : AudioEngine :=
  { currentTime := 0,
    left := { createDeck with
      playbackRate := rs, beatTracking := { bpm := bs, beatGrid := [], confidence := 1 } },
    right := { createDeck with
      beatTracking := { bpm := bt, beatGrid := [], confidence := 1 } } }

/-- A beat manager over `scenarioEngine` that holds the same tempi. -/
def scenarioManager (bs rs bt : ℚ) : BeatManager :=
  { audioEngine := scenarioEngine bs rs bt,
    left := { bpm := bs, beatGrid := [], confidence := 1, phase := 0 },
    right := { bpm := bt, beatGrid := [], confidence := 1, phase := 0 } }

/-- An engine at clock time `now` whose left deck is `d`; the right deck is as
`createDeck` leaves it. -/
def engineWith (now : ℚ) (d : Deck) : AudioEngine :=
  { currentTime := now, left := d, right := createDeck }

/-- A deck with a 60 second track, paused at `pauseTime`, with the given playback
rate. -/
def pausedDeck (pauseTime rate : ℚ) : Deck :=
  { createDeck with
    buffer := some { duration := 60 }, loaded := true, pauseTime := pauseTime,
    playbackRate := rate }

/-- A deck with a 60 second track that is playing with the given anchor
`startTime` and playback rate. -/
def playingDeck (startTime rate : ℚ) : Deck :=
  { createDeck with
    buffer := some { duration := 60 }, loaded := true, isPlaying := true,
    source := some { playbackRate := rate, offset := 0 }, startTime := startTime,
    playbackRate := rate }

/-- The beat grid of a 2 second track at 120 BPM. -/
def shortGrid : List ℚ := [0, 1 / 2, 1, 3 / 2, 2]

/-- A beat manager at clock time 10 in which both decks hold `shortGrid`, in the
manager and in the engine; the left deck is paused at 0 and the right deck plays
at rate 1/2 with anchor 31/5, so that its reported position is 1.9 s. -/
def phaseScenario : BeatManager :=
  { audioEngine :=
      { currentTime := 10,
        left := { pausedDeck 0 1 with
          beatTracking := { bpm := 120, beatGrid := shortGrid, confidence := 1 } },
        right := { playingDeck (31 / 5) (1 / 2) with
          beatTracking := { bpm := 120, beatGrid := shortGrid, confidence := 1 } } },
    left := { bpm := 120, beatGrid := shortGrid, confidence := 1, phase := 0 },
    right := { bpm := 120, beatGrid := shortGrid, confidence := 1, phase := 0 } }

/-- A beat manager at clock time 10 whose source (left) deck holds the grid
`[0, 0.5]` and is paused at 0.5 s, and whose target (right) deck holds the
one-entry grid `[0]` and is playing. -/
def noMatchScenario : BeatManager :=
  { audioEngine :=
      { currentTime := 10,
        left := { pausedDeck (1 / 2) 1 with
          beatTracking := { bpm := 120, beatGrid := [0, 1 / 2], confidence := 1 } },
        right := { playingDeck 10 1 with
          beatTracking := { bpm := 120, beatGrid := [0], confidence := 1 } } },
    left := { bpm := 120, beatGrid := [0, 1 / 2], confidence := 1, phase := 0 },
    right := { bpm := 120, beatGrid := [0], confidence := 1, phase := 0 } }

/-- A loop system at clock time 10 whose left deck has played a 60 second track
at rate 3/2 since clock time 0 (reported position 15 s), with the loop
`[10, 14]` enabled. -/
def loopScenario : LoopSystem :=
  { audioEngine := engineWith 10 (playingDeck 0 (3 / 2)),
    left := { enabled := true, startPoint := 10, endPoint := some (fin 14) } }

/-- A loop system at clock time 100 whose left deck plays a 60 second track at
rate 6/5 with anchor 325/4, so that its reported position is 22.5 s. -/
def cueScenario : LoopSystem :=
  { audioEngine := engineWith 100 (playingDeck (325 / 4) (6 / 5)) }

/-- A loop system whose left deck is paused at 0 s, holds `shortGrid` at 120 BPM,
and has the loop size 1/2 beat. -/
def halfBeatScenario : LoopSystem :=
  { audioEngine := engineWith 0
      { pausedDeck 0 1 with
        beatTracking := { bpm := 120, beatGrid := shortGrid, confidence := 1 } },
    left := { size := 1 / 2 } }

/-- An engine at clock time 100 whose left deck plays a 60 second track at rate
6/5 with anchor 90 (reported position 12 s) and has hot cues stored at 22.5 s in
slot 3 and at 30 s in slot 5. -/
def twoCueEngine : AudioEngine :=
  (((engineWith 100 (playingDeck 90 (6 / 5))).setHotCue .left 3 (some (45 / 2))).2.setHotCue
    .left 5 (some 30)).2

/-- The engine `twoCueEngine` after `setLoopPoints(10, 14)` and `enableLoop` on
its left deck: the loop `[10, 14]` is stored and enabled, the cues are in place. -/
def loopedCueEngine : AudioEngine :=
  ((twoCueEngine.setLoopPoints .left 10 14).2.enableLoop .left).2

/-- A fresh engine after track A (60 s) and then track B (200 s) were loaded into
the left deck and the analysis result of B (100 BPM) has arrived. -/
def reloadedEngine : AudioEngine :=
  ((((engineWith 0 createDeck).loadTrack .left { duration := 60 } id).loadTrack .left
    { duration := 200 } id).onBpmResult .left 100 [0, 3 / 5] 1)

/-- What happens to an engine when `playDeck` is called on the left deck while a
`loadTrack` is suspended, and three seconds pass until the decoding is done. -/
def playWhileLoading (e : AudioEngine) : AudioEngine :=
  { (e.playDeck .left).2 with currentTime := e.currentTime + 3 }

/-- An engine at clock time 100 whose left deck plays a 60 second track at rate 1
with anchor 88 (reported position 12 s) and holds `shortGrid` at 120 BPM. -/
def gridPlayingEngine : AudioEngine :=
  engineWith 100
    { playingDeck 88 1 with
      beatTracking := { bpm := 120, beatGrid := shortGrid, confidence := 1 } }

/-- An energy signal of the given length that is 1 at the samples `p1` and `p2`
and 0 everywhere else. -/
def spikes (len p1 p2 : Nat) : List ℚ :=
  (List.range len).map fun (j : Nat) => if j = p1 ∨ j = p2 then 1 else 0

/-! ## Reference definitions, in the words of the specification -/

/-- Specification side: a value rounded to the nearest 0.01. -/
def nearestHundredth (x : ℚ) : ℚ := ((round (x * 100) : ℤ) : ℚ) / 100

/-- Specification side: a value rounded to one decimal place. -/
def nearestTenth (x : ℚ) : ℚ := ((round (x * 10) : ℤ) : ℚ) / 10

/-- Specification side: the octave correction, applied once: a tempo below 60 is
doubled, a tempo above 180 is halved, a tempo in `[60, 180]` is kept. -/
def specOctave (x : ℚ) : ℚ := if x < 60 then x * 2 else if 180 < x then x / 2 else x

/-- The onsets of a click track of period `P`: `0, P, 2P, …, (n-1)P`. -/
def periodicOnsets (n : Nat) (P : ℚ) : List ℚ := (List.range n).map fun (i : Nat) => (i : ℚ) * P

/-- Specification side: the filtered signal over every `f`-th sample of `x`:
`y[0] = x[0]` and `y[i] = 0.05 · x[i · f] + 0.95 · y[i - 1]`. -/
def specFiltered (x : List ℚ) (f : Nat) : Nat → ℚ
  | 0 => x.getD 0 0
  | i + 1 => 5 / 100 * x.getD ((i + 1) * f) 0 + 95 / 100 * specFiltered x f i

/-- Specification side: `j` is the index of the beat nearest to `time` among the
grid indices that satisfy `p`, the lowest such index when several beats are
equally near. -/
def IsNearestBeat (grid : List ℚ) (time : ℚ) (p : Nat → Prop) (j : Nat) : Prop :=
  j < grid.length ∧ p j ∧
  ∀ k, k < grid.length → p k →
    |time - grid.getD j 0| ≤ |time - grid.getD k 0| ∧
    (k < j → |time - grid.getD j 0| < |time - grid.getD k 0|)

/-! ## Facts about the histogram and the search for its mode -/

theorem get_bump (k k2 : ℚ) (h : Histogram) :
    (Histogram.bump k h).get k2 = h.get k2 + if k2 = k then 1 else 0 := by
  induction h with
  | nil =>
    by_cases hk : k = k2
    · subst hk; simp [Histogram.bump, Histogram.get]
    · have hk2 : ¬ k2 = k := fun e => hk e.symm
      simp [Histogram.bump, Histogram.get, hk, hk2]
  | cons e rest ih =>
    obtain ⟨k0, c⟩ := e
    by_cases h0 : k0 = k
    · subst h0
      by_cases h1 : k0 = k2
      · subst h1; simp [Histogram.bump, Histogram.get]
      · have h2 : ¬ k2 = k0 := fun e => h1 e.symm
        simp [Histogram.bump, Histogram.get, h1, h2]
    · by_cases h1 : k0 = k2
      · subst h1
        simp [Histogram.bump, Histogram.get, h0]
      · simp [Histogram.bump, Histogram.get, h0, h1, ih]

theorem keys_bump (k : ℚ) (h : Histogram) :
    (Histogram.bump k h).keys = if k ∈ h.keys then h.keys else h.keys ++ [k] := by
  induction h with
  | nil => simp [Histogram.bump, Histogram.keys]
  | cons e rest ih =>
    obtain ⟨k0, c⟩ := e
    simp only [Histogram.keys] at ih
    by_cases h0 : k0 = k
    · subst h0; simp [Histogram.bump, Histogram.keys]
    · have h1 : ¬ k = k0 := fun e => h0 e.symm
      by_cases hm : k ∈ List.map Prod.fst rest
      · simp only [hm, if_true] at ih
        simp [Histogram.bump, Histogram.keys, h0, h1, hm, ih]
      · simp only [hm, if_false] at ih
        simp [Histogram.bump, Histogram.keys, h0, h1, hm, ih]

theorem keys_bump_nodup (k : ℚ) (h : Histogram) (hn : h.keys.Nodup) :
    (Histogram.bump k h).keys.Nodup := by
  rw [keys_bump]
  split_ifs with hk
  · exact hn
  · exact List.Nodup.append hn (List.nodup_singleton k) (by simpa using hk)

theorem mem_keys_bump (k k2 : ℚ) (h : Histogram) :
    k2 ∈ (Histogram.bump k h).keys ↔ k2 ∈ h.keys ∨ k2 = k := by
  rw [keys_bump]
  split_ifs with hk
  · constructor
    · intro h1; exact Or.inl h1
    · rintro (h1 | h1)
      · exact h1
      · subst h1; exact hk
  · simp

theorem get_of_mem (h : Histogram) (hn : h.keys.Nodup) (k : ℚ) (c : Nat)
    (hm : (k, c) ∈ h) : h.get k = c := by
  induction h with
  | nil => simp at hm
  | cons e rest ih =>
    obtain ⟨k0, c0⟩ := e
    simp only [Histogram.keys, List.map_cons, List.nodup_cons] at hn
    rcases List.mem_cons.mp hm with h1 | h1
    · injection h1 with h2 h3
      subst h2; subst h3
      simp [Histogram.get]
    · have hne : ¬ k0 = k := by
        intro e; subst e
        exact hn.1 (List.mem_map_of_mem Prod.fst h1)
      simp only [Histogram.get, hne, if_false]
      exact ih hn.2 h1

theorem foldl_bump_spec (l : List ℚ) (h : Histogram) (hn : h.keys.Nodup) :
    (l.foldl (fun h interval => Histogram.bump (roundedInterval interval) h) h).keys.Nodup ∧
    (∀ k, (l.foldl (fun h interval => Histogram.bump (roundedInterval interval) h) h).get k
        = h.get k + (l.map roundedInterval).count k) ∧
    (∀ k, k ∈ (l.foldl (fun h interval => Histogram.bump (roundedInterval interval) h) h).keys
        ↔ k ∈ h.keys ∨ k ∈ l.map roundedInterval) := by
  induction l generalizing h with
  | nil => simp [hn]
  | cons a rest ih =>
    obtain ⟨h1, h2, h3⟩ := ih (Histogram.bump (roundedInterval a) h) (keys_bump_nodup _ _ hn)
    refine ⟨h1, ?_, ?_⟩
    · intro k
      rw [List.foldl_cons, h2 k, get_bump, List.map_cons, List.count_cons]
      by_cases hk : k = roundedInterval a
      · subst hk; simp; omega
      · have hk2 : ¬ roundedInterval a = k := fun e => hk e.symm
        simp [hk, hk2]
    · intro k
      rw [List.foldl_cons, h3 k, mem_keys_bump, List.map_cons, List.mem_cons]
      tauto

theorem buildHistogram_spec (intervals : List ℚ) :
    (buildHistogram intervals).keys.Nodup ∧
    (∀ k, (buildHistogram intervals).get k = (intervals.map roundedInterval).count k) ∧
    (∀ k, k ∈ (buildHistogram intervals).keys ↔ k ∈ intervals.map roundedInterval) := by
  obtain ⟨h1, h2, h3⟩ := foldl_bump_spec intervals [] (by simp [Histogram.keys])
  refine ⟨h1, ?_, ?_⟩
  · intro k; simpa [Histogram.get] using h2 k
  · intro k; simpa [Histogram.keys] using h3 k

theorem forInOrder_perm (h : Histogram) : (forInOrder h).Perm h := by
  unfold forInOrder
  refine (List.Perm.append_right _ (List.perm_insertionSort _ _)).trans ?_
  exact List.filter_append_perm (fun e => isArrayIndex e.1) h

theorem foldl_mostCommonStep_ge (l : List (ℚ × Nat)) (acc : Nat × ℚ) :
    acc.1 ≤ (l.foldl mostCommonStep acc).1 ∧
    ∀ e ∈ l, e.2 ≤ (l.foldl mostCommonStep acc).1 := by
  induction l generalizing acc with
  | nil => simp
  | cons a rest ih =>
    obtain ⟨h1, h2⟩ := ih (mostCommonStep acc a)
    have hstep : acc.1 ≤ (mostCommonStep acc a).1 ∧ a.2 ≤ (mostCommonStep acc a).1 := by
      unfold mostCommonStep
      split_ifs with hc
      · exact ⟨le_of_lt hc, le_refl _⟩
      · exact ⟨le_refl _, not_lt.mp hc⟩
    refine ⟨le_trans hstep.1 h1, ?_⟩
    intro e he
    rcases List.mem_cons.mp he with h3 | h3
    · subst h3; exact le_trans hstep.2 h1
    · exact h2 e h3

theorem foldl_mostCommonStep_mem (l : List (ℚ × Nat)) (acc : Nat × ℚ) :
    l.foldl mostCommonStep acc = acc ∨
    (((l.foldl mostCommonStep acc).2, (l.foldl mostCommonStep acc).1) ∈ l ∧
      acc.1 < (l.foldl mostCommonStep acc).1) := by
  induction l generalizing acc with
  | nil => simp
  | cons a rest ih =>
    rw [List.foldl_cons]
    have hstep : mostCommonStep acc a = acc ∨
        (mostCommonStep acc a = (a.2, a.1) ∧ acc.1 < a.2) := by
      unfold mostCommonStep
      split_ifs with hc
      · exact Or.inr ⟨rfl, hc⟩
      · exact Or.inl rfl
    have hge := (foldl_mostCommonStep_ge rest (mostCommonStep acc a)).1
    rcases ih (mostCommonStep acc a) with h1 | ⟨h1, h2⟩
    · rw [h1]
      rcases hstep with h3 | ⟨h3, h4⟩
      · exact Or.inl h3
      · refine Or.inr ⟨?_, ?_⟩
        · rw [h3]; exact List.mem_cons_self _ _
        · rw [h3]; exact h4
    · refine Or.inr ⟨List.mem_cons_of_mem _ h1, ?_⟩
      rcases hstep with h3 | ⟨h3, h4⟩
      · exact lt_of_le_of_lt (le_of_eq (congrArg Prod.fst h3.symm)) h2
      · exact lt_trans (lt_of_lt_of_eq h4 (congrArg Prod.fst h3.symm)) h2

/-- The outcome of the search on a non-empty interval list: the winning key is
the quantized value of some interval, its count is the number of intervals that
quantize to it, and no quantized value occurs more often. -/
theorem mostCommon_spec (intervals : List ℚ) (hne : intervals ≠ []) :
    (mostCommon intervals).2 ∈ intervals.map roundedInterval ∧
    (mostCommon intervals).1 = (intervals.map roundedInterval).count (mostCommon intervals).2 ∧
    ∀ k, (intervals.map roundedInterval).count k ≤ (mostCommon intervals).1 := by
  obtain ⟨hn, hget, hkeys⟩ := buildHistogram_spec intervals
  have hperm := forInOrder_perm (buildHistogram intervals)
  have hge := foldl_mostCommonStep_ge (forInOrder (buildHistogram intervals)) (0, 0)
  have hmax : ∀ k, (intervals.map roundedInterval).count k ≤ (mostCommon intervals).1 := by
    intro k
    by_cases hk : k ∈ intervals.map roundedInterval
    · have hk2 : k ∈ (buildHistogram intervals).keys := (hkeys k).mpr hk
      obtain ⟨e, he, hek⟩ := List.mem_map.mp hk2
      have he2 : (k, e.2) ∈ buildHistogram intervals := by rw [← hek]; exact he
      have hc := get_of_mem _ hn k e.2 he2
      rw [← hget k, hc]
      exact hge.2 e (hperm.mem_iff.mpr he)
    · rw [List.count_eq_zero_of_not_mem hk]; exact Nat.zero_le _
  obtain ⟨a, ha⟩ := List.exists_mem_of_ne_nil intervals hne
  have hpos : 0 < (mostCommon intervals).1 :=
    lt_of_lt_of_le (List.count_pos_iff.mpr (List.mem_map_of_mem roundedInterval ha))
      (hmax (roundedInterval a))
  rcases foldl_mostCommonStep_mem (forInOrder (buildHistogram intervals)) (0, 0) with h1 | ⟨h1, _⟩
  · exfalso
    have : (mostCommon intervals).1 = 0 := by unfold mostCommon; rw [h1]
    omega
  · have hmem : ((mostCommon intervals).2, (mostCommon intervals).1) ∈ buildHistogram intervals :=
      hperm.mem_iff.mp h1
    have hc := get_of_mem _ hn _ _ hmem
    refine ⟨?_, ?_, hmax⟩
    · exact (hkeys _).mp (List.mem_map_of_mem Prod.fst hmem)
    · rw [← hget, hc]

/-! ## Bridging the worker arithmetic and the reference definitions -/

theorem roundedInterval_eq_nearestHundredth (x : ℚ) : roundedInterval x = nearestHundredth x := by
  unfold roundedInterval nearestHundredth
  rw [round_eq]

theorem roundedInterval_hundredths (k : ℤ) : roundedInterval ((k : ℚ) / 100) = (k : ℚ) / 100 := by
  unfold roundedInterval
  have h : ⌊(k : ℚ) / 100 * 100 + 1 / 2⌋ = k := by
    rw [Int.floor_eq_iff]
    constructor <;> linarith
  rw [h]

theorem roundedInterval_mono (x y : ℚ) (h : x ≤ y) : roundedInterval x ≤ roundedInterval y := by
  unfold roundedInterval
  have h1 : ⌊x * 100 + 1 / 2⌋ ≤ ⌊y * 100 + 1 / 2⌋ := Int.floor_le_floor (by linarith)
  have h2 : ((⌊x * 100 + 1 / 2⌋ : ℤ) : ℚ) ≤ ((⌊y * 100 + 1 / 2⌋ : ℤ) : ℚ) := by exact_mod_cast h1
  linarith

theorem roundToTenth_fin (x : ℚ) : roundToTenth (fin x) = fin (nearestTenth x) := by
  unfold roundToTenth nearestTenth
  rw [round_eq]
  simp [JSNum.mul, JSNum.round, JSNum.div]

theorem octaveCorrect_fin (x : ℚ) : octaveCorrect (fin x) = fin (specOctave x) := by
  unfold octaveCorrect specOctave
  by_cases h1 : x < 60
  · simp [JSNum.lt, JSNum.mul, h1]
  · by_cases h2 : 180 < x
    · simp [JSNum.lt, JSNum.gt, JSNum.div, h1, h2]
    · simp [JSNum.lt, JSNum.gt, h1, h2]

/-- The tempo computed from a non-zero winning key. -/
theorem bpm_of_key (m : ℚ) (hm : m ≠ 0) :
    roundToTenth (octaveCorrect (div (fin 60) (fin m))) = fin (nearestTenth (specOctave (60 / m))) := by
  have h : div (fin 60) (fin m) = fin (60 / m) := by simp [JSNum.div, hm]
  rw [h, octaveCorrect_fin, roundToTenth_fin]

/-- The tempo computed from the winning key zero: `60 / 0` is `Infinity`, and it
stays so through the halving and the rounding. -/
theorem bpm_of_zero_key : roundToTenth (octaveCorrect (div (fin 60) (fin 0))) = posInf := by
  simp [JSNum.div, JSNum.infOfSign, octaveCorrect, JSNum.lt, JSNum.gt, roundToTenth, JSNum.mul,
    JSNum.round]

theorem nearestTenth_bounds (lo hi : ℤ) (y : ℚ) (h1 : (lo : ℚ) ≤ y) (h2 : y ≤ hi) :
    (lo : ℚ) ≤ nearestTenth y ∧ nearestTenth y ≤ hi := by
  unfold nearestTenth
  rw [round_eq]
  have ha : lo * 10 ≤ ⌊y * 10 + 1 / 2⌋ := by
    rw [Int.le_floor]; push_cast; linarith
  have hb : ⌊y * 10 + 1 / 2⌋ ≤ hi * 10 := by
    have : ⌊y * 10 + 1 / 2⌋ < hi * 10 + 1 := by
      rw [Int.floor_lt]; push_cast; linarith
    omega
  have ha2 : ((lo * 10 : ℤ) : ℚ) ≤ ((⌊y * 10 + 1 / 2⌋ : ℤ) : ℚ) := by exact_mod_cast ha
  have hb2 : ((⌊y * 10 + 1 / 2⌋ : ℤ) : ℚ) ≤ ((hi * 10 : ℤ) : ℚ) := by exact_mod_cast hb
  push_cast at ha2 hb2
  constructor <;> linarith

theorem analyzeIntervals_range (P : ℚ) (n s : Nat) :
    analyzeIntervals ((List.range' s (n + 1)).map fun (i : Nat) => (i : ℚ) * P) = List.replicate n P := by
  induction n generalizing s with
  | zero => simp [analyzeIntervals]
  | succ n ih =>
    have h := ih (s + 1)
    rw [List.range'_succ] at h ⊢
    simp only [List.map_cons, analyzeIntervals] at h ⊢
    rw [h, List.replicate_succ]
    congr 1
    push_cast; ring

theorem analyzeIntervals_periodic (P : ℚ) (n : Nat) :
    analyzeIntervals (periodicOnsets (n + 1) P) = List.replicate n P := by
  unfold periodicOnsets
  rw [List.range_eq_range']
  exact analyzeIntervals_range P n 0

theorem mostCommon_replicate (n : Nat) (P : ℚ) :
    mostCommon (List.replicate (n + 1) P) = (n + 1, roundedInterval P) := by
  obtain ⟨h1, h2, _⟩ := mostCommon_spec (List.replicate (n + 1) P) (by simp [List.replicate_succ])
  rw [List.map_replicate] at h1 h2
  have hk := List.eq_of_mem_replicate h1
  rw [hk, List.count_replicate_self] at h2
  exact Prod.ext h2 hk

/-- The estimate for `n + 1` equal intervals whose quantized value is not zero. -/
theorem determineBPM_replicate (n : Nat) (P : ℚ) (hq : roundedInterval P ≠ 0) :
    determineBPM (List.replicate (n + 1) P)
      = { bpm := fin (nearestTenth (specOctave (60 / roundedInterval P))), confidence := fin 1 } := by
  unfold determineBPM
  have hlen : (List.replicate (n + 1) P).length ≠ 0 := by simp
  rw [if_neg hlen, mostCommon_replicate]
  simp only [bpm_of_key _ hq, List.length_replicate]
  have hn : ((n : ℚ) + 1) ≠ 0 := by positivity
  simp [JSNum.div, hn]

/-! ## The beat grid -/

theorem arrayLength_int (z : ℤ) (hz : 0 ≤ z) (hlt : z < 2 ^ 32) :
    arrayLength (fin (z : ℚ)) = .ok z.toNat := by
  have hlt2 : z < 4294967296 := by norm_num at hlt; exact hlt
  simp [arrayLength, hz, hlt2]

theorem arrayLength_neg (z : ℤ) (hz : z < 0) : arrayLength (fin (z : ℚ)) = .error .rangeError := by
  simp [arrayLength, hz]

/-- The value of `Math.floor(duration / beatInterval) + 1` for a finite, non-zero interval. -/
theorem numBeats_fin (duration interval : ℚ) (hi : interval ≠ 0) :
    add (floor (div (fin duration) (fin interval))) (fin 1)
      = fin ((⌊duration / interval⌋ + 1 : ℤ) : ℚ) := by
  simp [JSNum.div, hi, JSNum.floor, JSNum.add]

/-- The grid for a positive tempo and a non-negative duration, when the entry count
is a valid array length. -/
theorem generateBeatGrid_pos (bpm duration : ℚ) (hb : 0 < bpm) (hd : 0 ≤ duration)
    (hn32 : ⌊duration / (60 / bpm)⌋ + 1 < 2 ^ 32) :
    generateBeatGrid (fin bpm) (fin duration)
      = .ok ((List.range (⌊duration / (60 / bpm)⌋.toNat + 1)).map
          fun (i : Nat) => fin ((i : ℚ) * (60 / bpm))) := by
  have hI : (60 : ℚ) / bpm ≠ 0 := by positivity
  have h1 : div (fin 60) (fin bpm) = fin (60 / bpm) := by simp [JSNum.div, hb.ne.symm]
  have hfl : 0 ≤ ⌊duration / (60 / bpm)⌋ := Int.floor_nonneg.mpr (by positivity)
  unfold generateBeatGrid
  simp only [h1]
  rw [numBeats_fin duration (60 / bpm) hI, arrayLength_int _ (by omega) hn32]
  have hn : (⌊duration / (60 / bpm)⌋ + 1).toNat = ⌊duration / (60 / bpm)⌋.toNat + 1 := by omega
  simp only [hn, JSNum.mul]

theorem generateBeatGrid_zero_bpm (duration : ℚ) :
    generateBeatGrid (fin 0) (fin duration) = .ok [nan] := by
  simp [generateBeatGrid, JSNum.div, JSNum.infOfSign, JSNum.floor, JSNum.add, arrayLength,
    JSNum.mul, List.range_succ_eq_map]

/-- The entry count computed for a negative tempo, as an integer. -/
theorem generateBeatGrid_neg_bpm (bpm duration : ℚ) (hb : bpm < 0) :
    generateBeatGrid (fin bpm) (fin duration)
      = match arrayLength (fin ((⌊duration / (60 / bpm)⌋ + 1 : ℤ) : ℚ)) with
        | .error e => .error e
        | .ok n => .ok ((List.range n).map fun (i : Nat) => fin ((i : ℚ) * (60 / bpm))) := by
  have hI : (60 : ℚ) / bpm ≠ 0 := div_ne_zero (by norm_num) hb.ne
  have h1 : div (fin 60) (fin bpm) = fin (60 / bpm) := by simp [JSNum.div, hb.ne]
  unfold generateBeatGrid
  simp only [h1]
  rw [numBeats_fin duration (60 / bpm) hI]
  rfl

/-- C4 (amended): `generateBeatGrid` does not validate its tempo. For bpm = 0 it
returns the one-entry grid `[NaN]`; for bpm < 0 it returns `[0]` when the duration
is 0, the empty grid when `0 < duration ≤ 60 / |bpm|`, and raises a `RangeError`
when `duration > 60 / |bpm|`. -/
theorem C4_generateBeatGrid_unvalidated (bpm duration : ℚ) (hb : bpm ≤ 0) (hd : 0 ≤ duration) :
    generateBeatGrid (fin bpm) (fin duration) =
      if bpm = 0 then .ok [nan]
      else if duration = 0 then .ok [fin 0]
      else if duration ≤ 60 / (-bpm) then .ok []
      else .error .rangeError := by
  by_cases h0 : bpm = 0
  · subst h0; rw [if_pos rfl]; exact generateBeatGrid_zero_bpm duration
  rw [if_neg h0]
  have hneg : bpm < 0 := lt_of_le_of_ne hb h0
  have hJ : (0 : ℚ) < 60 / (-bpm) := by
    have : (0 : ℚ) < -bpm := by linarith
    positivity
  have hIJ : duration / (60 / bpm) = -(duration / (60 / (-bpm))) := by
    rw [div_neg, div_neg, neg_neg]
  rw [generateBeatGrid_neg_bpm bpm duration hneg, hIJ]
  by_cases hd0 : duration = 0
  · subst hd0
    rw [if_pos rfl]
    simp [arrayLength, List.range_succ_eq_map]
  rw [if_neg hd0]
  have hdpos : 0 < duration := lt_of_le_of_ne hd (Ne.symm hd0)
  have hx : 0 < duration / (60 / (-bpm)) := by positivity
  by_cases hle : duration ≤ 60 / (-bpm)
  · rw [if_pos hle]
    have hx1 : duration / (60 / (-bpm)) ≤ 1 := (div_le_one hJ).mpr hle
    have hfl : ⌊-(duration / (60 / (-bpm)))⌋ = -1 := by
      rw [Int.floor_eq_iff]
      constructor
      · push_cast; linarith
      · push_cast; linarith
    rw [hfl]
    simp [arrayLength]
  · rw [if_neg hle]
    have hx1 : 1 < duration / (60 / (-bpm)) := (one_lt_div hJ).mpr (not_le.mp hle)
    have hfl : ⌊-(duration / (60 / (-bpm)))⌋ < -1 := by
      rw [Int.floor_lt]
      push_cast; linarith
    rw [arrayLength_neg _ (by omega)]

/-- Witness for C4 (amended): a negative tempo on a 30 second track. -/
theorem C4_generateBeatGrid_unvalidated_witness :
    generateBeatGrid (fin (-120)) (fin 30) = .error .rangeError := by
  have h := C4_generateBeatGrid_unvalidated (-120) 30 (by norm_num) (by norm_num)
  rw [h]
  norm_num

/-- Counterexample for C4: the tempo 0 is neither rejected nor replaced by the
fallback tempo, and its grid holds a `NaN`; the tempo -120 on a 30 second track
raises a `RangeError`. -/
theorem C4_counterexample :
    generateBeatGrid (fin 0) (fin 30) = .ok [nan] ∧
    generateBeatGrid (fin 0) (fin 30) ≠ generateBeatGrid (fin 120) (fin 30) ∧
    isFinite nan = false ∧
    generateBeatGrid (fin (-120)) (fin 30) = .error .rangeError := by
  refine ⟨generateBeatGrid_zero_bpm 30, ?_, rfl, ?_⟩
  · have hfl : ⌊(30 : ℚ) / (60 / 120)⌋ = 60 := by
      rw [Int.floor_eq_iff]; norm_num
    rw [generateBeatGrid_zero_bpm,
      generateBeatGrid_pos 120 30 (by norm_num) (by norm_num) (by rw [hfl]; norm_num)]
    simp [List.range_succ_eq_map]
  · rw [generateBeatGrid_neg_bpm _ _ (by norm_num)]
    have hfl : ⌊(30 : ℚ) / (60 / (-120))⌋ = -60 := by
      rw [Int.floor_eq_iff]; norm_num
    rw [hfl]
    simp [arrayLength]

/-! ## The tempo estimator -/

theorem specOctave_mid (x : ℚ) (h1 : 60 ≤ x) (h2 : x ≤ 180) : specOctave x = x := by
  unfold specOctave
  rw [if_neg (not_lt.mpr h1), if_neg (not_lt.mpr h2)]

/-- C5: for n ≥ 2 onsets `0, P, …, (n-1)P` whose period P is an exact multiple of
0.01 s with `60 ≤ 60 / P ≤ 180`, the estimator returns `60 / P` rounded to one
decimal place, with confidence 1. -/
theorem C5_periodic_click_track (n : Nat) (k : ℤ) (P : ℚ) (hn : 2 ≤ n) (hP : P = (k : ℚ) / 100)
    (hlo : 60 ≤ 60 / P) (hhi : 60 / P ≤ 180) :
    determineBPM (analyzeIntervals (periodicOnsets n P))
      = { bpm := fin (nearestTenth (60 / P)), confidence := fin 1 } := by
  obtain ⟨j, rfl⟩ : ∃ j, n = j + 1 + 1 := ⟨n - 2, by omega⟩
  have hq : roundedInterval P = P := by rw [hP]; exact roundedInterval_hundredths k
  have hP0 : P ≠ 0 := by
    intro h0
    rw [h0, div_zero] at hlo
    norm_num at hlo
  rw [analyzeIntervals_periodic, determineBPM_replicate j P (by rw [hq]; exact hP0), hq,
    specOctave_mid _ hlo hhi]

/-- Witness for C5: 60 onsets spaced 0.5 s apart give 120.0 BPM with confidence 1. -/
theorem C5_periodic_click_track_witness :
    determineBPM (analyzeIntervals (periodicOnsets 60 (1 / 2)))
      = { bpm := fin 120, confidence := fin 1 } := by
  have h := C5_periodic_click_track 60 50 (1 / 2) (by norm_num) (by norm_num) (by norm_num)
    (by norm_num)
  rw [h]
  have h2 : nearestTenth (60 / (1 / 2)) = 120 := by
    unfold nearestTenth
    rw [round_eq]
    have hfl : ⌊(60 : ℚ) / (1 / 2) * 10 + 1 / 2⌋ = 1200 := by
      rw [Int.floor_eq_iff]; norm_num
    rw [hfl]; norm_num
  rw [h2]

/-- C6: for fewer than two onsets the estimator returns exactly bpm 120 and
confidence 0; the functions are total, so nothing is thrown. -/
theorem C6_too_few_onsets (onsets : List ℚ) (h : onsets.length < 2) :
    determineBPM (analyzeIntervals onsets) = { bpm := fin 120, confidence := fin 0 } := by
  match onsets, h with
  | [], _ => simp [analyzeIntervals, determineBPM]
  | [a], _ => simp [analyzeIntervals, determineBPM]
  | a :: b :: rest, h => simp at h; omega

/-- Witness for C6: a single onset. -/
theorem C6_too_few_onsets_witness :
    determineBPM (analyzeIntervals [5]) = { bpm := fin 120, confidence := fin 0 } :=
  C6_too_few_onsets [5] (by decide)

/-- C7 (amended): for n ≥ 2 onsets of constant period P with `1/6 ≤ P ≤ 2` seconds
(a true tempo between 30 and 360 BPM), the estimated bpm is finite and lies in
`[60, 180]`. -/
theorem C7_octave_range (n : Nat) (P : ℚ) (hn : 2 ≤ n) (hlo : 1 / 6 ≤ P) (hhi : P ≤ 2) :
    ∃ b : ℚ, (determineBPM (analyzeIntervals (periodicOnsets n P))).bpm = fin b ∧
      60 ≤ b ∧ b ≤ 180 := by
  obtain ⟨j, rfl⟩ : ∃ j, n = j + 1 + 1 := ⟨n - 2, by omega⟩
  have hq1 : (17 : ℚ) / 100 ≤ roundedInterval P := by
    have h := roundedInterval_mono _ _ hlo
    have h17 : roundedInterval (1 / 6) = 17 / 100 := by
      unfold roundedInterval
      have hfl : ⌊(1 : ℚ) / 6 * 100 + 1 / 2⌋ = 17 := by
        rw [Int.floor_eq_iff]; norm_num
      rw [hfl]; norm_num
    rw [h17] at h; exact h
  have hq2 : roundedInterval P ≤ 2 := by
    have h := roundedInterval_mono _ _ hhi
    have h2 : roundedInterval 2 = 2 := by
      have := roundedInterval_hundredths 200
      norm_num at this; exact this
    rw [h2] at h; exact h
  have hqpos : 0 < roundedInterval P := by linarith
  rw [analyzeIntervals_periodic, determineBPM_replicate j P hqpos.ne.symm]
  refine ⟨_, rfl, ?_⟩
  have hraw1 : (30 : ℚ) ≤ 60 / roundedInterval P := by
    rw [le_div_iff₀ hqpos]; linarith
  have hraw2 : 60 / roundedInterval P ≤ 360 := by
    rw [div_le_iff₀ hqpos]; linarith
  have hoct : ((60 : ℤ) : ℚ) ≤ specOctave (60 / roundedInterval P) ∧
      specOctave (60 / roundedInterval P) ≤ ((180 : ℤ) : ℚ) := by
    unfold specOctave
    split_ifs with h1 h2
    · constructor <;> push_cast <;> linarith
    · constructor <;> push_cast <;> linarith
    · constructor <;> push_cast <;> linarith
  have hb := nearestTenth_bounds 60 180 _ hoct.1 hoct.2
  simpa using hb

/-- Witness for C7 (amended): a click track of period 3/2 s. -/
theorem C7_octave_range_witness :
    ∃ b : ℚ, (determineBPM (analyzeIntervals (periodicOnsets 4 (3 / 2)))).bpm = fin b ∧
      60 ≤ b ∧ b ≤ 180 :=
  C7_octave_range 4 (3 / 2) (by norm_num) (by norm_num) (by norm_num)

theorem nearestTenth_tenths (k : ℤ) : nearestTenth ((k : ℚ) / 10) = (k : ℚ) / 10 := by
  unfold nearestTenth
  rw [round_eq]
  have h : ⌊(k : ℚ) / 10 * 10 + 1 / 2⌋ = k := by
    rw [Int.floor_eq_iff]
    constructor <;> linarith
  rw [h]

/-- Counterexample for C7: a period of 3 s (20 BPM) is doubled once to 40 BPM, and
a period of 0.1 s (600 BPM) is halved once to 300 BPM; both lie outside `[60, 180]`. -/
theorem C7_counterexample :
    (determineBPM (analyzeIntervals (periodicOnsets 2 3))).bpm = fin 40 ∧
    (determineBPM (analyzeIntervals (periodicOnsets 2 (1 / 10)))).bpm = fin 300 := by
  have hq3 : roundedInterval 3 = 3 := by
    have := roundedInterval_hundredths 300
    norm_num at this; exact this
  have hq10 : roundedInterval (1 / 10) = 1 / 10 := by
    have := roundedInterval_hundredths 10
    norm_num at this; exact this
  have ht40 : nearestTenth 40 = 40 := by
    have := nearestTenth_tenths 400
    norm_num at this; exact this
  have ht300 : nearestTenth 300 = 300 := by
    have := nearestTenth_tenths 3000
    norm_num at this; exact this
  constructor
  · rw [analyzeIntervals_periodic, determineBPM_replicate 0 3 (by rw [hq3]; norm_num), hq3]
    have : specOctave (60 / 3) = 40 := by unfold specOctave; norm_num
    rw [this, ht40]
  · rw [analyzeIntervals_periodic,
      determineBPM_replicate 0 (1 / 10) (by rw [hq10]; norm_num), hq10]
    have : specOctave (60 / (1 / 10)) = 300 := by unfold specOctave; norm_num
    rw [this, ht300]

theorem count_map_eq_length_filter (f : ℚ → ℚ) (l : List ℚ) (k : ℚ) :
    (l.map f).count k = (l.filter fun i => decide (f i = k)).length := by
  induction l with
  | nil => simp
  | cons a rest ih =>
    by_cases h : f a = k
    · simp [List.count_cons, List.filter_cons, h, ih]
    · simp [List.count_cons, List.filter_cons, h, ih]

theorem analyzeIntervals_of_chain (R : ℚ → ℚ → Prop) (onsets : List ℚ)
    (hc : onsets.Chain' R) :
    ∀ g ∈ analyzeIntervals onsets, ∃ a b, R a b ∧ g = b - a := by
  match onsets, hc with
  | [], _ => intro g hg; simp [analyzeIntervals] at hg
  | [a], _ => intro g hg; simp [analyzeIntervals] at hg
  | a :: b :: rest, hc =>
    intro g hg
    rw [List.chain'_cons] at hc
    simp only [analyzeIntervals, List.mem_cons] at hg
    rcases hg with h | h
    · exact ⟨a, b, hc.1, h⟩
    · exact analyzeIntervals_of_chain R (b :: rest) hc.2 g h

theorem analyzeIntervals_ne_nil (onsets : List ℚ) (h : 2 ≤ onsets.length) :
    analyzeIntervals onsets ≠ [] := by
  match onsets, h with
  | [], h => simp at h
  | [a], h => simp at h
  | a :: b :: rest, _ => simp [analyzeIntervals]

/-- C10 (amended): for at least two onsets whose consecutive gaps all lie between
0.3 s and 2400 s, the estimator returns a finite bpm that is strictly greater
than 0. -/
theorem C10_bpm_positive (onsets : List ℚ) (hlen : 2 ≤ onsets.length)
    (hgaps : onsets.Chain' fun a b => 3 / 10 ≤ b - a ∧ b - a ≤ 2400) :
    ∃ b : ℚ, (determineBPM (analyzeIntervals onsets)).bpm = fin b ∧ 0 < b := by
  have hne := analyzeIntervals_ne_nil onsets hlen
  obtain ⟨hmem, _, _⟩ := mostCommon_spec (analyzeIntervals onsets) hne
  obtain ⟨g, hg, hgm⟩ := List.mem_map.mp hmem
  obtain ⟨a, b, ⟨hlo, hhi⟩, hgab⟩ := analyzeIntervals_of_chain _ onsets hgaps g hg
  rw [← hgab] at hlo hhi
  have hm1 : (3 : ℚ) / 10 ≤ (mostCommon (analyzeIntervals onsets)).2 := by
    rw [← hgm]
    have h := roundedInterval_mono _ _ hlo
    have h30 := roundedInterval_hundredths 30
    norm_num at h30
    rw [h30] at h; exact h
  have hm2 : (mostCommon (analyzeIntervals onsets)).2 ≤ 2400 := by
    rw [← hgm]
    have h := roundedInterval_mono _ _ hhi
    have h24 := roundedInterval_hundredths 240000
    norm_num at h24
    rw [h24] at h; exact h
  have hmpos : 0 < (mostCommon (analyzeIntervals onsets)).2 := by linarith
  have hlen0 : (analyzeIntervals onsets).length ≠ 0 := by
    intro h0; exact hne (List.length_eq_zero.mp h0)
  have hbpm : (determineBPM (analyzeIntervals onsets)).bpm
      = fin (nearestTenth (specOctave (60 / (mostCommon (analyzeIntervals onsets)).2))) := by
    unfold determineBPM
    rw [if_neg hlen0]
    exact bpm_of_key _ hmpos.ne.symm
  refine ⟨_, hbpm, ?_⟩
  have hraw : (1 : ℚ) / 40 ≤ 60 / (mostCommon (analyzeIntervals onsets)).2 := by
    rw [le_div_iff₀ hmpos]; linarith
  have hoct : (1 : ℚ) / 20 ≤ specOctave (60 / (mostCommon (analyzeIntervals onsets)).2) := by
    unfold specOctave
    split_ifs with h1 h2 <;> linarith
  unfold nearestTenth
  rw [round_eq]
  have hfl : 1 ≤ ⌊specOctave (60 / (mostCommon (analyzeIntervals onsets)).2) * 10 + 1 / 2⌋ := by
    rw [Int.le_floor]; push_cast; linarith
  have hflq : ((1 : ℤ) : ℚ)
      ≤ ((⌊specOctave (60 / (mostCommon (analyzeIntervals onsets)).2) * 10 + 1 / 2⌋ : ℤ) : ℚ) := by
    exact_mod_cast hfl
  push_cast at hflq
  linarith

/-- Witness for C10 (amended): three onsets with gaps of 0.5 s and 0.6 s. -/
theorem C10_bpm_positive_witness :
    ∃ b : ℚ, (determineBPM (analyzeIntervals [1, 3 / 2, 21 / 10])).bpm = fin b ∧ 0 < b :=
  C10_bpm_positive [1, 3 / 2, 21 / 10] (by decide) (by
    simp only [List.chain'_cons, List.chain'_singleton, and_true]
    norm_num)

/-- Counterexample for C10: two onsets 2401 s apart are strictly increasing with a
gap of at least 0.3 s, yet the raw tempo 60/2401 doubled is below 0.05 and rounds
to the bpm 0. -/
theorem C10_counterexample :
    List.Chain' (fun a b : ℚ => a < b ∧ 3 / 10 ≤ b - a) [1, 2402] ∧
    2 ≤ ([1, 2402] : List ℚ).length ∧
    (determineBPM (analyzeIntervals [1, 2402])).bpm = fin 0 := by
  refine ⟨?_, by decide, ?_⟩
  · simp only [List.chain'_cons, List.chain'_singleton, and_true]
    norm_num
  · have hi : analyzeIntervals [1, 2402] = List.replicate (0 + 1) 2401 := by
      simp only [analyzeIntervals, List.replicate]
      norm_num
    have hq : roundedInterval 2401 = 2401 := by
      have := roundedInterval_hundredths 240100
      norm_num at this; exact this
    rw [hi, determineBPM_replicate 0 2401 (by rw [hq]; norm_num), hq]
    have hoct : specOctave (60 / 2401) = 120 / 2401 := by unfold specOctave; norm_num
    have hr : nearestTenth (120 / 2401) = 0 := by
      unfold nearestTenth
      rw [round_eq]
      have hfl : ⌊(120 : ℚ) / 2401 * 10 + 1 / 2⌋ = 0 := by
        rw [Int.floor_eq_iff]; norm_num
      rw [hfl]; norm_num
    rw [hoct, hr]

/-! ## Tempo and phase sync -/

theorem deck_setDeck_same (e : AudioEngine) (t : DeckId) (d : Deck) :
    (e.setDeck t d).deck t = d := by
  cases t <;> rfl

theorem deck_dispatch (e : AudioEngine) (ev : Event) (t : DeckId) :
    (e.dispatch ev).deck t = e.deck t := by
  cases t <;> rfl

theorem setPlaybackRate_rate (e : AudioEngine) (t : DeckId) (r : ℚ) :
    ((e.setPlaybackRate t r).deck t).playbackRate = r := by
  unfold AudioEngine.setPlaybackRate
  simp only [deck_dispatch, deck_setDeck_same]
  cases (e.deck t).source <;> rfl

theorem setPlaybackRate_beatTracking (e : AudioEngine) (t : DeckId) (r : ℚ) :
    ((e.setPlaybackRate t r).deck t).beatTracking = (e.deck t).beatTracking := by
  unfold AudioEngine.setPlaybackRate
  simp only [deck_dispatch, deck_setDeck_same]
  cases (e.deck t).source <;> rfl

theorem beatGridData_with_engine (bm : BeatManager) (e : AudioEngine) (t : DeckId) :
    BeatManager.beatGridData { bm with audioEngine := e } t = bm.beatGridData t := by
  cases t <;> rfl

/-- C1: when the source deck has base BPM `bs > 0` and playback rate `rs > 0` and the
target deck has base BPM `bt > 0`, `syncTempo(source, target)` returns true and sets
the target's playback rate to `(bs × rs) / bt`, so that afterwards the target's
effective BPM equals the source's effective BPM before the call. This holds for
the engine's `syncTempo` and for the beat manager's. -/
theorem C1_syncTempo_matches_effective_bpm (s t : DeckId) :
    (∀ e : AudioEngine,
      0 < (e.deck s).beatTracking.bpm → 0 < (e.deck s).playbackRate →
      0 < (e.deck t).beatTracking.bpm →
        (e.syncTempo s t).1 = true ∧
        ((e.syncTempo s t).2.deck t).playbackRate
          = (e.deck s).beatTracking.bpm * (e.deck s).playbackRate / (e.deck t).beatTracking.bpm ∧
        (e.syncTempo s t).2.getEffectiveBPM t = e.getEffectiveBPM s) ∧
    (∀ bm : BeatManager,
      0 < (bm.beatGridData s).bpm → 0 < (bm.audioEngine.deck s).playbackRate →
      0 < (bm.beatGridData t).bpm →
        (bm.syncTempo s t).1 = true ∧
        (((bm.syncTempo s t).2.audioEngine).deck t).playbackRate
          = (bm.beatGridData s).bpm * (bm.audioEngine.deck s).playbackRate
              / (bm.beatGridData t).bpm ∧
        (bm.syncTempo s t).2.getEffectiveBPM t = bm.getEffectiveBPM s) := by
  constructor
  · intro e hbs hrs hbt
    have hsrc : ¬ (e.getEffectiveBPM s ≤ 0 ∨ (e.deck t).beatTracking.bpm ≤ 0) := by
      have : 0 < e.getEffectiveBPM s := mul_pos hbs hrs
      rintro (h | h) <;> linarith
    have hsync : e.syncTempo s t
        = (true, e.setPlaybackRate t (e.getEffectiveBPM s / (e.deck t).beatTracking.bpm)) := by
      unfold AudioEngine.syncTempo
      simp only [if_neg hsrc]
    rw [hsync]
    refine ⟨rfl, ?_, ?_⟩
    · simp only [setPlaybackRate_rate]; rfl
    · show ((e.setPlaybackRate t _).deck t).beatTracking.bpm
          * ((e.setPlaybackRate t _).deck t).playbackRate = _
      rw [setPlaybackRate_rate, setPlaybackRate_beatTracking]
      field_simp
  · intro bm hbs hrs hbt
    have hsrc : ¬ (bm.getEffectiveBPM s ≤ 0 ∨ (bm.beatGridData t).bpm ≤ 0) := by
      have : 0 < bm.getEffectiveBPM s := mul_pos hbs hrs
      rintro (h | h) <;> linarith
    have hsync : bm.syncTempo s t
        = (true, { bm with audioEngine :=
            bm.audioEngine.setPlaybackRate t (bm.getEffectiveBPM s / (bm.beatGridData t).bpm) }) := by
      unfold BeatManager.syncTempo
      simp only [if_neg hsrc]
    rw [hsync]
    refine ⟨rfl, ?_, ?_⟩
    · simp only [setPlaybackRate_rate]; rfl
    · show (BeatManager.beatGridData _ t).bpm
          * ((bm.audioEngine.setPlaybackRate t _).deck t).playbackRate = _
      rw [setPlaybackRate_rate]
      rw [beatGridData_with_engine]
      field_simp

/-- Witness for C1: source at 128 BPM and rate 1.2, target at 120 BPM: the target
rate becomes 1.28, on both implementations. -/
theorem C1_syncTempo_matches_effective_bpm_witness :
    (((scenarioEngine 128 (6 / 5) 120).syncTempo .left .right).2.deck .right).playbackRate
      = 32 / 25 ∧
    ((((scenarioManager 128 (6 / 5) 120).syncTempo .left .right).2.audioEngine).deck
      .right).playbackRate = 32 / 25 := by
  have h := C1_syncTempo_matches_effective_bpm .left .right
  have h1 := h.1 (scenarioEngine 128 (6 / 5) 120)
    (by norm_num [scenarioEngine, AudioEngine.deck])
    (by norm_num [scenarioEngine, AudioEngine.deck])
    (by norm_num [scenarioEngine, AudioEngine.deck, createDeck])
  have h2 := h.2 (scenarioManager 128 (6 / 5) 120)
    (by norm_num [scenarioManager, BeatManager.beatGridData])
    (by norm_num [scenarioManager, scenarioEngine, AudioEngine.deck])
    (by norm_num [scenarioManager, BeatManager.beatGridData])
  constructor
  · rw [h1.2.1]; norm_num [scenarioEngine, AudioEngine.deck, createDeck]
  · rw [h2.2.1]
    norm_num [scenarioManager, scenarioEngine, AudioEngine.deck, BeatManager.beatGridData]

/-- C2: sync precondition violations give a false return and leave the whole
state, hence the target deck's playbackRate, isPlaying flag, position anchor and
pause position, as it was. `syncTempo` (engine and beat manager) returns false
when either deck's base BPM is ≤ 0, the source deck's playback rate being
non-negative as the data model requires; `syncPhase` returns false when either
beat grid is empty or the target deck is not playing. -/
theorem C2_sync_precondition_violations (s t : DeckId) :
    (∀ e : AudioEngine, 0 ≤ (e.deck s).playbackRate →
      ((e.deck s).beatTracking.bpm ≤ 0 ∨ (e.deck t).beatTracking.bpm ≤ 0) →
        e.syncTempo s t = (false, e)) ∧
    (∀ bm : BeatManager, 0 ≤ (bm.audioEngine.deck s).playbackRate →
      ((bm.beatGridData s).bpm ≤ 0 ∨ (bm.beatGridData t).bpm ≤ 0) →
        bm.syncTempo s t = (false, bm)) ∧
    (∀ bm : BeatManager,
      ((bm.beatGridData s).beatGrid = [] ∨ (bm.beatGridData t).beatGrid = []
        ∨ (bm.audioEngine.deck t).isPlaying = false) →
        bm.syncPhase s t = (false, bm)) := by
  refine ⟨?_, ?_, ?_⟩
  · intro e hr hb
    have hcond : e.getEffectiveBPM s ≤ 0 ∨ (e.deck t).beatTracking.bpm ≤ 0 := by
      rcases hb with h | h
      · exact Or.inl (mul_nonpos_of_nonpos_of_nonneg h hr)
      · exact Or.inr h
    unfold AudioEngine.syncTempo
    simp only [if_pos hcond]
  · intro bm hr hb
    have hcond : bm.getEffectiveBPM s ≤ 0 ∨ (bm.beatGridData t).bpm ≤ 0 := by
      rcases hb with h | h
      · exact Or.inl (mul_nonpos_of_nonpos_of_nonneg h hr)
      · exact Or.inr h
    unfold BeatManager.syncTempo
    simp only [if_pos hcond]
  · intro bm hb
    have hcond : (bm.beatGridData s).beatGrid.length = 0 ∨ (bm.beatGridData t).beatGrid.length = 0
        ∨ (bm.audioEngine.deck t).isPlaying = false := by
      rcases hb with h | h | h
      · exact Or.inl (by rw [h]; rfl)
      · exact Or.inr (Or.inl (by rw [h]; rfl))
      · exact Or.inr (Or.inr h)
    unfold BeatManager.syncPhase
    simp only [if_pos hcond]

/-- Witness for C2: a source deck without a detected tempo (base BPM 0), empty beat
grids and a target that is not playing. -/
theorem C2_sync_precondition_violations_witness :
    (scenarioEngine 0 1 120).syncTempo .left .right = (false, scenarioEngine 0 1 120) ∧
    (scenarioManager 0 1 120).syncTempo .left .right = (false, scenarioManager 0 1 120) ∧
    (scenarioManager 0 1 120).syncPhase .left .right = (false, scenarioManager 0 1 120) := by
  have h := C2_sync_precondition_violations .left .right
  refine ⟨?_, ?_, ?_⟩
  · exact h.1 (scenarioEngine 0 1 120)
      (by norm_num [scenarioEngine, AudioEngine.deck])
      (Or.inl (by norm_num [scenarioEngine, AudioEngine.deck]))
  · exact h.2.1 (scenarioManager 0 1 120)
      (by norm_num [scenarioManager, scenarioEngine, AudioEngine.deck])
      (Or.inl (by norm_num [scenarioManager, BeatManager.beatGridData]))
  · exact h.2.2 (scenarioManager 0 1 120)
      (Or.inl (by simp [scenarioManager, BeatManager.beatGridData]))

/-! ## Preprocessing -/

theorem typedArrayLength_nat (n : Nat) : typedArrayLength (fin (n : ℚ)) = .ok n := by
  have h0 : (0 : ℚ) ≤ (n : ℚ) := Nat.cast_nonneg n
  have hfl : ⌊(n : ℚ)⌋ = (n : ℤ) := Int.floor_natCast n
  simp [typedArrayLength, h0, hfl]

/-- The result of `downsample` for a factor of at least 1. -/
theorem downsample_pos (data : List ℚ) (f : Nat) (hf : 1 ≤ f) :
    downsample data (f : ℤ)
      = .ok ((List.range (data.length / f)).map fun (i : Nat) => data.getD (i * f) 0) := by
  have hf0 : (f : ℚ) ≠ 0 := by
    have : 0 < f := hf
    positivity
  have hdiv : div (fin (data.length : ℚ)) (fin ((f : ℤ) : ℚ))
      = fin ((data.length : ℚ) / (f : ℚ)) := by
    simp [JSNum.div, hf0]
  have hfloor : floor (fin ((data.length : ℚ) / (f : ℚ))) = fin ((data.length / f : ℕ) : ℚ) := by
    simp only [JSNum.floor, Rat.floor_natCast_div_natCast]
    norm_cast
  unfold downsample
  rw [hdiv, hfloor, typedArrayLength_nat]
  simp

/-- The factor 0 on a non-empty signal: the length `Math.floor(n / 0)` is
`Infinity`, which `new Float32Array` rejects. -/
theorem downsample_zero_factor (data : List ℚ) (hne : data ≠ []) :
    downsample data 0 = .error .rangeError := by
  have hlen : (data.length : ℚ) ≠ 0 := by
    have : data.length ≠ 0 := fun h => hne (List.length_eq_zero.mp h)
    exact_mod_cast this
  have hpos : (0 : ℚ) < (data.length : ℚ) := lt_of_le_of_ne (Nat.cast_nonneg _) (Ne.symm hlen)
  simp [downsample, JSNum.div, hlen, JSNum.infOfSign, hpos, JSNum.floor, typedArrayLength]

/-- Whenever `downsample` returns samples, the factor is positive and every index
it reads lies inside the data. -/
theorem downsample_reads_in_range (data : List ℚ) (factor : ℤ) (out : List ℚ)
    (h : downsample data factor = .ok out) :
    ∀ i, i < out.length → 0 < factor ∧ i * factor.toNat < data.length := by
  rcases lt_trichotomy factor 0 with hneg | hzero | hpos
  · -- a negative factor leaves no samples
    have hfq : ((factor : ℤ) : ℚ) < 0 := by exact_mod_cast hneg
    have hdiv : div (fin (data.length : ℚ)) (fin ((factor : ℤ) : ℚ))
        = fin ((data.length : ℚ) / (factor : ℚ)) := by
      simp [JSNum.div, hfq.ne]
    have hq : (data.length : ℚ) / (factor : ℚ) ≤ 0 :=
      div_nonpos_of_nonneg_of_nonpos (Nat.cast_nonneg _) hfq.le
    have hfl : ⌊(data.length : ℚ) / (factor : ℚ)⌋ ≤ 0 := by
      have := Int.floor_le_floor hq
      simpa using this
    unfold downsample at h
    rw [hdiv] at h
    simp only [JSNum.floor, typedArrayLength] at h
    rw [Int.floor_intCast, Int.ceil_intCast] at h
    simp only [ite_self] at h
    split_ifs at h with h1
    have hz : ⌊(data.length : ℚ) / (factor : ℚ)⌋.toNat = 0 := by omega
    rw [hz] at h
    simp only [List.range_zero, List.map_nil, Except.ok.injEq] at h
    subst h
    intro i hi; simp at hi
  · subst hzero
    by_cases hne : data = []
    · subst hne
      simp [downsample, JSNum.div, JSNum.floor, typedArrayLength] at h
      subst h
      intro i hi; simp at hi
    · rw [downsample_zero_factor data hne] at h
      cases h
  · obtain ⟨f, rfl⟩ : ∃ f : Nat, factor = (f : ℤ) := ⟨factor.toNat, by omega⟩
    have hf : 1 ≤ f := by omega
    rw [downsample_pos data f hf] at h
    simp only [Except.ok.injEq] at h
    subst h
    intro i hi
    simp only [List.length_map, List.length_range] at hi
    refine ⟨hpos, ?_⟩
    simp only [Int.toNat_ofNat]
    have h1 : (i + 1) * f ≤ (data.length / f) * f := Nat.mul_le_mul_right f hi
    have h2 := Nat.div_mul_le_self data.length f
    have h3 : (i + 1) * f = i * f + f := by ring
    omega

theorem lowPassFrom_spec (x : List ℚ) (f m k : Nat) :
    lowPassFrom (specFiltered x f k)
        ((List.range' (k + 1) m).map fun (i : Nat) => x.getD (i * f) 0)
      = (List.range' (k + 1) m).map (specFiltered x f) := by
  induction m generalizing k with
  | zero => simp [lowPassFrom]
  | succ m ih =>
    rw [List.range'_succ]
    simp only [List.map_cons, lowPassFrom]
    have hstep : alpha * x.getD ((k + 1) * f) 0 + (1 - alpha) * specFiltered x f k
        = specFiltered x f (k + 1) := by
      simp only [specFiltered, alpha]; ring
    rw [hstep, ih (k + 1)]

theorem lowPassFilter_spec (x : List ℚ) (f m : Nat) :
    lowPassFilter ((List.range m).map fun (i : Nat) => x.getD (i * f) 0)
      = (List.range m).map (specFiltered x f) := by
  cases m with
  | zero => simp [lowPassFilter]
  | succ m =>
    rw [List.range_eq_range', List.range'_succ]
    simp only [List.map_cons, lowPassFilter]
    have h0 : x.getD (0 * f) 0 = specFiltered x f 0 := by simp [specFiltered]
    rw [h0]
    have := lowPassFrom_spec x f m 0
    simp only [Nat.zero_add] at this
    rw [this]

/-- The downsample factor for a rate of at least 11025 Hz. -/
theorem factor_of_rate (R : ℚ) (hR : 11025 ≤ R) :
    ((⌊R / 11025⌋.toNat : ℕ) : ℤ) = ⌊R / 11025⌋ ∧ 1 ≤ ⌊R / 11025⌋.toNat := by
  have h1 : (1 : ℤ) ≤ ⌊R / 11025⌋ := by
    rw [Int.le_floor]; push_cast
    rw [le_div_iff₀ (by norm_num)]; linarith
  constructor <;> omega

theorem preprocess_ok (x : List ℚ) (R : ℚ) (f : Nat) (hf : (f : ℤ) = ⌊R / 11025⌋)
    (hf1 : 1 ≤ f) :
    preprocess x R
      = .ok ((List.range (x.length / f)).map (fun (i : Nat) => specFiltered x f i ^ 2),
            fin (R / (f : ℚ))) := by
  have hfq : (f : ℚ) ≠ 0 := by
    have : 0 < f := hf1
    positivity
  have hrate : div (fin R) (fin ((f : ℤ) : ℚ)) = fin (R / (f : ℚ)) := by
    simp [JSNum.div, hfq]
  unfold preprocess
  simp only []
  rw [← hf, downsample_pos x f hf1, hrate]
  simp only [lowPassFilter_spec, computeEnergy, List.map_map]
  congr 2
  apply List.map_congr_left
  intro i _
  simp [Function.comp, pow_two]

/-- C12: for a sample rate R ≥ 11025 and f = floor(R / 11025), the preprocessing
succeeds; the energy signal has length floor(n / f), its i-th value is `y[i]²`
with `y[0] = x[0]` and `y[i] = 0.05 · x[i · f] + 0.95 · y[i - 1]`; the rate handed
on is `R / f`; and the empty input gives the empty energy signal. -/
theorem C12_energy_signal (x : List ℚ) (R : ℚ) (hR : 11025 ≤ R) :
    ∃ f : Nat, (f : ℤ) = ⌊R / 11025⌋ ∧ 1 ≤ f ∧
      preprocess x R
        = .ok ((List.range (x.length / f)).map (fun (i : Nat) => specFiltered x f i ^ 2),
              fin (R / (f : ℚ))) ∧
      ((List.range (x.length / f)).map (fun (i : Nat) => specFiltered x f i ^ 2)).length
        = x.length / f ∧
      preprocess [] R = .ok ([], fin (R / (f : ℚ))) := by
  obtain ⟨hf, hf1⟩ := factor_of_rate R hR
  refine ⟨⌊R / 11025⌋.toNat, hf, hf1, preprocess_ok x R _ hf hf1, by simp, ?_⟩
  rw [preprocess_ok [] R _ hf hf1]
  simp

/-- Witness for C12: seven samples at 33075 Hz (factor 3) give two energy values. -/
theorem C12_energy_signal_witness :
    ∃ f : Nat, (f : ℤ) = ⌊(33075 : ℚ) / 11025⌋ ∧ 1 ≤ f ∧
      preprocess [1, 2, 3, 4, 5, 6, 7] 33075
        = .ok ((List.range (([1, 2, 3, 4, 5, 6, 7] : List ℚ).length / f)).map
                (fun (i : Nat) => specFiltered [1, 2, 3, 4, 5, 6, 7] f i ^ 2),
              fin (33075 / (f : ℚ))) ∧
      ((List.range (([1, 2, 3, 4, 5, 6, 7] : List ℚ).length / f)).map
          (fun (i : Nat) => specFiltered [1, 2, 3, 4, 5, 6, 7] f i ^ 2)).length
        = ([1, 2, 3, 4, 5, 6, 7] : List ℚ).length / f ∧
      preprocess [] 33075 = .ok ([], fin (33075 / (f : ℚ))) :=
  C12_energy_signal [1, 2, 3, 4, 5, 6, 7] 33075 (by norm_num)

/-- A non-empty signal at a rate below 11025 Hz: the factor is 0 and the
preprocessing raises a `RangeError`. -/
theorem preprocess_low_rate (x : List ℚ) (R : ℚ) (hne : x ≠ []) (h0 : 0 ≤ R) (hR : R < 11025) :
    preprocess x R = .error .rangeError := by
  have hfl : ⌊R / 11025⌋ = 0 := by
    rw [Int.floor_eq_iff]
    constructor
    · push_cast; positivity
    · push_cast; rw [div_lt_iff₀ (by norm_num)]; linarith
  unfold preprocess
  simp only [hfl, downsample_zero_factor x hne]

/-- C11 (failing input): one sample at 8000 Hz. The downsample factor is
`floor(8000 / 11025) = 0`, not 1, and both the preprocessing stage and `detectBPM`
raise a `RangeError`. -/
theorem C11_low_rate_throws :
    ⌊(8000 : ℚ) / 11025⌋ = 0 ∧
    preprocess [1 / 2] 8000 = .error .rangeError ∧
    detectBPM [1 / 2] 8000 = .error .rangeError := by
  have hp := preprocess_low_rate [1 / 2] 8000 (by simp) (by norm_num) (by norm_num)
  refine ⟨?_, hp, ?_⟩
  · rw [Int.floor_eq_iff]; norm_num
  · unfold detectBPM
    rw [hp]

/-! ## Onset detection -/

/-- The accepted indices, with the window and the minimum distance as naturals. -/
theorem findPeakIndices_eq (e : List ℚ) (r : ℚ) (W D : Nat)
    (hW : (W : ℤ) = ⌊r * (5 / 100)⌋) (hD : (D : ℤ) = ⌊r * (3 / 10)⌋) :
    findPeakIndices e r
      = (((List.range (e.length - 2 * W)).map fun (k : Nat) => (W : ℤ) + (k : ℤ)).foldl
          (peakStep e W D) ([], -(D : ℤ))).1 := by
  unfold findPeakIndices
  simp only [← hW, ← hD]
  have hlen : ((e.length : ℤ) - (W : ℤ) - (W : ℤ)).toNat = e.length - 2 * W := by omega
  rw [hlen]

theorem isPeak_iff (e : List ℚ) (W i : Nat) (hi : W ≤ i) :
    isPeak e (W : ℤ) (i : ℤ) = true ↔
      ∀ j : Nat, i ≤ j + W → j ≤ i + W → j ≠ i → e.getD j 0 < e.getD i 0 := by
  unfold isPeak
  rw [List.all_eq_true]
  have h2w : (2 * (W : ℤ) + 1).toNat = 2 * W + 1 := by omega
  rw [h2w]
  constructor
  · intro h j hj1 hj2 hne
    have hk := h (j + W - i) (List.mem_range.mpr (by omega))
    have hj : ((i : ℤ) - (W : ℤ) + ((j + W - i : ℕ) : ℤ)) = (j : ℤ) := by omega
    simp only [hj, Int.toNat_ofNat] at hk
    have hne2 : (j : ℤ) ≠ (i : ℤ) := by exact_mod_cast hne
    simp only [hne2, ne_eq, not_false_eq_true, decide_True, Bool.true_and, Bool.not_eq_true',
      decide_eq_false_iff_not, ge_iff_le, not_le] at hk
    exact hk
  · intro h k hk
    have hk2 : k < 2 * W + 1 := List.mem_range.mp hk
    have hj : ((i : ℤ) - (W : ℤ) + (k : ℤ)) = ((i - W + k : ℕ) : ℤ) := by omega
    simp only [hj, Int.toNat_ofNat]
    by_cases hne : i - W + k = i
    · have : ((i - W + k : ℕ) : ℤ) = (i : ℤ) := by exact_mod_cast hne
      simp [this]
    · have hne2 : ((i - W + k : ℕ) : ℤ) ≠ (i : ℤ) := by exact_mod_cast hne
      have hlt := h (i - W + k) (by omega) (by omega) hne
      simp only [hne2, ne_eq, not_false_eq_true, decide_True, Bool.true_and, Bool.not_eq_true',
        decide_eq_false_iff_not, ge_iff_le, not_le]
      exact hlt

/-- Every index in the state of the outer loop was there before or is a loop index
that passed the local-maximum test. -/
theorem foldl_peakStep_mem (e : List ℚ) (W D : ℤ) (l : List ℤ) (acc : List ℤ × ℤ) :
    ∀ i ∈ (l.foldl (peakStep e W D) acc).1, i ∈ acc.1 ∨ (i ∈ l ∧ isPeak e W i = true) := by
  induction l generalizing acc with
  | nil => intro i hi; exact Or.inl hi
  | cons a rest ih =>
    intro i hi
    rw [List.foldl_cons] at hi
    rcases ih (peakStep e W D acc a) i hi with h | ⟨h1, h2⟩
    · unfold peakStep at h
      split_ifs at h with hc
      · rcases List.mem_append.mp h with h3 | h3
        · exact Or.inl h3
        · have hia : i = a := by simpa using h3
          subst hia
          simp only [Bool.and_eq_true] at hc
          exact Or.inr ⟨List.mem_cons_self _ _, hc.1⟩
      · exact Or.inl h
    · exact Or.inr ⟨List.mem_cons_of_mem _ h1, h2⟩

/-- C14 (amended): for a positive sample rate and `W = floor(0.05 × sampleRate)`,
each onset returned by `findPeaks` is `i / sampleRate` for a sample index `i` with
`W ≤ i < length - W` whose energy is strictly greater than the energy of every
other sample in the window `[i - W, i + W]`. -/
theorem C14_onset_is_window_maximum (e : List ℚ) (r : ℚ) (hr : 0 < r) :
    ∀ t ∈ findPeaks e r, ∃ i : Nat, t = (i : ℚ) / r ∧
      ⌊r * (5 / 100)⌋₊ ≤ i ∧ i + ⌊r * (5 / 100)⌋₊ < e.length ∧
      ∀ j : Nat, i ≤ j + ⌊r * (5 / 100)⌋₊ → j ≤ i + ⌊r * (5 / 100)⌋₊ → j ≠ i →
        e.getD j 0 < e.getD i 0 := by
  intro t ht
  have hW : ((⌊r * (5 / 100)⌋₊ : ℕ) : ℤ) = ⌊r * (5 / 100)⌋ :=
    Int.natCast_floor_eq_floor (by positivity)
  have hD : ((⌊r * (3 / 10)⌋₊ : ℕ) : ℤ) = ⌊r * (3 / 10)⌋ :=
    Int.natCast_floor_eq_floor (by positivity)
  unfold findPeaks at ht
  obtain ⟨z, hz, rfl⟩ := List.mem_map.mp ht
  rw [findPeakIndices_eq e r _ _ hW hD] at hz
  rcases foldl_peakStep_mem e _ _ _ _ z hz with h | ⟨h1, h2⟩
  · simp at h
  · obtain ⟨k, hk, rfl⟩ := List.mem_map.mp h1
    have hk2 : k < e.length - 2 * ⌊r * (5 / 100)⌋₊ := List.mem_range.mp hk
    have hcast : ((⌊r * (5 / 100)⌋₊ : ℕ) : ℤ) + (k : ℤ) = ((⌊r * (5 / 100)⌋₊ + k : ℕ) : ℤ) := by
      push_cast; rfl
    rw [hcast] at h2
    refine ⟨⌊r * (5 / 100)⌋₊ + k, ?_, by omega, by omega, ?_⟩
    · rw [hcast]; norm_cast
    · exact (isPeak_iff e _ _ (by omega)).mp h2

theorem findPeaks_five_samples : findPeaks [0, 0, 1, 0, 5] 30 = [(2 : ℚ) / 30] := by
  have hW : ((1 : ℕ) : ℤ) = ⌊(30 : ℚ) * (5 / 100)⌋ := by
    symm; rw [Int.floor_eq_iff]; norm_num
  have hD : ((9 : ℕ) : ℤ) = ⌊(30 : ℚ) * (3 / 10)⌋ := by
    symm; rw [Int.floor_eq_iff]; norm_num
  unfold findPeaks
  rw [findPeakIndices_eq _ _ 1 9 hW hD]
  have hfold : (((List.range (([0, 0, 1, 0, 5] : List ℚ).length - 2 * 1)).map
      fun (k : Nat) => ((1 : ℕ) : ℤ) + (k : ℤ)).foldl
        (peakStep [0, 0, 1, 0, 5] ((1 : ℕ) : ℤ) ((9 : ℕ) : ℤ)) ([], -((9 : ℕ) : ℤ))).1 = [2] := by
    decide
  rw [hfold]
  simp

/-- Witness for C14 (amended): at 30 Hz the window is one sample on each side, and
the onset 2/30 s of the signal `[0, 0, 1, 0, 5]` is the sample with index 2. -/
theorem C14_onset_is_window_maximum_witness :
    ∃ i : Nat, (2 : ℚ) / 30 = (i : ℚ) / 30 ∧
      ⌊(30 : ℚ) * (5 / 100)⌋₊ ≤ i ∧ i + ⌊(30 : ℚ) * (5 / 100)⌋₊ < ([0, 0, 1, 0, 5] : List ℚ).length ∧
      ∀ j : Nat, i ≤ j + ⌊(30 : ℚ) * (5 / 100)⌋₊ → j ≤ i + ⌊(30 : ℚ) * (5 / 100)⌋₊ → j ≠ i →
        ([0, 0, 1, 0, 5] : List ℚ).getD j 0 < ([0, 0, 1, 0, 5] : List ℚ).getD i 0 :=
  C14_onset_is_window_maximum [0, 0, 1, 0, 5] 30 (by norm_num) ((2 : ℚ) / 30)
    (by rw [findPeaks_five_samples]; exact List.mem_singleton.mpr rfl)

/-- Counterexample for C14: at 30 Hz the code's window is `floor(1.5) = 1` sample
on each side, so index 2 (energy 1) is returned as an onset; with
`W = round(1.5) = 2` the window `[0, 4]` holds index 4, whose energy 5 is larger. -/
theorem C14_counterexample :
    findPeaks [0, 0, 1, 0, 5] 30 = [(2 : ℚ) / 30] ∧
    (round ((5 : ℚ) / 100 * 30) : ℤ) = 2 ∧
    (4 ≤ 2 + 2 ∧ ([0, 0, 1, 0, 5] : List ℚ).getD 2 0 < ([0, 0, 1, 0, 5] : List ℚ).getD 4 0) := by
  refine ⟨findPeaks_five_samples, ?_, by decide, by decide⟩
  rw [round_eq, Int.floor_eq_iff]; norm_num

theorem findPeaks_nil (r : ℚ) (hr : 0 ≤ r) : findPeaks [] r = [] := by
  have hW : ((⌊r * (5 / 100)⌋₊ : ℕ) : ℤ) = ⌊r * (5 / 100)⌋ :=
    Int.natCast_floor_eq_floor (by positivity)
  have hD : ((⌊r * (3 / 10)⌋₊ : ℕ) : ℤ) = ⌊r * (3 / 10)⌋ :=
    Int.natCast_floor_eq_floor (by positivity)
  unfold findPeaks
  rw [findPeakIndices_eq [] r _ _ hW hD]
  simp

/-- What `detectBPM` returns for zero-length audio at a rate of at least 11025 Hz. -/
theorem detectBPM_empty (R : ℚ) (hR : 11025 ≤ R) :
    detectBPM [] R = .ok { bpm := fin 120, beatGrid := [fin 0], confidence := fin 0 } := by
  obtain ⟨hf, hf1⟩ := factor_of_rate R hR
  have hR0 : R ≠ 0 := by linarith
  have hrate : (0 : ℚ) ≤ R / (⌊R / 11025⌋.toNat : ℚ) := by
    have : (0 : ℚ) ≤ R := by linarith
    positivity
  have hgrid : generateBeatGrid (fin 120) (fin 0) = .ok [fin 0] := by
    rw [generateBeatGrid_pos 120 0 (by norm_num) (le_refl _) (by norm_num)]
    simp [List.range_succ_eq_map]
  unfold detectBPM
  rw [preprocess_ok [] R _ hf hf1]
  simp only [List.length_nil, Nat.zero_div, List.range_zero, List.map_nil,
    findPeaks_nil _ hrate, analyzeIntervals]
  have hdur : div (fin ((0 : ℕ) : ℚ)) (fin R) = fin 0 := by simp [JSNum.div, hR0]
  rw [hdur]
  simp only [determineBPM, List.length_nil, if_true, hgrid]

/-- C13 (amended): for zero-length audio at every sample rate R ≥ 11025, `detectBPM`
does not throw and returns bpm 120, confidence 0 and the beat grid with the
single entry 0. -/
theorem C13_empty_audio_defaults (R : ℚ) (hR : 11025 ≤ R) :
    ∃ res : DetectResult, detectBPM [] R = .ok res ∧
      res.bpm = fin 120 ∧ res.confidence = fin 0 ∧ res.beatGrid = [fin 0] :=
  ⟨_, detectBPM_empty R hR, rfl, rfl, rfl⟩

/-- Witness for C13 (amended): zero-length audio at 48 kHz. -/
theorem C13_empty_audio_defaults_witness :
    ∃ res : DetectResult, detectBPM [] 48000 = .ok res ∧
      res.bpm = fin 120 ∧ res.confidence = fin 0 ∧ res.beatGrid = [fin 0] :=
  C13_empty_audio_defaults 48000 (by norm_num)

/-- Counterexample for C13: for zero-length audio at 44.1 kHz the returned beat
grid has one entry, not zero. -/
theorem C13_counterexample :
    ∃ res : DetectResult, detectBPM [] 44100 = .ok res ∧ res.beatGrid.length = 1 :=
  ⟨_, detectBPM_empty 44100 (by norm_num), rfl⟩

theorem spikes_getD (len p1 p2 j : Nat) :
    (spikes len p1 p2).getD j 0 = if j < len ∧ (j = p1 ∨ j = p2) then 1 else 0 := by
  unfold spikes
  rw [List.getD_eq_getElem?_getD, List.getElem?_map]
  by_cases hj : j < len
  · rw [List.getElem?_range hj]
    simp [hj]
  · have : (List.range len)[j]? = none := by
      rw [List.getElem?_eq_none_iff]; simp; omega
    rw [this]
    simp [hj]

theorem foldl_peakStep_no_peaks (e : List ℚ) (W D : ℤ) (l : List ℤ) (acc : List ℤ × ℤ)
    (h : ∀ i ∈ l, isPeak e W i = false) : l.foldl (peakStep e W D) acc = acc := by
  induction l generalizing acc with
  | nil => rfl
  | cons a rest ih =>
    rw [List.foldl_cons]
    have ha : peakStep e W D acc a = acc := by
      unfold peakStep
      rw [h a (List.mem_cons_self _ _)]
      simp
    rw [ha]
    exact ih acc (fun i hi => h i (List.mem_cons_of_mem _ hi))

/-- Two isolated spikes exactly `D = floor(0.3 × rate)` samples apart are both
accepted as onsets. -/
theorem findPeakIndices_spikes (r : ℚ) (W D : Nat)
    (hW : (W : ℤ) = ⌊r * (5 / 100)⌋) (hD : (D : ℤ) = ⌊r * (3 / 10)⌋)
    (hW1 : 1 ≤ W) (hWD : 2 * W < D) :
    findPeakIndices (spikes (2 * W + D + 1) W (W + D)) r = [(W : ℤ), ((W + D : ℕ) : ℤ)] := by
  obtain ⟨D1, rfl⟩ : ∃ D1, D = D1 + 1 := ⟨D - 1, by omega⟩
  have hlen : (spikes (2 * W + (D1 + 1) + 1) W (W + (D1 + 1))).length - 2 * W = D1 + 1 + 1 := by
    simp [spikes]; omega
  rw [findPeakIndices_eq _ r W (D1 + 1) hW hD, hlen]
  have hrange : List.range (D1 + 1 + 1) = 0 :: (List.range' 1 D1 ++ [D1 + 1]) := by
    rw [List.range_succ, List.range_eq_range', List.range'_succ]
    simp
  rw [hrange]
  simp only [List.map_cons, List.map_append, List.map_nil, List.foldl_cons, List.foldl_append,
    List.foldl_nil]
  -- the first spike
  have hp1 : isPeak (spikes (2 * W + (D1 + 1) + 1) W (W + (D1 + 1))) (W : ℤ) (W : ℤ) = true := by
    rw [isPeak_iff _ W W (le_refl _)]
    intro j hj1 hj2 hne
    rw [spikes_getD, spikes_getD]
    have h1 : ¬ (j < 2 * W + (D1 + 1) + 1 ∧ (j = W ∨ j = W + (D1 + 1))) := by omega
    have h2 : W < 2 * W + (D1 + 1) + 1 ∧ (W = W ∨ W = W + (D1 + 1)) := by omega
    rw [if_neg h1, if_pos h2]
    norm_num
  have hstep1 : peakStep (spikes (2 * W + (D1 + 1) + 1) W (W + (D1 + 1))) (W : ℤ)
      ((D1 + 1 : ℕ) : ℤ) ([], -((D1 + 1 : ℕ) : ℤ)) ((W : ℤ) + ((0 : ℕ) : ℤ))
      = ([(W : ℤ)], (W : ℤ)) := by
    have hi : (W : ℤ) + ((0 : ℕ) : ℤ) = (W : ℤ) := by simp
    rw [hi]
    unfold peakStep
    split_ifs with hc
    · simp
    · exfalso
      apply hc
      rw [Bool.and_eq_true]
      refine ⟨hp1, ?_⟩
      rw [decide_eq_true_eq]
      show (W : ℤ) - -((D1 + 1 : ℕ) : ℤ) ≥ ((D1 + 1 : ℕ) : ℤ)
      omega
  rw [hstep1]
  -- the samples between the spikes
  have hmid : ∀ i ∈ (List.range' 1 D1).map (fun (k : Nat) => (W : ℤ) + (k : ℤ)),
      isPeak (spikes (2 * W + (D1 + 1) + 1) W (W + (D1 + 1))) (W : ℤ) i = false := by
    intro i hi
    obtain ⟨k, hk, rfl⟩ := List.mem_map.mp hi
    have hk2 := List.mem_range'_1.mp hk
    have hcast : (W : ℤ) + (k : ℤ) = ((W + k : ℕ) : ℤ) := by push_cast; rfl
    rw [hcast]
    by_contra hcon
    have htrue : isPeak (spikes (2 * W + (D1 + 1) + 1) W (W + (D1 + 1))) (W : ℤ)
        ((W + k : ℕ) : ℤ) = true := by
      cases hb : isPeak (spikes (2 * W + (D1 + 1) + 1) W (W + (D1 + 1))) (W : ℤ)
        ((W + k : ℕ) : ℤ)
      · exact absurd hb hcon
      · rfl
    have hall := (isPeak_iff _ W (W + k) (by omega)).mp htrue (W + k - 1) (by omega) (by omega)
      (by omega)
    rw [spikes_getD, spikes_getD] at hall
    have h2 : ¬ (W + k < 2 * W + (D1 + 1) + 1 ∧ (W + k = W ∨ W + k = W + (D1 + 1))) := by omega
    rw [if_neg h2] at hall
    split_ifs at hall <;> norm_num at hall
  rw [foldl_peakStep_no_peaks _ _ _ _ _ hmid]
  -- the second spike
  have hcast2 : (W : ℤ) + ((D1 + 1 : ℕ) : ℤ) = ((W + (D1 + 1) : ℕ) : ℤ) := by push_cast; rfl
  have hp2 : isPeak (spikes (2 * W + (D1 + 1) + 1) W (W + (D1 + 1))) (W : ℤ)
      ((W + (D1 + 1) : ℕ) : ℤ) = true := by
    rw [isPeak_iff _ W (W + (D1 + 1)) (by omega)]
    intro j hj1 hj2 hne
    rw [spikes_getD, spikes_getD]
    have h1 : ¬ (j < 2 * W + (D1 + 1) + 1 ∧ (j = W ∨ j = W + (D1 + 1))) := by omega
    have h2 : W + (D1 + 1) < 2 * W + (D1 + 1) + 1
        ∧ (W + (D1 + 1) = W ∨ W + (D1 + 1) = W + (D1 + 1)) := by omega
    rw [if_neg h1, if_pos h2]
    norm_num
  rw [hcast2]
  unfold peakStep
  split_ifs with hc
  · simp
  · exfalso
    apply hc
    rw [Bool.and_eq_true]
    refine ⟨hp2, ?_⟩
    rw [decide_eq_true_eq]
    show ((W + (D1 + 1) : ℕ) : ℤ) - (W : ℤ) ≥ ((D1 + 1 : ℕ) : ℤ)
    omega

/-- C15 (failing input): at 11025 Hz the minimum distance is
`floor(3307.5) = 3307` samples, so two isolated spikes at the samples 551 and 3858
are both returned as onsets, 3307 / 11025 ≈ 0.29995 s apart, which is less than
0.3 s. -/
theorem C15_onsets_closer_than_300ms :
    findPeaks (spikes 4410 551 3858) 11025 = [(551 : ℚ) / 11025, (3858 : ℚ) / 11025] ∧
    (3858 : ℚ) / 11025 - 551 / 11025 < 3 / 10 := by
  have hW : ((551 : ℕ) : ℤ) = ⌊(11025 : ℚ) * (5 / 100)⌋ := by
    symm; rw [Int.floor_eq_iff]; norm_num
  have hD : ((3307 : ℕ) : ℤ) = ⌊(11025 : ℚ) * (3 / 10)⌋ := by
    symm; rw [Int.floor_eq_iff]; norm_num
  have h := findPeakIndices_spikes 11025 551 3307 hW hD (by norm_num) (by norm_num)
  norm_num at h
  constructor
  · unfold findPeaks
    rw [h]
    norm_num
  · norm_num

/-! ## Play, pause, stop and the playback rate -/

/-- The position that `getCurrentTime` reports right after `playDeck` on a loaded,
paused deck: the stored pause position multiplied by the playback rate. -/
theorem playDeck_reported_time (e : AudioEngine) (t : DeckId) (b : AudioBuffer)
    (hb : (e.deck t).buffer = some b) (hp : 0 ≤ (e.deck t).pauseTime) :
    (e.playDeck t).1 = true ∧ ((e.playDeck t).2.deck t).isPlaying = true ∧
    (e.playDeck t).2.getCurrentTime t = (e.deck t).pauseTime * (e.deck t).playbackRate := by
  have hcur : ∀ d : Deck, (e.setDeck t d).currentTime = e.currentTime := by
    intro d; cases t <;> rfl
  unfold AudioEngine.playDeck AudioEngine.getCurrentTime
  simp only [hb, deck_setDeck_same, hcur, Bool.not_true, Bool.false_eq_true, if_false, true_and]
  by_cases h0 : (e.deck t).pauseTime > 0
  · simp only [h0, if_true]; ring
  · have h1 : (e.deck t).pauseTime = 0 := le_antisymm (not_lt.mp h0) hp
    rw [if_neg h0, h1]; ring

theorem playDeck_no_buffer (e : AudioEngine) (t : DeckId) (hb : (e.deck t).buffer = none) :
    e.playDeck t = (false, e) := by
  unfold AudioEngine.playDeck
  simp only [hb]

/-- C18 (failing input): a loaded deck paused at 10 s with playback rate 1.2.
`playDeck` returns true and sets isPlaying, but `getCurrentTime` at the same clock
instant reports 12 s, not 10 s. A deck without a buffer is left unchanged. -/
theorem C18_play_reports_scaled_position :
    ((engineWith 100 (pausedDeck 10 (6 / 5))).playDeck .left).1 = true ∧
    (((engineWith 100 (pausedDeck 10 (6 / 5))).playDeck .left).2.deck .left).isPlaying = true ∧
    ((engineWith 100 (pausedDeck 10 (6 / 5))).playDeck .left).2.getCurrentTime .left = 12 ∧
    (engineWith 100 createDeck).playDeck .left = (false, engineWith 100 createDeck) := by
  have h := playDeck_reported_time (engineWith 100 (pausedDeck 10 (6 / 5))) .left
    { duration := 60 } rfl (by norm_num [engineWith, pausedDeck, AudioEngine.deck])
  refine ⟨h.1, h.2.1, ?_, playDeck_no_buffer _ _ rfl⟩
  rw [h.2.2]
  norm_num [engineWith, pausedDeck, AudioEngine.deck, createDeck]

/-- C19 (amended): `pauseDeck` returns false on a deck that is not playing and
changes nothing; on a playing deck (which has a live source node) it returns
true and the reported position stays at the value it had at the call.
`stopDeck` returns true on every deck, playing or not, and afterwards the deck
is not playing and its position is 0. -/
theorem C19_pause_and_stop (e : AudioEngine) (t : DeckId) :
    ((e.deck t).isPlaying = false → e.pauseDeck t = (false, e)) ∧
    ((e.deck t).isPlaying = true → (e.deck t).source ≠ none →
      (e.pauseDeck t).1 = true ∧ ((e.pauseDeck t).2.deck t).isPlaying = false ∧
      (e.pauseDeck t).2.getCurrentTime t = e.getCurrentTime t) ∧
    ((e.stopDeck t).1 = true ∧ ((e.stopDeck t).2.deck t).isPlaying = false ∧
      (e.stopDeck t).2.getCurrentTime t = 0) := by
  refine ⟨?_, ?_, ?_⟩
  · intro h
    unfold AudioEngine.pauseDeck
    simp only [h, true_or, if_true]
  · intro h hsrc
    have hc : ¬ ((e.deck t).isPlaying = false ∨ (e.deck t).source = none) := by
      rintro (h1 | h1)
      · rw [h] at h1; cases h1
      · exact hsrc h1
    unfold AudioEngine.pauseDeck AudioEngine.getCurrentTime
    simp only [if_neg hc, deck_setDeck_same, Bool.not_false, if_true, true_and, and_self]
  · unfold AudioEngine.stopDeck AudioEngine.getCurrentTime
    simp only [deck_setDeck_same, Bool.not_false, if_true, true_and, and_self]

/-- Witness for C19 (amended): a deck playing at rate 1.2, anchored at 90, at
clock time 100. -/
theorem C19_pause_and_stop_witness :
    (((engineWith 100 (playingDeck 90 (6 / 5))).pauseDeck .left).1 = true ∧
      (((engineWith 100 (playingDeck 90 (6 / 5))).pauseDeck .left).2.deck .left).isPlaying = false ∧
      ((engineWith 100 (playingDeck 90 (6 / 5))).pauseDeck .left).2.getCurrentTime .left
        = (engineWith 100 (playingDeck 90 (6 / 5))).getCurrentTime .left) :=
  (C19_pause_and_stop (engineWith 100 (playingDeck 90 (6 / 5))) .left).2.1 rfl
    (by simp [engineWith, playingDeck, AudioEngine.deck])

/-- Counterexample for C19: `stopDeck` on a deck that is not playing (here an empty
one) returns true, not false. -/
theorem C19_counterexample :
    ((engineWith 100 createDeck).deck .left).isPlaying = false ∧
    ((engineWith 100 createDeck).stopDeck .left).1 = true :=
  ⟨rfl, rfl⟩

/-- The position reported after `setPlaybackRate` on a playing deck: the anchor
`startTime` is kept and the elapsed clock time is multiplied by the new rate. -/
theorem setPlaybackRate_reported_time (e : AudioEngine) (t : DeckId) (rate : ℚ)
    (hp : (e.deck t).isPlaying = true) :
    ((e.setPlaybackRate t rate).deck t).startTime = (e.deck t).startTime ∧
    (e.setPlaybackRate t rate).getCurrentTime t
      = (e.currentTime - (e.deck t).startTime) * rate := by
  have hcur : (e.setPlaybackRate t rate).currentTime = e.currentTime := by
    unfold AudioEngine.setPlaybackRate; cases t <;> rfl
  have hdeck : ((e.setPlaybackRate t rate).deck t).startTime = (e.deck t).startTime
      ∧ ((e.setPlaybackRate t rate).deck t).isPlaying = (e.deck t).isPlaying := by
    unfold AudioEngine.setPlaybackRate
    simp only [deck_dispatch, deck_setDeck_same]
    cases (e.deck t).source <;> exact ⟨rfl, rfl⟩
  refine ⟨hdeck.1, ?_⟩
  unfold AudioEngine.getCurrentTime
  simp only [hdeck.2, hp, hdeck.1, hcur, setPlaybackRate_rate, Bool.not_true, Bool.false_eq_true,
    if_false]

/-- C20 (failing input): a deck playing at rate 1 since clock time 0, at clock time
10. `getCurrentTime` reports 10 s before `setPlaybackRate(1.2)` and 12 s right
after it, at the same clock instant; the anchor `startTime` is not moved. -/
theorem C20_rate_change_moves_playhead :
    (engineWith 10 (playingDeck 0 1)).getCurrentTime .left = 10 ∧
    ((engineWith 10 (playingDeck 0 1)).setPlaybackRate .left (6 / 5)).getCurrentTime .left = 12 ∧
    (((engineWith 10 (playingDeck 0 1)).setPlaybackRate .left (6 / 5)).deck .left).startTime = 0 := by
  have h := setPlaybackRate_reported_time (engineWith 10 (playingDeck 0 1)) .left (6 / 5) rfl
  refine ⟨?_, ?_, ?_⟩
  · norm_num [AudioEngine.getCurrentTime, engineWith, playingDeck, AudioEngine.deck, createDeck]
  · rw [h.2]; norm_num [engineWith, playingDeck, AudioEngine.deck, createDeck]
  · rw [h.1]; rfl

/-! ## The nearest-beat searches of `syncPhase` -/

theorem isNearestBeat_unique (grid : List ℚ) (time : ℚ) (p : Nat → Prop) (j1 j2 : Nat)
    (h1 : IsNearestBeat grid time p j1) (h2 : IsNearestBeat grid time p j2) : j1 = j2 := by
  rcases lt_trichotomy j1 j2 with h | h | h
  · have ha := (h2.2.2 j1 h1.1 h1.2.1).2 h
    have hb := (h1.2.2 j2 h2.1 h2.2.1).1
    exact absurd (lt_of_lt_of_le ha hb) (lt_irrefl _)
  · exact h
  · have ha := (h1.2.2 j2 h2.1 h2.2.1).2 h
    have hb := (h2.2.2 j1 h1.1 h1.2.1).1
    exact absurd (lt_of_lt_of_le ha hb) (lt_irrefl _)

theorem getD_snoc_lt (l : List ℚ) (a : ℚ) (k : Nat) (hk : k < l.length) :
    (l ++ [a]).getD k 0 = l.getD k 0 :=
  List.getD_append l [a] 0 k hk

theorem getD_snoc_last (l : List ℚ) (a : ℚ) : (l ++ [a]).getD l.length 0 = a := by
  rw [List.getD_append_right l [a] 0 l.length (le_refl _)]
  simp

theorem enum_snoc_foldl {β : Type} (f : β → Nat × ℚ → β) (init : β) (l : List ℚ) (a : ℚ) :
    (l ++ [a]).enum.foldl f init = f (l.enum.foldl f init) (l.length, a) := by
  rw [List.enum_append, List.foldl_append, List.enumFrom_singleton]
  rfl

theorem closestTargetStep_take (time : ℚ) (c n : Nat) (a d : ℚ) (o : Option Nat)
    (hm : n % 4 = c) (hlt : |time - a| < d) :
    closestTargetStep time c (o, fin d) (n, a) = (some n, fin |time - a|) := by
  simp [closestTargetStep, hm, JSNum.lt, hlt]

theorem closestTargetStep_keep (time : ℚ) (c n : Nat) (a d : ℚ) (o : Option Nat)
    (hlt : ¬ |time - a| < d) :
    closestTargetStep time c (o, fin d) (n, a) = (o, fin d) := by
  by_cases hm : n % 4 = c
  · simp [closestTargetStep, hm, JSNum.lt, hlt]
  · simp [closestTargetStep, hm]

theorem closestStep_take (time : ℚ) (n i : Nat) (a d : ℚ) (hlt : |time - a| < d) :
    closestStep time (i, fin d) (n, a) = (n, fin |time - a|) := by
  simp [closestStep, JSNum.lt, hlt]

theorem closestStep_keep (time : ℚ) (n i : Nat) (a d : ℚ) (hlt : ¬ |time - a| < d) :
    closestStep time (i, fin d) (n, a) = (i, fin d) := by
  simp [closestStep, JSNum.lt, hlt]

/-- The state of the target loop after the whole grid: either no index has the
wanted position in the bar, or the state holds the nearest such index (the
lowest one on ties) and its distance. -/
theorem closestTarget_fold_spec (time : ℚ) (c : Nat) (l : List ℚ) :
    (l.enum.foldl (closestTargetStep time c) (none, posInf) = (none, posInf) ∧
      ∀ k, k < l.length → k % 4 ≠ c) ∨
    (∃ j, l.enum.foldl (closestTargetStep time c) (none, posInf)
        = (some j, fin |time - l.getD j 0|) ∧
      IsNearestBeat l time (fun k => k % 4 = c) j) := by
  induction l using List.reverseRecOn with
  | nil => exact Or.inl ⟨rfl, fun k hk => absurd hk (by simp)⟩
  | append_singleton l a ih =>
    rw [enum_snoc_foldl]
    have hlen : (l ++ [a]).length = l.length + 1 := by simp
    rcases ih with ⟨h0, hnone⟩ | ⟨j, hj, hnear⟩
    · rw [h0]
      by_cases hm : l.length % 4 = c
      · refine Or.inr ⟨l.length, ?_, ?_⟩
        · rw [getD_snoc_last]
          simp [closestTargetStep, hm, JSNum.lt]
        · refine ⟨by omega, hm, ?_⟩
          intro k hk hpk
          have hkeq : k = l.length := by
            by_contra hne
            exact hnone k (by omega) hpk
          subst hkeq
          exact ⟨le_refl _, fun h => absurd h (lt_irrefl _)⟩
      · refine Or.inl ⟨by simp [closestTargetStep, hm], ?_⟩
        intro k hk
        by_cases hkeq : k = l.length
        · subst hkeq; exact hm
        · exact hnone k (by omega)
    · rw [hj]
      obtain ⟨hjlt, hpj, hall⟩ := hnear
      by_cases hm : l.length % 4 = c
      · by_cases hlt : |time - a| < |time - l.getD j 0|
        · refine Or.inr ⟨l.length, ?_, ?_⟩
          · rw [getD_snoc_last]
            exact closestTargetStep_take _ _ _ _ _ _ hm hlt
          · refine ⟨by omega, hm, ?_⟩
            intro k hk hpk
            rw [getD_snoc_last]
            by_cases hkeq : k = l.length
            · subst hkeq
              rw [getD_snoc_last]
              exact ⟨le_refl _, fun h => absurd h (lt_irrefl _)⟩
            · have hk2 : k < l.length := by omega
              rw [getD_snoc_lt l a k hk2]
              have := (hall k hk2 hpk).1
              exact ⟨le_of_lt (lt_of_lt_of_le hlt this), fun _ => lt_of_lt_of_le hlt this⟩
        · refine Or.inr ⟨j, ?_, ?_⟩
          · rw [getD_snoc_lt l a j hjlt]
            exact closestTargetStep_keep _ _ _ _ _ _ hlt
          · refine ⟨by omega, hpj, ?_⟩
            intro k hk hpk
            rw [getD_snoc_lt l a j hjlt]
            by_cases hkeq : k = l.length
            · subst hkeq
              rw [getD_snoc_last]
              exact ⟨not_lt.mp hlt, fun h => absurd h (by omega)⟩
            · have hk2 : k < l.length := by omega
              rw [getD_snoc_lt l a k hk2]
              exact hall k hk2 hpk
      · refine Or.inr ⟨j, ?_, ?_⟩
        · rw [getD_snoc_lt l a j hjlt]
          simp [closestTargetStep, hm]
        · refine ⟨by omega, hpj, ?_⟩
          intro k hk hpk
          rw [getD_snoc_lt l a j hjlt]
          by_cases hkeq : k = l.length
          · subst hkeq; exact absurd hpk hm
          · have hk2 : k < l.length := by omega
            rw [getD_snoc_lt l a k hk2]
            exact hall k hk2 hpk

/-- The state of the source loop after a non-empty grid: the nearest index (the
lowest one on ties) and its distance. -/
theorem closestSource_fold_spec (time : ℚ) (l : List ℚ) :
    (l = [] ∧ l.enum.foldl (closestStep time) (0, posInf) = (0, posInf)) ∨
    (∃ j, l.enum.foldl (closestStep time) (0, posInf) = (j, fin |time - l.getD j 0|) ∧
      IsNearestBeat l time (fun _ => True) j) := by
  induction l using List.reverseRecOn with
  | nil => exact Or.inl ⟨rfl, rfl⟩
  | append_singleton l a ih =>
    rw [enum_snoc_foldl]
    have hlen : (l ++ [a]).length = l.length + 1 := by simp
    rcases ih with ⟨hnil, h0⟩ | ⟨j, hj, hnear⟩
    · rw [h0]
      subst hnil
      refine Or.inr ⟨0, ?_, ?_⟩
      · simp [closestStep, JSNum.lt]
      · refine ⟨by simp, trivial, ?_⟩
        intro k hk _
        have hk0 : k = 0 := by simp at hk; omega
        subst hk0
        exact ⟨le_refl _, fun h => absurd h (lt_irrefl _)⟩
    · rw [hj]
      obtain ⟨hjlt, _, hall⟩ := hnear
      by_cases hlt : |time - a| < |time - l.getD j 0|
      · refine Or.inr ⟨l.length, ?_, ?_⟩
        · rw [getD_snoc_last]
          exact closestStep_take _ _ _ _ _ hlt
        · refine ⟨by omega, trivial, ?_⟩
          intro k hk _
          rw [getD_snoc_last]
          by_cases hkeq : k = l.length
          · subst hkeq
            rw [getD_snoc_last]
            exact ⟨le_refl _, fun h => absurd h (lt_irrefl _)⟩
          · have hk2 : k < l.length := by omega
            rw [getD_snoc_lt l a k hk2]
            have := (hall k hk2 trivial).1
            exact ⟨le_of_lt (lt_of_lt_of_le hlt this), fun _ => lt_of_lt_of_le hlt this⟩
      · refine Or.inr ⟨j, ?_, ?_⟩
        · rw [getD_snoc_lt l a j hjlt]
          exact closestStep_keep _ _ _ _ _ hlt
        · refine ⟨by omega, trivial, ?_⟩
          intro k hk _
          rw [getD_snoc_lt l a j hjlt]
          by_cases hkeq : k = l.length
          · subst hkeq
            rw [getD_snoc_last]
            exact ⟨not_lt.mp hlt, fun h => absurd h (by omega)⟩
          · have hk2 : k < l.length := by omega
            rw [getD_snoc_lt l a k hk2]
            exact hall k hk2 trivial

theorem closestSourceBeat_spec (grid : List ℚ) (time : ℚ) (hne : grid ≠ []) :
    IsNearestBeat grid time (fun _ => True) (closestSourceBeat grid time) := by
  rcases closestSource_fold_spec time grid with ⟨h, _⟩ | ⟨j, hj, hnear⟩
  · exact absurd h hne
  · unfold closestSourceBeat
    rw [hj]; exact hnear

theorem closestTargetBeat_none (grid : List ℚ) (time : ℚ) (c : Nat)
    (h : ∀ k, k < grid.length → k % 4 ≠ c) : closestTargetBeat grid time c = none := by
  rcases closestTarget_fold_spec time c grid with ⟨h0, _⟩ | ⟨j, _, hnear⟩
  · unfold closestTargetBeat; rw [h0]
  · exact absurd hnear.2.1 (h j hnear.1)

theorem closestTargetBeat_some (grid : List ℚ) (time : ℚ) (c j : Nat)
    (h : IsNearestBeat grid time (fun k => k % 4 = c) j) :
    closestTargetBeat grid time c = some j := by
  rcases closestTarget_fold_spec time c grid with ⟨_, hnone⟩ | ⟨j2, hj2, hnear⟩
  · exact absurd h.2.1 (hnone j h.1)
  · unfold closestTargetBeat
    rw [hj2, isNearestBeat_unique _ _ _ _ _ hnear h]

theorem closestTargetBeat_exists (grid : List ℚ) (time : ℚ) (c : Nat)
    (h : ∃ k, k < grid.length ∧ k % 4 = c) :
    ∃ j, IsNearestBeat grid time (fun k => k % 4 = c) j := by
  rcases closestTarget_fold_spec time c grid with ⟨_, hnone⟩ | ⟨j, _, hnear⟩
  · obtain ⟨k, hk, hpk⟩ := h
    exact absurd hpk (hnone k hk)
  · exact ⟨j, hnear⟩

theorem closestSourceBeat_eq (grid : List ℚ) (time : ℚ) (j : Nat)
    (h : IsNearestBeat grid time (fun _ => True) j) : closestSourceBeat grid time = j := by
  have hne : grid ≠ [] := by
    intro h0; rw [h0] at h; exact absurd h.1 (by simp)
  exact isNearestBeat_unique _ _ _ _ _ (closestSourceBeat_spec grid time hne) h

/-- What `syncPhase` does once its first guard is passed. -/
theorem syncPhase_eq (bm : BeatManager) (s t : DeckId)
    (hs : (bm.beatGridData s).beatGrid ≠ []) (ht : (bm.beatGridData t).beatGrid ≠ [])
    (hp : (bm.audioEngine.deck t).isPlaying = true) :
    bm.syncPhase s t =
      match closestTargetBeat (bm.beatGridData t).beatGrid (bm.audioEngine.getCurrentTime t)
          (closestSourceBeat (bm.beatGridData s).beatGrid (bm.audioEngine.getCurrentTime s) % 4) with
      | none => (false, bm)
      | some j =>
        if |(bm.beatGridData t).beatGrid.getD j 0 - bm.audioEngine.getCurrentTime t| > 1 / 100 then
          (true, { bm with audioEngine := (bm.audioEngine.jumpToBeat t j).2 })
        else (true, bm) := by
  have hc : ¬ ((bm.beatGridData s).beatGrid.length = 0 ∨ (bm.beatGridData t).beatGrid.length = 0
      ∨ (bm.audioEngine.deck t).isPlaying = false) := by
    rintro (h | h | h)
    · exact hs (List.length_eq_zero.mp h)
    · exact ht (List.length_eq_zero.mp h)
    · rw [hp] at h; cases h
  unfold BeatManager.syncPhase
  simp only [if_neg hc]

/-- C16 (amended): when both beat grids are non-empty and the target is playing,
`syncPhase` takes `s`, the index of the source-grid beat nearest the source's
current time (lowest index on ties). If no target-grid index `j` has
`j mod 4 = s mod 4`, it returns false and changes nothing. Otherwise it takes the
index `j` with `j mod 4 = s mod 4` nearest the target's current time (lowest index
on ties), returns true, and calls `jumpToBeat(target, j)` exactly when
`|targetGrid[j] - targetTime| > 0.01`; when the difference is at most 0.01 the
state is unchanged. -/
theorem C16_syncPhase_selection (bm : BeatManager) (s t : DeckId)
    (hs : (bm.beatGridData s).beatGrid ≠ []) (ht : (bm.beatGridData t).beatGrid ≠ [])
    (hp : (bm.audioEngine.deck t).isPlaying = true) :
    ∃ sIdx, IsNearestBeat (bm.beatGridData s).beatGrid (bm.audioEngine.getCurrentTime s)
        (fun _ => True) sIdx ∧
      ((∀ k, k < (bm.beatGridData t).beatGrid.length → k % 4 ≠ sIdx % 4) →
        bm.syncPhase s t = (false, bm)) ∧
      ((∃ k, k < (bm.beatGridData t).beatGrid.length ∧ k % 4 = sIdx % 4) →
        ∃ j, IsNearestBeat (bm.beatGridData t).beatGrid (bm.audioEngine.getCurrentTime t)
            (fun k => k % 4 = sIdx % 4) j ∧
          (1 / 100 < |(bm.beatGridData t).beatGrid.getD j 0 - bm.audioEngine.getCurrentTime t| →
            bm.syncPhase s t
              = (true, { bm with audioEngine := (bm.audioEngine.jumpToBeat t j).2 })) ∧
          (|(bm.beatGridData t).beatGrid.getD j 0 - bm.audioEngine.getCurrentTime t| ≤ 1 / 100 →
            bm.syncPhase s t = (true, bm))) := by
  refine ⟨closestSourceBeat (bm.beatGridData s).beatGrid (bm.audioEngine.getCurrentTime s),
    closestSourceBeat_spec _ _ hs, ?_, ?_⟩
  · intro hnone
    rw [syncPhase_eq bm s t hs ht hp, closestTargetBeat_none _ _ _ hnone]
  · intro hex
    obtain ⟨j, hj⟩ := closestTargetBeat_exists _ (bm.audioEngine.getCurrentTime t) _ hex
    refine ⟨j, hj, ?_, ?_⟩
    · intro hgt
      rw [syncPhase_eq bm s t hs ht hp, closestTargetBeat_some _ _ _ _ hj]
      simp only [gt_iff_lt, if_pos hgt]
    · intro hle
      rw [syncPhase_eq bm s t hs ht hp, closestTargetBeat_some _ _ _ _ hj]
      simp only [gt_iff_lt, if_neg (not_lt.mpr hle)]

/-- Witness for C16 (amended): the decks of `phaseScenario`. -/
theorem C16_syncPhase_selection_witness :
    ∃ sIdx, IsNearestBeat (phaseScenario.beatGridData .left).beatGrid
        (phaseScenario.audioEngine.getCurrentTime .left) (fun _ => True) sIdx ∧
      ((∀ k, k < (phaseScenario.beatGridData .right).beatGrid.length → k % 4 ≠ sIdx % 4) →
        phaseScenario.syncPhase .left .right = (false, phaseScenario)) ∧
      ((∃ k, k < (phaseScenario.beatGridData .right).beatGrid.length ∧ k % 4 = sIdx % 4) →
        ∃ j, IsNearestBeat (phaseScenario.beatGridData .right).beatGrid
            (phaseScenario.audioEngine.getCurrentTime .right) (fun k => k % 4 = sIdx % 4) j ∧
          (1 / 100 < |(phaseScenario.beatGridData .right).beatGrid.getD j 0
              - phaseScenario.audioEngine.getCurrentTime .right| →
            phaseScenario.syncPhase .left .right
              = (true, { phaseScenario with
                  audioEngine := (phaseScenario.audioEngine.jumpToBeat .right j).2 })) ∧
          (|(phaseScenario.beatGridData .right).beatGrid.getD j 0
              - phaseScenario.audioEngine.getCurrentTime .right| ≤ 1 / 100 →
            phaseScenario.syncPhase .left .right = (true, phaseScenario))) :=
  C16_syncPhase_selection phaseScenario .left .right
    (by simp [phaseScenario, BeatManager.beatGridData, shortGrid])
    (by simp [phaseScenario, BeatManager.beatGridData, shortGrid])
    rfl

/-- Counterexample for C16: in `noMatchScenario` both grids are non-empty and the
target is playing; the source beat nearest to 0.5 s has index 1, the one-entry
target grid has no index `j` with `j mod 4 = 1`, and `syncPhase` returns false. -/
theorem C16_counterexample :
    (noMatchScenario.beatGridData .left).beatGrid ≠ [] ∧
    (noMatchScenario.beatGridData .right).beatGrid ≠ [] ∧
    (noMatchScenario.audioEngine.deck .right).isPlaying = true ∧
    closestSourceBeat (noMatchScenario.beatGridData .left).beatGrid
      (noMatchScenario.audioEngine.getCurrentTime .left) = 1 ∧
    (∀ k, k < (noMatchScenario.beatGridData .right).beatGrid.length → k % 4 ≠ 1 % 4) ∧
    noMatchScenario.syncPhase .left .right = (false, noMatchScenario) := by
  have hs : (noMatchScenario.beatGridData .left).beatGrid ≠ [] := by
    simp [noMatchScenario, BeatManager.beatGridData]
  have ht : (noMatchScenario.beatGridData .right).beatGrid ≠ [] := by
    simp [noMatchScenario, BeatManager.beatGridData]
  have htime : noMatchScenario.audioEngine.getCurrentTime .left = 1 / 2 := by
    simp [noMatchScenario, AudioEngine.getCurrentTime, AudioEngine.deck, pausedDeck, createDeck]
  have hgrid : (noMatchScenario.beatGridData .left).beatGrid = [0, 1 / 2] := rfl
  have hsrc : closestSourceBeat (noMatchScenario.beatGridData .left).beatGrid
      (noMatchScenario.audioEngine.getCurrentTime .left) = 1 := by
    apply closestSourceBeat_eq
    rw [htime, hgrid]
    refine ⟨by simp, trivial, ?_⟩
    intro k hk _
    have hk2 : k < 2 := by simpa using hk
    interval_cases k <;> norm_num
  have hnone : ∀ k, k < (noMatchScenario.beatGridData .right).beatGrid.length → k % 4 ≠ 1 % 4 := by
    intro k hk
    have hk2 : k < 1 := by simpa [noMatchScenario, BeatManager.beatGridData] using hk
    interval_cases k
    decide
  refine ⟨hs, ht, rfl, hsrc, hnone, ?_⟩
  rw [syncPhase_eq noMatchScenario .left .right hs ht rfl, hsrc,
    closestTargetBeat_none _ _ _ hnone]

theorem deck_setDeck_other (e : AudioEngine) (t u : DeckId) (d : Deck) (h : u ≠ t) :
    (e.setDeck t d).deck u = e.deck u := by
  cases t <;> cases u <;> first | rfl | exact absurd rfl h

/-- The effect of `jumpToBeat` on a playing deck whose grid has the index: the
anchor becomes `currentTime - beatGrid[j]`, and `getCurrentTime` then reports
`beatGrid[j]` multiplied by the playback rate. -/
theorem jumpToBeat_playing (e : AudioEngine) (t : DeckId) (j : Nat)
    (hj : j < (e.deck t).beatTracking.beatGrid.length) (hp : (e.deck t).isPlaying = true) :
    (e.jumpToBeat t j).1 = true ∧
    (e.jumpToBeat t j).2.currentTime = e.currentTime ∧
    ((e.jumpToBeat t j).2.deck t).startTime
      = e.currentTime - (e.deck t).beatTracking.beatGrid.getD j 0 ∧
    ((e.jumpToBeat t j).2.deck t).isPlaying = true ∧
    ((e.jumpToBeat t j).2.deck t).playbackRate = (e.deck t).playbackRate ∧
    ((e.jumpToBeat t j).2.deck t).beatTracking = (e.deck t).beatTracking ∧
    (∀ u, u ≠ t → (e.jumpToBeat t j).2.deck u = e.deck u) := by
  have hcur : ∀ d : Deck, (e.setDeck t d).currentTime = e.currentTime := by
    intro d; cases t <;> rfl
  unfold AudioEngine.jumpToBeat
  simp only [ge_iff_le, not_le.mpr hj, if_false, hp, if_true, deck_setDeck_same, hcur, true_and]
  intro u hu
  exact deck_setDeck_other e t u _ hu

/-- C17 (failing input): in `phaseScenario` the target plays at rate 1/2. The first
`syncPhase` returns true and repositions the target to beat 4 (anchor 10 - 2 = 8),
after which `getCurrentTime` reports 2 × 1/2 = 1 s; the second call, at the same
clock instant, repositions the target again, to beat 0 (anchor 10). -/
theorem C17_second_syncPhase_repositions :
    (phaseScenario.syncPhase .left .right).1 = true ∧
    (((phaseScenario.syncPhase .left .right).2.audioEngine).deck .right).startTime = 8 ∧
    ((phaseScenario.syncPhase .left .right).2.audioEngine).getCurrentTime .right = 1 ∧
    ((((phaseScenario.syncPhase .left .right).2.syncPhase .left .right).2.audioEngine).deck
      .right).startTime = 10 ∧
    ((phaseScenario.syncPhase .left .right).2.syncPhase .left .right).2
      ≠ (phaseScenario.syncPhase .left .right).2 := by
  -- the searches on the shared grid
  have hsrc : closestSourceBeat shortGrid 0 = 0 := by
    apply closestSourceBeat_eq
    refine ⟨by simp [shortGrid], trivial, ?_⟩
    intro k hk _
    have hk2 : k < 5 := by simpa [shortGrid] using hk
    interval_cases k <;> norm_num [shortGrid]
  have htgt1 : closestTargetBeat shortGrid (19 / 10) (0 % 4) = some 4 := by
    apply closestTargetBeat_some
    refine ⟨by simp [shortGrid], by decide, ?_⟩
    intro k hk hpk
    have hk2 : k < 5 := by simpa [shortGrid] using hk
    interval_cases k <;> simp at hpk <;> norm_num [shortGrid, abs_of_neg, abs_of_pos]
  have htgt2 : closestTargetBeat shortGrid 1 (0 % 4) = some 0 := by
    apply closestTargetBeat_some
    refine ⟨by simp [shortGrid], by decide, ?_⟩
    intro k hk hpk
    have hk2 : k < 5 := by simpa [shortGrid] using hk
    interval_cases k <;> simp at hpk <;> norm_num [shortGrid, abs_of_neg, abs_of_pos]
  -- the first call
  have hs : (phaseScenario.beatGridData .left).beatGrid ≠ [] := by
    simp [phaseScenario, BeatManager.beatGridData, shortGrid]
  have ht : (phaseScenario.beatGridData .right).beatGrid ≠ [] := by
    simp [phaseScenario, BeatManager.beatGridData, shortGrid]
  have hgl : (phaseScenario.beatGridData .left).beatGrid = shortGrid := rfl
  have hgr : (phaseScenario.beatGridData .right).beatGrid = shortGrid := rfl
  have htl : phaseScenario.audioEngine.getCurrentTime .left = 0 := by
    simp [phaseScenario, AudioEngine.getCurrentTime, AudioEngine.deck, pausedDeck, createDeck]
  have htr : phaseScenario.audioEngine.getCurrentTime .right = 19 / 10 := by
    norm_num [phaseScenario, AudioEngine.getCurrentTime, AudioEngine.deck, playingDeck, createDeck]
  have hfirst : phaseScenario.syncPhase .left .right
      = (true, { phaseScenario with
          audioEngine := (phaseScenario.audioEngine.jumpToBeat .right 4).2 }) := by
    rw [syncPhase_eq phaseScenario .left .right hs ht rfl, hgl, hgr, htl, htr, hsrc, htgt1]
    have : |shortGrid.getD 4 0 - 19 / 10| > 1 / 100 := by norm_num [shortGrid, abs_of_pos]
    simp only [if_pos this]
  obtain ⟨_, hcur1, hst1, hpl1, hrate1, hbt1, hother1⟩ :=
    jumpToBeat_playing phaseScenario.audioEngine .right 4 (by decide) rfl
  have hst1v : ((phaseScenario.audioEngine.jumpToBeat .right 4).2.deck .right).startTime = 8 := by
    rw [hst1]
    norm_num [phaseScenario, AudioEngine.deck, playingDeck, createDeck, shortGrid]
  have htr1 : (phaseScenario.audioEngine.jumpToBeat .right 4).2.getCurrentTime .right = 1 := by
    simp only [AudioEngine.getCurrentTime, hpl1, hcur1, hst1v, hrate1]
    norm_num [phaseScenario, AudioEngine.deck, playingDeck, createDeck]
  have htl1 : (phaseScenario.audioEngine.jumpToBeat .right 4).2.getCurrentTime .left = 0 := by
    simp only [AudioEngine.getCurrentTime, hother1 .left (by decide)]
    simp [phaseScenario, AudioEngine.deck, pausedDeck, createDeck]
  -- the second call
  have hsecond : ({ phaseScenario with
        audioEngine := (phaseScenario.audioEngine.jumpToBeat .right 4).2 } : BeatManager).syncPhase
        .left .right
      = (true, { phaseScenario with
          audioEngine := ((phaseScenario.audioEngine.jumpToBeat .right 4).2.jumpToBeat
            .right 0).2 }) := by
    rw [syncPhase_eq
      { phaseScenario with audioEngine := (phaseScenario.audioEngine.jumpToBeat .right 4).2 }
      .left .right (by rw [beatGridData_with_engine]; exact hs)
      (by rw [beatGridData_with_engine]; exact ht) hpl1]
    simp only [beatGridData_with_engine, hgl, hgr, htl1, htr1, hsrc, htgt2]
    have : |shortGrid.getD 0 0 - 1| > 1 / 100 := by norm_num [shortGrid]
    simp only [if_pos this]
  have hgrid1 : ((phaseScenario.audioEngine.jumpToBeat .right 4).2.deck
      .right).beatTracking.beatGrid = shortGrid := by
    rw [hbt1]; rfl
  obtain ⟨_, _, hst2, _⟩ :=
    jumpToBeat_playing (phaseScenario.audioEngine.jumpToBeat .right 4).2 .right 0
      (by rw [hgrid1]; decide) hpl1
  have hst2v : (((phaseScenario.audioEngine.jumpToBeat .right 4).2.jumpToBeat .right 0).2.deck
      .right).startTime = 10 := by
    rw [hst2, hcur1, hgrid1]
    norm_num [phaseScenario, shortGrid]
  rw [hfirst]
  refine ⟨rfl, hst1v, htr1, ?_, ?_⟩
  · rw [hsecond]; exact hst2v
  · rw [hsecond]
    intro heq
    have h1 := congrArg (fun b : BeatManager => (b.audioEngine.deck .right).startTime) heq
    simp only [hst2v, hst1v] at h1
    norm_num at h1

/-! ## Loop points and the engine's loop switch -/

/-- What `setLoopPoints` guarantees on a loaded deck: the stored start lies in
`[0, D]`, the stored end is at least 0.1 s after it, and the transport fields are
untouched. The end is bounded by `max D (start + 0.1)`, not by `D`. -/
theorem setLoopPoints_facts (e : AudioEngine) (t : DeckId) (b : AudioBuffer)
    (startPoint endPoint : ℚ) (hb : (e.deck t).buffer = some b) (hD : 0 < b.duration) :
    ∃ s en : ℚ, (e.setLoopPoints t startPoint endPoint).1 = true ∧
      ((e.setLoopPoints t startPoint endPoint).2.deck t).loopStart = some s ∧
      ((e.setLoopPoints t startPoint endPoint).2.deck t).loopEnd = some en ∧
      0 ≤ s ∧ s ≤ b.duration ∧ s + 1 / 10 ≤ en ∧ s < en ∧ en ≤ max b.duration (s + 1 / 10) ∧
      ((e.setLoopPoints t startPoint endPoint).2.deck t).isPlaying = (e.deck t).isPlaying ∧
      ((e.setLoopPoints t startPoint endPoint).2.deck t).playbackRate = (e.deck t).playbackRate ∧
      ((e.setLoopPoints t startPoint endPoint).2.deck t).startTime = (e.deck t).startTime ∧
      ((e.setLoopPoints t startPoint endPoint).2.deck t).pauseTime = (e.deck t).pauseTime := by
  refine ⟨max 0 (min b.duration startPoint),
    max (max 0 (min b.duration startPoint) + 1 / 10) (min b.duration endPoint), ?_⟩
  unfold AudioEngine.setLoopPoints
  simp only [hb, deck_setDeck_same, true_and, and_true]
  refine ⟨le_max_left _ _, ?_, le_max_left _ _, ?_, ?_⟩
  · exact max_le hD.le (min_le_left _ _)
  · have := le_max_left (max 0 (min b.duration startPoint) + 1 / 10) (min b.duration endPoint)
    linarith
  · exact max_le (le_max_right _ _) (le_trans (min_le_left _ _) (le_max_left _ _))

/-- C21 (failing input): on a 60 second track `setLoopPoints(60, 70)` stores
`loopStart = 60` and `loopEnd = 60.1`, which lies beyond the end of the track. -/
theorem C21_loop_end_beyond_track :
    ((engineWith 0 (pausedDeck 0 1)).deck .left).buffer = some { duration := 60 } ∧
    ((engineWith 0 (pausedDeck 0 1)).setLoopPoints .left 60 70).1 = true ∧
    (((engineWith 0 (pausedDeck 0 1)).setLoopPoints .left 60 70).2.deck .left).loopStart
      = some 60 ∧
    (((engineWith 0 (pausedDeck 0 1)).setLoopPoints .left 60 70).2.deck .left).loopEnd
      = some (601 / 10) ∧
    (60 : ℚ) < 601 / 10 := by
  refine ⟨rfl, ?_, ?_, ?_, by norm_num⟩
  · simp [AudioEngine.setLoopPoints, engineWith, pausedDeck, AudioEngine.deck]
  · simp [AudioEngine.setLoopPoints, engineWith, pausedDeck, AudioEngine.deck,
      AudioEngine.setDeck]
  · simp [AudioEngine.setLoopPoints, engineWith, pausedDeck, AudioEngine.deck,
      AudioEngine.setDeck]
    norm_num

/-- `enableLoop` refuses a loop that starts at 0: the test `!deck.loopStart` is true
for the number 0. -/
theorem enableLoop_start_zero (e : AudioEngine) (t : DeckId)
    (h : (e.deck t).loopStart = some 0) : e.enableLoop t = (false, e) := by
  unfold AudioEngine.enableLoop
  simp [h, AudioEngine.isFalsy]

/-- C22 (failing input): a loaded 60 second deck paused at 5 s. `setLoopPoints(0, 4)`
succeeds and stores the region `[0, 4]`, but `enableLoop` returns false, leaves
the loop disabled and leaves the position at 5 s. -/
theorem C22_enableLoop_rejects_start_zero :
    ((engineWith 0 (pausedDeck 5 1)).setLoopPoints .left 0 4).1 = true ∧
    (((engineWith 0 (pausedDeck 5 1)).setLoopPoints .left 0 4).2.deck .left).loopStart
      = some 0 ∧
    (((engineWith 0 (pausedDeck 5 1)).setLoopPoints .left 0 4).2.deck .left).loopEnd
      = some 4 ∧
    ((engineWith 0 (pausedDeck 5 1)).setLoopPoints .left 0 4).2.enableLoop .left
      = (false, ((engineWith 0 (pausedDeck 5 1)).setLoopPoints .left 0 4).2) ∧
    ((engineWith 0 (pausedDeck 5 1)).setLoopPoints .left 0 4).2.isLoopEnabled .left = false ∧
    ((engineWith 0 (pausedDeck 5 1)).setLoopPoints .left 0 4).2.getCurrentTime .left = 5 := by
  have hstart : (((engineWith 0 (pausedDeck 5 1)).setLoopPoints .left 0 4).2.deck
      .left).loopStart = some 0 := by
    simp [AudioEngine.setLoopPoints, engineWith, pausedDeck, AudioEngine.deck,
      AudioEngine.setDeck]
  refine ⟨?_, hstart, ?_, enableLoop_start_zero _ _ hstart, ?_, ?_⟩
  · simp [AudioEngine.setLoopPoints, engineWith, pausedDeck, AudioEngine.deck]
  · simp [AudioEngine.setLoopPoints, engineWith, pausedDeck, AudioEngine.deck,
      AudioEngine.setDeck]
    norm_num
  · simp [AudioEngine.isLoopEnabled, AudioEngine.setLoopPoints, engineWith, pausedDeck,
      AudioEngine.deck, AudioEngine.setDeck, createDeck]
  · simp [AudioEngine.getCurrentTime, AudioEngine.setLoopPoints, engineWith, pausedDeck,
      AudioEngine.deck, AudioEngine.setDeck, createDeck]

/-! ## Seeking, the loop monitor and hot cues -/

theorem currentTime_setDeck (e : AudioEngine) (t : DeckId) (d : Deck) :
    (e.setDeck t d).currentTime = e.currentTime := by
  cases t <;> rfl

theorem currentTime_dispatch (e : AudioEngine) (ev : Event) :
    (e.dispatch ev).currentTime = e.currentTime := rfl

/-- The effect of `jumpToTime` on a loaded, playing deck: the anchor becomes
`currentTime - time` for the clamped time, and `getCurrentTime` then reports the
clamped time multiplied by the playback rate. -/
theorem jumpToTime_playing (e : AudioEngine) (t : DeckId) (b : AudioBuffer) (time : ℚ)
    (hb : (e.deck t).buffer = some b) (hp : (e.deck t).isPlaying = true) :
    (e.jumpToTime t time).1 = true ∧
    ((e.jumpToTime t time).2.deck t).isPlaying = true ∧
    ((e.jumpToTime t time).2.deck t).startTime = e.currentTime - max 0 (min b.duration time) ∧
    (e.jumpToTime t time).2.getCurrentTime t
      = max 0 (min b.duration time) * (e.deck t).playbackRate := by
  unfold AudioEngine.jumpToTime AudioEngine.getCurrentTime
  simp only [hb, hp, if_true, deck_dispatch, deck_setDeck_same, currentTime_dispatch,
    currentTime_setDeck, Bool.not_true, Bool.false_eq_true, if_false, true_and]
  ring

/-- The effect of `jumpToTime` on a loaded deck that is not playing: the pause
position becomes the clamped time. -/
theorem jumpToTime_paused (e : AudioEngine) (t : DeckId) (b : AudioBuffer) (time : ℚ)
    (hb : (e.deck t).buffer = some b) (hp : (e.deck t).isPlaying = false) :
    (e.jumpToTime t time).1 = true ∧
    ((e.jumpToTime t time).2.deck t).isPlaying = false ∧
    (e.jumpToTime t time).2.getCurrentTime t = max 0 (min b.duration time) := by
  unfold AudioEngine.jumpToTime AudioEngine.getCurrentTime
  simp only [hb, hp, Bool.false_eq_true, if_false, deck_dispatch, deck_setDeck_same,
    Bool.not_false, if_true, true_and, and_self]

/-- C23 (failing input): in `loopScenario` the deck plays at rate 3/2 with the loop
`[10, 14]` enabled and reports 15 s. One run of the loop monitor jumps to the loop
start, yet `getCurrentTime` at the same instant reports 10 × 3/2 = 15 s again:
not the loop start, and not below the loop end. -/
theorem C23_loop_monitor_misses_loop_start :
    (loopScenario.loopSettings .left).enabled = true ∧
    loopScenario.audioEngine.getCurrentTime .left = 15 ∧
    ((loopScenario.checkLoopEnd .left).audioEngine.deck .left).startTime = 0 ∧
    (loopScenario.checkLoopEnd .left).audioEngine.getCurrentTime .left = 15 ∧
    ¬ ((15 : ℚ) < 14) := by
  have hcur : loopScenario.audioEngine.getCurrentTime .left = 15 := by
    norm_num [loopScenario, AudioEngine.getCurrentTime, engineWith, playingDeck,
      AudioEngine.deck, createDeck]
  have hcheck : loopScenario.checkLoopEnd .left
      = { loopScenario with audioEngine := (loopScenario.audioEngine.jumpToTime .left 10).2 } := by
    unfold LoopSystem.checkLoopEnd
    rw [hcur]
    simp [loopScenario, LoopSystem.loopSettings, LoopSystem.reachedEnd, JSNum.ge]
    norm_num
  obtain ⟨_, _, hst, htime⟩ := jumpToTime_playing loopScenario.audioEngine .left
    { duration := 60 } 10 rfl rfl
  refine ⟨rfl, hcur, ?_, ?_, by norm_num⟩
  · rw [hcheck]
    show ((loopScenario.audioEngine.jumpToTime .left 10).2.deck .left).startTime = 0
    rw [hst]
    norm_num [loopScenario, engineWith]
  · rw [hcheck]
    show (loopScenario.audioEngine.jumpToTime .left 10).2.getCurrentTime .left = 15
    rw [htime]
    norm_num [loopScenario, engineWith, playingDeck, AudioEngine.deck, createDeck]

theorem arrayGet_arraySet_same (array : List (Option ℚ)) (index : Nat) (value : Option ℚ) :
    AudioEngine.arrayGet (AudioEngine.arraySet array index value) index = value := by
  unfold AudioEngine.arrayGet AudioEngine.arraySet
  by_cases h : index < array.length
  · rw [if_pos h, List.getD_eq_getElem?_getD, List.getElem?_set_self h]
    rfl
  · rw [if_neg h, List.getD_eq_getElem?_getD]
    have hlen : (array ++ List.replicate (index - array.length) none).length = index := by
      simp; omega
    rw [List.getElem?_append_right (by omega), hlen]
    simp

/-- The position that the engine reports after `setHotCue` with an explicit
position and `jumpToHotCue` on a loaded, playing deck: the stored (clamped, non-zero)
position multiplied by the playback rate. -/
theorem hotCue_round_trip_playing (e : AudioEngine) (t : DeckId) (b : AudioBuffer)
    (index : Nat) (p : ℚ) (hb : (e.deck t).buffer = some b)
    (hp : (e.deck t).isPlaying = true) (hne : max 0 (min b.duration p) ≠ 0) :
    (e.setHotCue t index (some p)).1 = some (max 0 (min b.duration p)) ∧
    ((e.setHotCue t index (some p)).2.jumpToHotCue t index).1 = true ∧
    ((e.setHotCue t index (some p)).2.jumpToHotCue t index).2.getCurrentTime t
      = max 0 (min b.duration p) * (e.deck t).playbackRate := by
  have hset : e.setHotCue t index (some p) = (some (max 0 (min b.duration p)),
      e.setDeck t { e.deck t with
        hotCues := some (AudioEngine.arraySet ((e.deck t).hotCues.getD []) index
          (some (max 0 (min b.duration p)))) }) := by
    unfold AudioEngine.setHotCue
    simp only [hb]
  rw [hset]
  refine ⟨rfl, ?_⟩
  have hjump : (e.setDeck t { e.deck t with
        hotCues := some (AudioEngine.arraySet ((e.deck t).hotCues.getD []) index
          (some (max 0 (min b.duration p)))) }).jumpToHotCue t index
      = (e.setDeck t { e.deck t with
        hotCues := some (AudioEngine.arraySet ((e.deck t).hotCues.getD []) index
          (some (max 0 (min b.duration p)))) }).jumpToTime t (max 0 (min b.duration p)) := by
    unfold AudioEngine.jumpToHotCue
    simp only [deck_setDeck_same, arrayGet_arraySet_same, hb, AudioEngine.isFalsy, hne,
      decide_False, Bool.false_eq_true, or_self, if_false, Option.getD_some, reduceCtorEq]
  rw [hjump]
  obtain ⟨h1, _, _, h4⟩ := jumpToTime_playing (e.setDeck t { e.deck t with
        hotCues := some (AudioEngine.arraySet ((e.deck t).hotCues.getD []) index
          (some (max 0 (min b.duration p)))) }) t b (max 0 (min b.duration p))
    (by rw [deck_setDeck_same]; exact hb) (by rw [deck_setDeck_same]; exact hp)
  refine ⟨h1, ?_⟩
  rw [h4, deck_setDeck_same]
  have hclamp : max 0 (min b.duration (max 0 (min b.duration p))) = max 0 (min b.duration p) := by
    have h0 : (0 : ℚ) ≤ max 0 (min b.duration p) := le_max_left _ _
    rcases le_total b.duration p with h | h
    · rcases le_total 0 b.duration with hd | hd
      · simp [min_eq_left h, max_eq_right hd]
      · simp [min_eq_left h, max_eq_left hd, min_eq_right hd]
    · rcases le_total 0 p with hp0 | hp0
      · simp [min_eq_right h, max_eq_right hp0, h]
      · have hd : (0 : ℚ) ≤ b.duration ∨ b.duration ≤ 0 := le_total 0 b.duration
        rcases hd with hd | hd
        · simp [min_eq_right h, max_eq_left hp0, min_eq_right hd]
        · simp [min_eq_right h, max_eq_left hp0, min_eq_left hd, max_eq_left hd]
  rw [hclamp]

theorem getCurrentTime_dispatch (e : AudioEngine) (ev : Event) (t : DeckId) :
    (e.dispatch ev).getCurrentTime t = e.getCurrentTime t := by
  cases t <;> rfl

/-- C24 (failing input): with slot 3 set to 22.5 s on a deck that plays a 60 second
track at rate 6/5, `jumpToHotCue` succeeds but the engine then reports 27 s, not the
stored 22.5 s; the loop system shows the same on `cueScenario`, where the cue is
taken at the reported position 22.5 s. On a paused deck a cue stored at position 0
makes the engine's `jumpToHotCue` return `false` and the position stays at 5 s. -/
theorem C24_hot_cue_round_trip_fails :
    ((engineWith 100 (playingDeck 90 (6 / 5))).setHotCue .left 3 (some (45 / 2))).1
      = some (45 / 2) ∧
    (((engineWith 100 (playingDeck 90 (6 / 5))).setHotCue .left 3 (some (45 / 2))).2.jumpToHotCue
      .left 3).1 = true ∧
    (((engineWith 100 (playingDeck 90 (6 / 5))).setHotCue .left 3 (some (45 / 2))).2.jumpToHotCue
      .left 3).2.getCurrentTime .left = 27 ∧
    cueScenario.audioEngine.getCurrentTime .left = 45 / 2 ∧
    (cueScenario.setHotCue .left 3).1 = 45 / 2 ∧
    (cueScenario.setHotCue .left 3).2.hotCues .left 3 = some (45 / 2) ∧
    ((cueScenario.setHotCue .left 3).2.jumpToHotCue .left 3).1 = true ∧
    ((cueScenario.setHotCue .left 3).2.jumpToHotCue .left 3).2.audioEngine.getCurrentTime .left
      = 27 ∧
    ((engineWith 0 (pausedDeck 5 1)).setHotCue .left 3 (some 0)).1 = some 0 ∧
    (((engineWith 0 (pausedDeck 5 1)).setHotCue .left 3 (some 0)).2.jumpToHotCue .left 3).1
      = false ∧
    (((engineWith 0 (pausedDeck 5 1)).setHotCue .left 3 (some 0)).2.jumpToHotCue
      .left 3).2.getCurrentTime .left = 5 := by
  have hclamp : max (0 : ℚ) (min 60 (45 / 2)) = 45 / 2 := by norm_num
  obtain ⟨h1, h2, h3⟩ := hotCue_round_trip_playing (engineWith 100 (playingDeck 90 (6 / 5)))
    .left { duration := 60 } 3 (45 / 2) rfl rfl (by norm_num)
  have hcur : cueScenario.audioEngine.getCurrentTime .left = 45 / 2 := by
    norm_num [cueScenario, AudioEngine.getCurrentTime, engineWith, playingDeck,
      AudioEngine.deck, createDeck]
  refine ⟨?_, h2, ?_, hcur, ?_, ?_, ?_, ?_, ?_, ?_, ?_⟩
  · rw [h1]; norm_num
  · rw [h3]; norm_num [engineWith, playingDeck, AudioEngine.deck, createDeck]
  · simp only [LoopSystem.setHotCue, hcur]
  · simp only [LoopSystem.setHotCue, hcur, LoopSystem.dispatch, LoopSystem.setHotCues,
      LoopSystem.hotCues, Function.update_same]
  · simp only [LoopSystem.setHotCue, hcur, LoopSystem.dispatch, LoopSystem.setHotCues,
      LoopSystem.hotCues, Function.update_same, LoopSystem.jumpToHotCue]
  · simp only [LoopSystem.setHotCue, hcur, LoopSystem.dispatch, LoopSystem.setHotCues,
      LoopSystem.hotCues, Function.update_same, LoopSystem.jumpToHotCue]
    have hj := (jumpToTime_playing (cueScenario.audioEngine.dispatch (.hotcueset .left 3 (45 / 2)))
      .left { duration := 60 } (45 / 2) rfl rfl).2.2.2
    show AudioEngine.getCurrentTime (AudioEngine.dispatch
      ((cueScenario.audioEngine.dispatch (.hotcueset .left 3 (45 / 2))).jumpToTime .left
        (45 / 2)).2 (.hotcuejump .left 3 (45 / 2))) .left = 27
    rw [getCurrentTime_dispatch, hj]
    norm_num [cueScenario, engineWith, playingDeck, AudioEngine.deck, createDeck,
      AudioEngine.dispatch]
  · simp [AudioEngine.setHotCue, engineWith, pausedDeck, AudioEngine.deck, createDeck]
  · simp [AudioEngine.setHotCue, AudioEngine.jumpToHotCue, engineWith, pausedDeck,
      AudioEngine.deck, createDeck, AudioEngine.setDeck, AudioEngine.arraySet,
      AudioEngine.arrayGet, AudioEngine.isFalsy]
  · simp [AudioEngine.setHotCue, AudioEngine.jumpToHotCue, engineWith, pausedDeck,
      AudioEngine.deck, createDeck, AudioEngine.setDeck, AudioEngine.arraySet,
      AudioEngine.arrayGet, AudioEngine.isFalsy, AudioEngine.getCurrentTime]

theorem arrayGet_arraySet_other (array : List (Option ℚ)) (index j : Nat) (value : Option ℚ)
    (h : j ≠ index) :
    AudioEngine.arrayGet (AudioEngine.arraySet array index value) j
      = AudioEngine.arrayGet array j := by
  unfold AudioEngine.arrayGet AudioEngine.arraySet
  by_cases hi : index < array.length
  · rw [if_pos hi, List.getD_eq_getElem?_getD, List.getD_eq_getElem?_getD,
      List.getElem?_set_ne (Ne.symm h)]
  · rw [if_neg hi, List.getD_eq_getElem?_getD, List.getD_eq_getElem?_getD]
    by_cases hj : j < array.length
    · rw [List.append_assoc, List.getElem?_append_left hj]
    · rw [List.getElem?_eq_none (not_lt.mp hj)]
      by_cases hji : j < index
      · rw [List.getElem?_append_left (by simp; omega),
          List.getElem?_append_right (not_lt.mp hj)]
        rw [List.getElem?_replicate]
        split_ifs <;> rfl
      · rw [List.getElem?_eq_none (by simp; omega)]

/-- The engine's `clearHotCue` only writes the cue array of the deck. -/
theorem clearHotCue_engine_frame (e : AudioEngine) (t : DeckId) (index : Nat) :
    (e.clearHotCue t index).2.getCurrentTime t = e.getCurrentTime t ∧
    ((e.clearHotCue t index).2.deck t).isPlaying = (e.deck t).isPlaying ∧
    AudioEngine.arrayGet (((e.clearHotCue t index).2.deck t).hotCues.getD []) index = none ∧
    ∀ j, j ≠ index →
      AudioEngine.arrayGet (((e.clearHotCue t index).2.deck t).hotCues.getD []) j
        = AudioEngine.arrayGet ((e.deck t).hotCues.getD []) j := by
  cases hc : (e.deck t).hotCues with
  | none =>
    have h : e.clearHotCue t index = (false, e) := by
      unfold AudioEngine.clearHotCue
      simp only [hc]
    rw [h]
    simp [hc, AudioEngine.arrayGet]
  | some a =>
    have h : e.clearHotCue t index = (true, e.setDeck t { e.deck t with
        hotCues := some (AudioEngine.arraySet a index none) }) := by
      unfold AudioEngine.clearHotCue
      simp only [hc]
    rw [h]
    simp only [AudioEngine.getCurrentTime, deck_setDeck_same, currentTime_setDeck,
      Option.getD_some, arrayGet_arraySet_same, true_and]
    intro j hj
    exact arrayGet_arraySet_other a index j none hj

/-- The engine's `jumpToHotCue` on a slot that reads as empty returns `false` and
leaves the engine as it was. -/
theorem jumpToHotCue_engine_empty (e : AudioEngine) (t : DeckId) (index : Nat)
    (h : AudioEngine.arrayGet ((e.deck t).hotCues.getD []) index = none) :
    e.jumpToHotCue t index = (false, e) := by
  cases hc : (e.deck t).hotCues with
  | none =>
    unfold AudioEngine.jumpToHotCue
    simp only [hc]
  | some a =>
    rw [hc, Option.getD_some] at h
    unfold AudioEngine.jumpToHotCue
    simp only [hc, h, AudioEngine.isFalsy, or_true, if_true]

/-- The loop system's `clearHotCue` only writes the slot and dispatches an event. -/
theorem clearHotCue_loopSystem_frame (ls : LoopSystem) (t : DeckId) (slot : Fin 8) :
    (ls.clearHotCue t slot).2.audioEngine.getCurrentTime t = ls.audioEngine.getCurrentTime t ∧
    ((ls.clearHotCue t slot).2.audioEngine.deck t).isPlaying
      = (ls.audioEngine.deck t).isPlaying ∧
    (ls.clearHotCue t slot).2.hotCues t slot = none ∧
    ∀ j, j ≠ slot → (ls.clearHotCue t slot).2.hotCues t j = ls.hotCues t j := by
  refine ⟨?_, ?_, ?_, ?_⟩
  · cases t <;> rfl
  · cases t <;> rfl
  · cases t <;>
      simp [LoopSystem.clearHotCue, LoopSystem.dispatch, LoopSystem.setHotCues,
        LoopSystem.hotCues]
  · intro j hj
    cases t <;>
      simp [LoopSystem.clearHotCue, LoopSystem.dispatch, LoopSystem.setHotCues,
        LoopSystem.hotCues, Function.update_noteq hj]

/-- The loop system's `jumpToHotCue` on an empty slot returns `false` and leaves the
loop system as it was. -/
theorem jumpToHotCue_loopSystem_empty (ls : LoopSystem) (t : DeckId) (slot : Fin 8)
    (h : ls.hotCues t slot = none) : ls.jumpToHotCue t slot = (false, ls) := by
  unfold LoopSystem.jumpToHotCue
  rw [h]

/-- C25: in both hot-cue implementations, `jumpToHotCue` on a slot after
`clearHotCue` on it returns `false` and changes nothing, and the clearing itself
keeps the position, the `isPlaying` flag and every other slot; a slot that reads as
empty (never set) gives the same `false` with nothing changed. -/
theorem C25_cleared_or_empty_cue_refuses_jump (e : AudioEngine) (ls : LoopSystem) (t : DeckId)
    (index : Nat) (slot : Fin 8) :
    ((e.clearHotCue t index).2.jumpToHotCue t index = (false, (e.clearHotCue t index).2) ∧
      (e.clearHotCue t index).2.getCurrentTime t = e.getCurrentTime t ∧
      ((e.clearHotCue t index).2.deck t).isPlaying = (e.deck t).isPlaying ∧
      (∀ j, j ≠ index →
        AudioEngine.arrayGet (((e.clearHotCue t index).2.deck t).hotCues.getD []) j
          = AudioEngine.arrayGet ((e.deck t).hotCues.getD []) j) ∧
      (AudioEngine.arrayGet ((e.deck t).hotCues.getD []) index = none →
        e.jumpToHotCue t index = (false, e))) ∧
    ((ls.clearHotCue t slot).2.jumpToHotCue t slot = (false, (ls.clearHotCue t slot).2) ∧
      (ls.clearHotCue t slot).2.audioEngine.getCurrentTime t
        = ls.audioEngine.getCurrentTime t ∧
      ((ls.clearHotCue t slot).2.audioEngine.deck t).isPlaying
        = (ls.audioEngine.deck t).isPlaying ∧
      (∀ j, j ≠ slot → (ls.clearHotCue t slot).2.hotCues t j = ls.hotCues t j) ∧
      (ls.hotCues t slot = none → ls.jumpToHotCue t slot = (false, ls))) := by
  obtain ⟨e1, e2, e3, e4⟩ := clearHotCue_engine_frame e t index
  obtain ⟨l1, l2, l3, l4⟩ := clearHotCue_loopSystem_frame ls t slot
  exact ⟨⟨jumpToHotCue_engine_empty _ t index e3, e1, e2, e4, jumpToHotCue_engine_empty e t index⟩,
    ⟨jumpToHotCue_loopSystem_empty _ t slot l3, l1, l2, l4, jumpToHotCue_loopSystem_empty ls t slot⟩⟩

/-- C25 at a concrete input: on `twoCueEngine` (playing at rate 6/5, cues in slots
3 and 5), clearing slot 3 and jumping to it returns `false`, the reported position
stays 12 s, slot 5 still holds 30 s, and slot 6, never set, refuses the jump as
well; on `cueScenario` with slot 3 set and cleared the loop system refuses too,
the position stays 22.5 s and the never-set slot 4 refuses. -/
theorem C25_cleared_or_empty_cue_refuses_jump_witness :
    ((twoCueEngine.clearHotCue .left 3).2.jumpToHotCue .left 3).1 = false ∧
    (twoCueEngine.clearHotCue .left 3).2.getCurrentTime .left = 12 ∧
    AudioEngine.arrayGet (((twoCueEngine.clearHotCue .left 3).2.deck .left).hotCues.getD []) 5
      = some 30 ∧
    (twoCueEngine.jumpToHotCue .left 6).1 = false ∧
    (((cueScenario.setHotCue .left 3).2.clearHotCue .left 3).2.jumpToHotCue .left 3).1 = false ∧
    ((cueScenario.setHotCue .left 3).2.clearHotCue .left 3).2.audioEngine.getCurrentTime .left
      = 45 / 2 ∧
    ((cueScenario.setHotCue .left 3).2.jumpToHotCue .left 4).1 = false := by
  have hcues : (twoCueEngine.deck .left).hotCues
      = some [none, none, none, some (45 / 2), none, some 30] := by
    simp [twoCueEngine, AudioEngine.setHotCue, engineWith, playingDeck, AudioEngine.deck,
      AudioEngine.setDeck, createDeck, AudioEngine.arraySet]
    norm_num
  have hcur : cueScenario.audioEngine.getCurrentTime .left = 45 / 2 := by
    norm_num [cueScenario, AudioEngine.getCurrentTime, engineWith, playingDeck,
      AudioEngine.deck, createDeck]
  obtain ⟨⟨a1, a2, _, a4, a5⟩, ⟨b1, b2, _, _, b5⟩⟩ := C25_cleared_or_empty_cue_refuses_jump
    twoCueEngine (cueScenario.setHotCue .left 3).2 .left 3 3
  have c5 := (C25_cleared_or_empty_cue_refuses_jump twoCueEngine (cueScenario.setHotCue .left 3).2
    .left 6 4).1.2.2.2.2 (by rw [hcues]; rfl)
  have d5 := (C25_cleared_or_empty_cue_refuses_jump twoCueEngine (cueScenario.setHotCue .left 3).2
    .left 6 4).2.2.2.2.2 (by
      simp [LoopSystem.setHotCue, LoopSystem.dispatch, LoopSystem.setHotCues,
        LoopSystem.hotCues, cueScenario])
  refine ⟨?_, ?_, ?_, ?_, ?_, ?_, ?_⟩
  · rw [a1]
  · rw [a2]
    norm_num [twoCueEngine, AudioEngine.setHotCue, AudioEngine.getCurrentTime, engineWith,
      playingDeck, AudioEngine.deck, AudioEngine.setDeck, createDeck]
  · rw [a4 5 (by decide), hcues]
    rfl
  · rw [c5]
  · rw [b1]
  · rw [b2]
    exact hcur
  · rw [d5]

/-! ## Late analysis results and track loading -/

/-- The engine's result handler stores the values of the message in the deck the
message names, and touches nothing else of that deck. -/
theorem onBpmResult_deck (e : AudioEngine) (t : DeckId) (bpm : ℚ) (beatGrid : List ℚ)
    (confidence : ℚ) :
    (e.onBpmResult t bpm beatGrid confidence).deck t
      = { e.deck t with
          beatTracking := { bpm := bpm, beatGrid := beatGrid, confidence := confidence } } := by
  unfold AudioEngine.onBpmResult
  simp only [deck_dispatch, deck_setDeck_same]

/-- The beat manager's result handler stores the values of the message. -/
theorem onWorkerMessage_data (bm : BeatManager) (t : DeckId) (bpm : ℚ) (beatGrid : List ℚ)
    (confidence : ℚ) :
    (bm.onWorkerMessage t bpm beatGrid confidence).beatGridData t
      = { bm.beatGridData t with bpm := bpm, beatGrid := beatGrid, confidence := confidence } := by
  cases t <;> rfl

/-- What a `loadTrack` that nothing interrupts writes: the buffer, the loaded flag, a
pause position of 0 and, through `stopDeck`, a stopped deck; every other field of
the deck and the event log stay as they were. -/
theorem loadTrack_deck (e : AudioEngine) (t : DeckId) (b : AudioBuffer) :
    (e.loadTrack t b id).deck t
      = { e.deck t with
          buffer := some b, loaded := true, pauseTime := 0, isPlaying := false,
          source := if (e.deck t).isPlaying then none else (e.deck t).source } ∧
    (e.loadTrack t b id).events = e.events := by
  unfold AudioEngine.loadTrack
  cases hp : (e.deck t).isPlaying
  · simp only [Bool.false_eq_true, if_false, deck_setDeck_same, id]
    constructor
    · rw [← hp]
    · cases t <;> rfl
  · simp only [if_true, AudioEngine.stopDeck, deck_setDeck_same, id]
    constructor
    · trivial
    · cases t <;> rfl

/-- C26 (failing input): in `reloadedEngine` the left deck holds track B with its
own result, 100 BPM. The late result for the replaced track A (128 BPM) is then
delivered to the engine's handler and changes the deck's bpm, beat grid and
confidence while the buffer is still B; the beat manager's handler writes the
late values into its own record in the same way. -/
theorem C26_late_result_overwrites_new_track :
    (reloadedEngine.deck .left).buffer = some { duration := 200 } ∧
    (reloadedEngine.deck .left).beatTracking
      = { bpm := 100, beatGrid := [0, 3 / 5], confidence := 1 } ∧
    ((reloadedEngine.onBpmResult .left 128 [0, 15 / 32] (1 / 2)).deck .left).buffer
      = some { duration := 200 } ∧
    ((reloadedEngine.onBpmResult .left 128 [0, 15 / 32] (1 / 2)).deck .left).beatTracking
      = { bpm := 128, beatGrid := [0, 15 / 32], confidence := 1 / 2 } ∧
    ((reloadedEngine.onBpmResult .left 128 [0, 15 / 32] (1 / 2)).deck .left).beatTracking
      ≠ (reloadedEngine.deck .left).beatTracking ∧
    ((scenarioManager 100 1 120).beatGridData .left).bpm = 100 ∧
    (((scenarioManager 100 1 120).onWorkerMessage .left 128 [0, 15 / 32] (1 / 2)).beatGridData
      .left).bpm = 128 := by
  have hb : (reloadedEngine.deck .left).buffer = some { duration := 200 } := by
    unfold reloadedEngine
    rw [onBpmResult_deck, (loadTrack_deck _ .left _).1]
  have ht : (reloadedEngine.deck .left).beatTracking
      = { bpm := 100, beatGrid := [0, 3 / 5], confidence := 1 } := by
    unfold reloadedEngine
    rw [onBpmResult_deck]
  refine ⟨hb, ht, ?_, ?_, ?_, rfl, ?_⟩
  · rw [onBpmResult_deck]
    exact hb
  · rw [onBpmResult_deck]
  · rw [onBpmResult_deck, ht]
    intro h
    have h2 := congrArg BeatTracking.bpm h
    norm_num at h2
  · rw [onWorkerMessage_data]

/-- The listener for `trackloaded` leaves the loop system with the loop of the deck
disabled, its points at 0, and all eight slots empty. -/
theorem onTrackLoaded_resets (ls : LoopSystem) (t : DeckId) :
    ((ls.onTrackLoaded t).loopSettings t).enabled = false ∧
    ((ls.onTrackLoaded t).loopSettings t).startPoint = 0 ∧
    ((ls.onTrackLoaded t).loopSettings t).endPoint = some (fin 0) ∧
    ∀ i, (ls.onTrackLoaded t).hotCues t i = none := by
  cases t <;> exact ⟨rfl, rfl, rfl, fun _ => rfl⟩

/-- The state of `loopedCueEngine`: on the left deck the loop `[10, 14]` is stored
and enabled, and the cue array holds 22.5 s in slot 3 and 30 s in slot 5. -/
theorem loopedCueEngine_eq :
    loopedCueEngine
      = { currentTime := 100,
          left :=
            { buffer := some { duration := 60 },
              source := some { playbackRate := 6 / 5, offset := 0 },
              loaded := true, isPlaying := true, startTime := 90, pauseTime := 0,
              playbackRate := 6 / 5,
              beatTracking := { bpm := 0, beatGrid := [], confidence := 0 },
              loopStart := some 10, loopEnd := some 14, loopEnabled := true,
              hotCues := some [none, none, none, some (45 / 2), none, some 30] },
          right := createDeck,
          events := [] } := by
  simp [loopedCueEngine, twoCueEngine, AudioEngine.setLoopPoints, AudioEngine.enableLoop,
    AudioEngine.setHotCue, engineWith, playingDeck, AudioEngine.deck, AudioEngine.setDeck,
    createDeck, AudioEngine.arraySet, AudioEngine.isFalsy, AudioEngine.getCurrentTime]
  norm_num

/-- C27 (failing input): `loopedCueEngine` holds the enabled loop `[10, 14]` and
cues in slots 3 and 5 on its left deck. After a new 200 second track is loaded
into that deck, with nothing running in between, the loop region is still stored,
the loop is still enabled and the slots still hold 22.5 s and 30 s; the load has
dispatched no event, so no `trackloaded` reaches the listener that would reset the
loop system. When `playDeck` runs while the load is suspended, the deck is
playing after the load and reports 3.6 s, not 0. -/
theorem C27_load_keeps_loop_and_cues :
    ((loopedCueEngine.loadTrack .left { duration := 200 } id).deck .left).buffer
      = some { duration := 200 } ∧
    ((loopedCueEngine.loadTrack .left { duration := 200 } id).deck .left).loopStart
      = some 10 ∧
    ((loopedCueEngine.loadTrack .left { duration := 200 } id).deck .left).loopEnd = some 14 ∧
    (loopedCueEngine.loadTrack .left { duration := 200 } id).isLoopEnabled .left = true ∧
    AudioEngine.arrayGet
      (((loopedCueEngine.loadTrack .left { duration := 200 } id).deck .left).hotCues.getD []) 3
      = some (45 / 2) ∧
    AudioEngine.arrayGet
      (((loopedCueEngine.loadTrack .left { duration := 200 } id).deck .left).hotCues.getD []) 5
      = some 30 ∧
    (loopedCueEngine.loadTrack .left { duration := 200 } id).events = [] ∧
    ((loopedCueEngine.loadTrack .left { duration := 200 } playWhileLoading).deck
      .left).isPlaying = true ∧
    (loopedCueEngine.loadTrack .left { duration := 200 } playWhileLoading).getCurrentTime .left
      = 18 / 5 := by
  obtain ⟨hd, hev⟩ := loadTrack_deck loopedCueEngine .left { duration := 200 }
  refine ⟨?_, ?_, ?_, ?_, ?_, ?_, ?_, ?_, ?_⟩
  · rw [hd]
  · rw [hd, loopedCueEngine_eq]; rfl
  · rw [hd, loopedCueEngine_eq]; rfl
  · unfold AudioEngine.isLoopEnabled
    rw [hd, loopedCueEngine_eq]; rfl
  · rw [hd, loopedCueEngine_eq]; rfl
  · rw [hd, loopedCueEngine_eq]; rfl
  · rw [hev, loopedCueEngine_eq]
  · rw [loopedCueEngine_eq]
    simp [AudioEngine.loadTrack, playWhileLoading, AudioEngine.playDeck, AudioEngine.stopDeck,
      AudioEngine.deck, AudioEngine.setDeck]
  · rw [loopedCueEngine_eq]
    simp [AudioEngine.loadTrack, playWhileLoading, AudioEngine.playDeck, AudioEngine.stopDeck,
      AudioEngine.deck, AudioEngine.setDeck, AudioEngine.getCurrentTime]
    norm_num

/-! ## Beat-quantized loops -/

/-- C28 (failing input): in `halfBeatScenario` the deck holds the uniform grid
`shortGrid` (spacing 60/120 s), sits at 0 s and has the loop size 1/2 from the
option list. `setLoopFromCurrentPosition` finds beat 0 and stores the start point
0, but the end index 0 + 1/2 lies below the grid length, so the end point is read
as `beatGrid[0.5]`, which is `undefined`: the stored end point is not a number,
where 0 + 1/2 × 60/120 = 1/4 s was due, and the loop monitor never sees the end
reached. -/
theorem C28_fractional_loop_size_stores_no_end :
    (1 / 2 : ℚ) ∈ loopSizeOptions ∧
    shortGrid = (List.range 5).map (fun (i : Nat) => (i : ℚ) * (60 / 120)) ∧
    (halfBeatScenario.loopSettings .left).size = 1 / 2 ∧
    halfBeatScenario.findClosestBeatIndex .left 0 = 0 ∧
    ((halfBeatScenario.setLoopFromCurrentPosition .left).loopSettings .left).startPoint = 0 ∧
    ((halfBeatScenario.setLoopFromCurrentPosition .left).loopSettings .left).endPoint = none ∧
    ((halfBeatScenario.setLoopFromCurrentPosition .left).loopSettings .left).endPoint
      ≠ some (fin (0 + 1 / 2 * (60 / 120))) ∧
    (∀ currentTime, LoopSystem.reachedEnd currentTime
      ((halfBeatScenario.setLoopFromCurrentPosition .left).loopSettings .left).endPoint
        = false) := by
  have hgrid : (halfBeatScenario.audioEngine.deck .left).beatTracking.beatGrid = shortGrid := rfl
  have hcur : halfBeatScenario.audioEngine.getCurrentTime .left = 0 := rfl
  have hsrc : closestSourceBeat shortGrid 0 = 0 := by
    apply closestSourceBeat_eq
    refine ⟨by simp [shortGrid], trivial, ?_⟩
    intro k hk _
    have hk2 : k < 5 := by simpa [shortGrid] using hk
    interval_cases k <;> norm_num [shortGrid]
  have hidx : halfBeatScenario.findClosestBeatIndex .left 0 = 0 := by
    unfold LoopSystem.findClosestBeatIndex
    rw [hgrid, if_neg (by simp [shortGrid])]
    show ((closestSourceBeat shortGrid 0 : Nat) : ℤ) = 0
    rw [hsrc]
    rfl
  have hend : LoopSystem.beatLoopEnd (halfBeatScenario.audioEngine.deck .left) 0 0 (1 / 2)
      = none := by
    unfold LoopSystem.beatLoopEnd
    rw [hgrid]
    have h1 : ((0 : ℤ) : ℚ) + 1 / 2 < ((shortGrid.length : Nat) : ℚ) := by
      norm_num [shortGrid]
    simp only [h1, if_true]
    have h2 : numberIndexRead shortGrid (((0 : ℤ) : ℚ) + 1 / 2) = none := by
      unfold numberIndexRead
      have hden : ((((0 : ℤ) : ℚ) + 1 / 2 : ℚ)).den = 2 := by norm_num
      rw [if_neg (by rw [hden]; decide)]
    rw [h2]
    rfl
  have hset : halfBeatScenario.setLoopFromCurrentPosition .left
      = halfBeatScenario.setLoopPoints .left 0 none := by
    have hsize : (halfBeatScenario.loopSettings .left).size = 1 / 2 := rfl
    have hstart : shortGrid.getD (0 : ℤ).toNat 0 = 0 := rfl
    have hlen : shortGrid.length > 0 := by simp [shortGrid]
    simp only [LoopSystem.setLoopFromCurrentPosition, hcur, hgrid, hlen, if_true, hidx, hsize,
      hstart, hend]
  have hep : ((halfBeatScenario.setLoopFromCurrentPosition .left).loopSettings .left).endPoint
      = none := by
    rw [hset]; rfl
  refine ⟨by simp [loopSizeOptions], ?_, rfl, hidx, ?_, hep, ?_, ?_⟩
  · simp [shortGrid, List.range_succ]
    norm_num
  · rw [hset]; rfl
  · rw [hep]; exact fun h => Option.noConfusion h
  · intro c
    rw [hep]; rfl

/-! ## The ended callback of a replaced source -/

/-- The `onended` handler on a deck that is marked as playing: the deck is marked
as stopped, its pause position becomes 0 and `trackended` is dispatched. -/
theorem onSourceEnded_playing (e : AudioEngine) (t : DeckId)
    (hp : (e.deck t).isPlaying = true) :
    ((e.onSourceEnded t).deck t).isPlaying = false ∧
    ((e.onSourceEnded t).deck t).pauseTime = 0 ∧
    (e.onSourceEnded t).getCurrentTime t = 0 ∧
    (e.onSourceEnded t).events = e.events ++ [.trackended t] := by
  unfold AudioEngine.onSourceEnded AudioEngine.getCurrentTime
  simp only [hp, if_true, deck_dispatch, deck_setDeck_same, Bool.not_false, true_and]
  cases t <;> rfl

/-- C29 (failing input): on `gridPlayingEngine` the left deck plays and reports
12 s. After `jumpToTime(30)`, after `jumpToBeat(2)` and after a restart by
`playDeck` the deck is still playing on a new source; when the ended callback of
the replaced source is then delivered, the handler finds `isPlaying` true, marks the
deck as stopped, sets the pause position to 0 and dispatches `trackended`. -/
theorem C29_replaced_source_callback_ends_track :
    (gridPlayingEngine.deck .left).isPlaying = true ∧
    (((gridPlayingEngine.jumpToTime .left 30).2.deck .left).isPlaying = true ∧
      (gridPlayingEngine.jumpToTime .left 30).2.getCurrentTime .left = 30 ∧
      ((((gridPlayingEngine.jumpToTime .left 30).2.onSourceEnded .left).deck .left).isPlaying
        = false) ∧
      ((gridPlayingEngine.jumpToTime .left 30).2.onSourceEnded .left).getCurrentTime .left = 0 ∧
      Event.trackended .left
        ∈ ((gridPlayingEngine.jumpToTime .left 30).2.onSourceEnded .left).events) ∧
    (((gridPlayingEngine.jumpToBeat .left 2).2.deck .left).isPlaying = true ∧
      (gridPlayingEngine.jumpToBeat .left 2).2.getCurrentTime .left = 1 ∧
      ((((gridPlayingEngine.jumpToBeat .left 2).2.onSourceEnded .left).deck .left).isPlaying
        = false) ∧
      ((gridPlayingEngine.jumpToBeat .left 2).2.onSourceEnded .left).getCurrentTime .left = 0 ∧
      Event.trackended .left
        ∈ ((gridPlayingEngine.jumpToBeat .left 2).2.onSourceEnded .left).events) ∧
    (((gridPlayingEngine.playDeck .left).2.deck .left).isPlaying = true ∧
      ((((gridPlayingEngine.playDeck .left).2.onSourceEnded .left).deck .left).isPlaying
        = false) ∧
      ((gridPlayingEngine.playDeck .left).2.onSourceEnded .left).getCurrentTime .left = 0 ∧
      Event.trackended .left
        ∈ ((gridPlayingEngine.playDeck .left).2.onSourceEnded .left).events) := by
  obtain ⟨_, t2, _, t4⟩ := jumpToTime_playing gridPlayingEngine .left { duration := 60 } 30
    rfl rfl
  have b2 : ((gridPlayingEngine.jumpToBeat .left 2).2.deck .left).isPlaying = true := by
    simp [AudioEngine.jumpToBeat, gridPlayingEngine, engineWith, playingDeck, shortGrid,
      AudioEngine.deck, AudioEngine.setDeck, createDeck]
  have b4 : (gridPlayingEngine.jumpToBeat .left 2).2.getCurrentTime .left = 1 := by
    simp [AudioEngine.jumpToBeat, gridPlayingEngine, engineWith, playingDeck, shortGrid,
      AudioEngine.deck, AudioEngine.setDeck, createDeck, AudioEngine.getCurrentTime]
  have p2 : ((gridPlayingEngine.playDeck .left).2.deck .left).isPlaying = true := by
    simp [AudioEngine.playDeck, gridPlayingEngine, engineWith, playingDeck,
      AudioEngine.deck, AudioEngine.setDeck, createDeck]
  obtain ⟨x1, _, x3, x4⟩ := onSourceEnded_playing (gridPlayingEngine.jumpToTime .left 30).2
    .left t2
  obtain ⟨y1, _, y3, y4⟩ := onSourceEnded_playing (gridPlayingEngine.jumpToBeat .left 2).2
    .left b2
  obtain ⟨z1, _, z3, z4⟩ := onSourceEnded_playing (gridPlayingEngine.playDeck .left).2
    .left p2
  refine ⟨rfl, ⟨t2, ?_, x1, x3, ?_⟩, ⟨b2, b4, y1, y3, ?_⟩, ⟨p2, z1, z3, ?_⟩⟩
  · rw [t4]
    norm_num [gridPlayingEngine, engineWith, playingDeck, AudioEngine.deck, createDeck]
  · rw [x4]; simp
  · rw [y4]; simp
  · rw [z4]; simp

/-! ## The upper tempo bound of the pipeline -/

/-- The outer loop of `findPeaks` keeps accepted indices at least
`minPeakDistance` apart: if the accepted list is such a chain and ends in
`lastPeakIndex`, it still is after the loop has run over further indices. -/
theorem foldl_peakStep_chain (e : List ℚ) (W D : ℤ) (l : List ℤ) :
    ∀ acc : List ℤ × ℤ,
      acc.1.Chain' (fun a b => a + D ≤ b) → (∀ x ∈ acc.1.getLast?, x = acc.2) →
      (l.foldl (peakStep e W D) acc).1.Chain' (fun a b => a + D ≤ b) := by
  induction l with
  | nil => intro acc h _; exact h
  | cons i l ih =>
    intro acc h1 h2
    rw [List.foldl_cons]
    apply ih
    · unfold peakStep
      split_ifs with hc
      · rw [Bool.and_eq_true, decide_eq_true_eq] at hc
        apply List.Chain'.append h1 (List.chain'_singleton i)
        intro x hx y hy
        have hy2 : y = i := by simpa using hy.symm
        have hx2 := h2 x hx
        rw [hy2, hx2]
        linarith [hc.2]
      · exact h1
    · unfold peakStep
      split_ifs with hc
      · intro x hx
        simpa using hx.symm
      · exact h2

/-- Consecutive sample indices accepted by `findPeaks` lie at least
`floor(0.3 × sampleRate)` samples apart. -/
theorem findPeakIndices_chain (e : List ℚ) (r : ℚ) :
    (findPeakIndices e r).Chain' (fun a b => a + ⌊r * (3 / 10)⌋ ≤ b) := by
  unfold findPeakIndices
  exact foldl_peakStep_chain e _ _ _ _ List.chain'_nil (by simp)

/-- Consecutive onsets returned by `findPeaks` lie at least
`floor(0.3 × sampleRate) / sampleRate` seconds apart. -/
theorem findPeaks_chain (e : List ℚ) (r : ℚ) (hr : 0 < r) :
    (findPeaks e r).Chain' (fun a b => a + ((⌊r * (3 / 10)⌋ : ℤ) : ℚ) / r ≤ b) := by
  unfold findPeaks
  rw [List.chain'_map]
  refine (findPeakIndices_chain e r).imp ?_
  intro a b hab
  have h : ((a + ⌊r * (3 / 10)⌋ : ℤ) : ℚ) ≤ (b : ℚ) := by exact_mod_cast hab
  rw [← add_div]
  apply div_le_div_of_nonneg_right _ hr.le
  push_cast at h
  exact h

/-- At a sample rate of at least 11025 Hz an interval of at least
`floor(0.3 × sampleRate) / sampleRate` seconds falls into a bucket of at least
0.30 s. -/
theorem roundedInterval_of_min_distance (r g : ℚ) (hr : 11025 ≤ r)
    (hg : ((⌊r * (3 / 10)⌋ : ℤ) : ℚ) / r ≤ g) : 3 / 10 ≤ roundedInterval g := by
  have hr0 : (0 : ℚ) < r := by linarith
  have hfl : r * (3 / 10) - 1 < ((⌊r * (3 / 10)⌋ : ℤ) : ℚ) := Int.sub_one_lt_floor _
  have hlow : (59 : ℚ) / 200 ≤ ((⌊r * (3 / 10)⌋ : ℤ) : ℚ) / r := by
    rw [le_div_iff₀ hr0]
    linarith
  have h30 : ((30 : ℤ) : ℚ) ≤ g * 100 + 1 / 2 := by
    push_cast
    linarith
  have hfloor : (30 : ℤ) ≤ ⌊g * 100 + 1 / 2⌋ := Int.le_floor.mpr h30
  unfold roundedInterval
  rw [le_div_iff₀ (by norm_num)]
  have : ((30 : ℤ) : ℚ) ≤ ((⌊g * 100 + 1 / 2⌋ : ℤ) : ℚ) := by exact_mod_cast hfloor
  push_cast at this
  linarith

/-- For a bucket key of at least 0.30 s the corrected and rounded tempo is at
most 180. -/
theorem bpm_le_of_key (m : ℚ) (hm : 3 / 10 ≤ m) : nearestTenth (specOctave (60 / m)) ≤ 180 := by
  have hm0 : (0 : ℚ) < m := by linarith
  have hx0 : (0 : ℚ) < 60 / m := div_pos (by norm_num) hm0
  have hx : 60 / m ≤ 200 := by
    rw [div_le_iff₀ hm0]
    linarith
  have hs : ((0 : ℤ) : ℚ) ≤ specOctave (60 / m) ∧ specOctave (60 / m) ≤ ((180 : ℤ) : ℚ) := by
    unfold specOctave
    push_cast
    split_ifs with h1 h2
    · constructor <;> linarith
    · constructor <;> linarith
    · constructor <;> linarith
  have := (nearestTenth_bounds 0 180 _ hs.1 hs.2).2
  push_cast at this
  exact this

/-- The bpm that `determineBPM` returns for a non-empty interval list whose most
common bucket has a key other than 0. -/
theorem determineBPM_bpm_of_key (intervals : List ℚ) (hne : intervals ≠ [])
    (hm : (mostCommon intervals).2 ≠ 0) :
    (determineBPM intervals).bpm
      = fin (nearestTenth (specOctave (60 / (mostCommon intervals).2))) := by
  have hlen : intervals.length ≠ 0 := by
    intro h0
    exact hne (List.length_eq_zero.mp h0)
  unfold determineBPM
  rw [if_neg hlen]
  exact bpm_of_key _ hm

/-- C30: for every energy sequence and every sample rate of at least 11025 Hz,
the sample indices accepted by `findPeaks` lie at least `floor(0.3 × rate)` apart,
every interval between consecutive onsets falls into a bucket of at least 0.30 s,
and the bpm that `determineBPM` returns for these intervals is a finite number of
at most 180. -/
theorem C30_pipeline_bpm_at_most_180 (energy : List ℚ) (rate : ℚ) (hr : 11025 ≤ rate) :
    (findPeakIndices energy rate).Chain' (fun a b => a + ⌊rate * (3 / 10)⌋ ≤ b) ∧
    (∀ g ∈ analyzeIntervals (findPeaks energy rate), 3 / 10 ≤ roundedInterval g) ∧
    ∃ q : ℚ, (determineBPM (analyzeIntervals (findPeaks energy rate))).bpm = fin q ∧
      q ≤ 180 := by
  have hr0 : (0 : ℚ) < rate := by linarith
  have hint : ∀ g ∈ analyzeIntervals (findPeaks energy rate), 3 / 10 ≤ roundedInterval g := by
    intro g hg
    obtain ⟨a, b, hab, hgab⟩ := analyzeIntervals_of_chain _ _ (findPeaks_chain energy rate hr0) g hg
    apply roundedInterval_of_min_distance rate g hr
    rw [hgab]
    linarith
  refine ⟨findPeakIndices_chain energy rate, hint, ?_⟩
  by_cases hne : analyzeIntervals (findPeaks energy rate) = []
  · refine ⟨120, ?_, by norm_num⟩
    unfold determineBPM
    rw [hne]
    rfl
  · obtain ⟨h1, _, _⟩ := mostCommon_spec _ hne
    obtain ⟨g, hg, hkey⟩ := List.mem_map.mp h1
    have hm : 3 / 10 ≤ (mostCommon (analyzeIntervals (findPeaks energy rate))).2 := by
      rw [← hkey]
      exact hint g hg
    have hm0 : (mostCommon (analyzeIntervals (findPeaks energy rate))).2 ≠ 0 := by
      intro h0
      rw [h0] at hm
      norm_num at hm
    exact ⟨_, determineBPM_bpm_of_key _ hne hm0, bpm_le_of_key _ hm⟩

/-- C30 at a concrete input: at 11025 Hz the two spikes at the samples 551 and
3858 give the onsets 551/11025 s and 3858/11025 s, whose one interval falls into
the bucket 0.30 s, and the returned bpm is at most 180. -/
theorem C30_pipeline_bpm_at_most_180_witness :
    (11025 : ℚ) ≤ 11025 ∧
    findPeaks (spikes 4410 551 3858) 11025 = [(551 : ℚ) / 11025, (3858 : ℚ) / 11025] ∧
    (3 : ℚ) / 10 ≤ roundedInterval ((3858 : ℚ) / 11025 - 551 / 11025) ∧
    ∃ q : ℚ,
      (determineBPM (analyzeIntervals (findPeaks (spikes 4410 551 3858) 11025))).bpm = fin q ∧
      q ≤ 180 := by
  have hW : ((551 : ℕ) : ℤ) = ⌊(11025 : ℚ) * (5 / 100)⌋ := by
    symm; rw [Int.floor_eq_iff]; norm_num
  have hD : ((3307 : ℕ) : ℤ) = ⌊(11025 : ℚ) * (3 / 10)⌋ := by
    symm; rw [Int.floor_eq_iff]; norm_num
  have h := findPeakIndices_spikes 11025 551 3307 hW hD (by norm_num) (by norm_num)
  norm_num at h
  have hp : findPeaks (spikes 4410 551 3858) 11025 = [(551 : ℚ) / 11025, (3858 : ℚ) / 11025] := by
    unfold findPeaks
    rw [h]
    simp
  obtain ⟨_, h2, h3⟩ := C30_pipeline_bpm_at_most_180 (spikes 4410 551 3858) 11025 (le_refl _)
  refine ⟨le_refl _, hp, ?_, h3⟩
  apply h2
  rw [hp]
  simp [analyzeIntervals]

/-! ## Binary64 rounding -/

theorem roundEven_of_lt (x : ℚ) (m : ℤ) (h1 : (m : ℚ) - 1 / 2 < x) (h2 : x < (m : ℚ) + 1 / 2) :
    Binary64.roundEven x = m := by
  unfold Binary64.roundEven
  by_cases hf : ⌊x⌋ = m
  · have hx : x - (⌊x⌋ : ℤ) < 1 / 2 := by rw [hf]; linarith
    rw [if_pos hx, hf]
  · have hle := Int.floor_le x
    have hlt := Int.lt_floor_add_one x
    have hfm : ⌊x⌋ = m - 1 := by
      have h3 : ⌊x⌋ < m + 1 := by
        have : ((⌊x⌋ : ℤ) : ℚ) < ((m + 1 : ℤ) : ℚ) := by push_cast; linarith
        exact_mod_cast this
      have h4 : m - 1 ≤ ⌊x⌋ := by
        rw [Int.le_floor]; push_cast; linarith
      omega
    have hx1 : ¬ x - (⌊x⌋ : ℤ) < 1 / 2 := by
      rw [hfm]; push_cast; linarith
    have hx2 : 1 / 2 < x - (⌊x⌋ : ℤ) := by
      rw [hfm]; push_cast; linarith
    rw [if_neg hx1, if_pos hx2, hfm]
    ring

/-- The rounding error of `roundEven` is at most one half. -/
theorem roundEven_error (x : ℚ) :
    x - 1 / 2 ≤ (Binary64.roundEven x : ℚ) ∧ (Binary64.roundEven x : ℚ) ≤ x + 1 / 2 := by
  have hle := Int.floor_le x
  have hlt := Int.lt_floor_add_one x
  unfold Binary64.roundEven
  split_ifs with h1 h2 h3
  · constructor <;> linarith
  · push_cast; constructor <;> linarith
  · constructor <;> linarith
  · push_cast; constructor <;> linarith

/-- An integer below `x` stays below the rounded value. -/
theorem roundEven_ge (x : ℚ) (k : ℤ) (h : (k : ℚ) ≤ x) : k ≤ Binary64.roundEven x := by
  have hk : k ≤ ⌊x⌋ := Int.le_floor.mpr h
  unfold Binary64.roundEven
  split_ifs <;> omega

/-- An integer above `x` stays above the rounded value. -/
theorem roundEven_le (x : ℚ) (k : ℤ) (h : x ≤ (k : ℚ)) : Binary64.roundEven x ≤ k := by
  have hle := Int.floor_le x
  have hk : ⌊x⌋ ≤ k := by
    have : ((⌊x⌋ : ℤ) : ℚ) ≤ (k : ℚ) := le_trans hle h
    exact_mod_cast this
  unfold Binary64.roundEven
  split_ifs with h1 h2 h3
  · exact hk
  · have : ⌊x⌋ ≠ k := by
      intro e
      rw [e] at h2
      linarith
    omega
  · exact hk
  · have : ⌊x⌋ ≠ k := by
      intro e
      rw [e] at h1
      have : x - (k : ℚ) ≤ 0 := by linarith
      linarith
    omega

theorem roundEven_intCast (k : ℤ) : Binary64.roundEven (k : ℚ) = k :=
  roundEven_of_lt _ k (by linarith) (by linarith)

theorem roundEven_mono (x y : ℚ) (h : x ≤ y) : Binary64.roundEven x ≤ Binary64.roundEven y := by
  have hf : ⌊x⌋ ≤ ⌊y⌋ := Int.floor_le_floor h
  rcases hf.lt_or_eq with hlt | heq
  · -- the floors differ: roundEven x ≤ ⌊x⌋ + 1 ≤ ⌊y⌋ ≤ roundEven y
    have h1 : Binary64.roundEven x ≤ ⌊x⌋ + 1 := by
      apply roundEven_le
      push_cast
      exact (Int.lt_floor_add_one x).le
    have h2 : ⌊y⌋ ≤ Binary64.roundEven y := roundEven_ge y _ (Int.floor_le y)
    omega
  · unfold Binary64.roundEven
    rw [heq]
    split_ifs <;> first | omega | (exfalso; linarith)

theorem two_zpow_pos (e : ℤ) : (0 : ℚ) < (2 : ℚ) ^ e := zpow_pos (by norm_num) e

theorem ulp_pos (x : ℚ) : 0 < Binary64.ulp x := two_zpow_pos _

theorem exponent_ge (x : ℚ) : -1022 ≤ Binary64.exponent x := le_max_right _ _

/-- The exponent of a non-zero number whose binade is known. -/
theorem exponent_eq (x : ℚ) (e : ℤ) (h1 : (2 : ℚ) ^ e ≤ |x|) (h2 : |x| < (2 : ℚ) ^ (e + 1))
    (h3 : -1022 ≤ e) : Binary64.exponent x = e := by
  have hx : 0 < |x| := lt_of_lt_of_le (two_zpow_pos e) h1
  have ha : e ≤ Int.log 2 |x| := by
    rw [← Int.zpow_le_iff_le_log (by norm_num) hx]
    exact_mod_cast h1
  have hb : Int.log 2 |x| < e + 1 := by
    rw [← Int.lt_zpow_iff_log_lt (by norm_num) hx]
    exact_mod_cast h2
  unfold Binary64.exponent
  rw [max_eq_left (by omega)]
  omega

/-- The exponent of a number below the smallest normal number. -/
theorem exponent_subnormal (x : ℚ) (hx : x ≠ 0) (h : |x| < (2 : ℚ) ^ (-1022 : ℤ)) :
    Binary64.exponent x = -1022 := by
  unfold Binary64.exponent
  apply max_eq_right
  have : Int.log 2 |x| < -1022 := by
    rw [← Int.lt_zpow_iff_log_lt (by norm_num) (abs_pos.mpr hx)]
    exact_mod_cast h
  omega

/-- Every number lies below the top of its binade. -/
theorem abs_lt_zpow_exponent (x : ℚ) : |x| < (2 : ℚ) ^ (Binary64.exponent x + 1) := by
  have h := Int.lt_zpow_succ_log_self (R := ℚ) (b := 2) (by norm_num) |x|
  have h2 : ((2 : ℕ) : ℚ) ^ (Int.log 2 |x| + 1) ≤ (2 : ℚ) ^ (Binary64.exponent x + 1) := by
    have : Int.log 2 |x| + 1 ≤ Binary64.exponent x + 1 := by
      unfold Binary64.exponent
      have := le_max_left (Int.log 2 |x|) (-1022)
      omega
    exact_mod_cast zpow_le_zpow_right₀ (by norm_num : (1 : ℚ) ≤ 2) this
  exact lt_of_lt_of_le h h2

/-- A normal number lies above the bottom of its binade. -/
theorem zpow_exponent_le (x : ℚ) (h : (2 : ℚ) ^ (-1022 : ℤ) ≤ |x|) :
    (2 : ℚ) ^ Binary64.exponent x ≤ |x| := by
  have hx : 0 < |x| := lt_of_lt_of_le (two_zpow_pos _) h
  have hlog : -1022 ≤ Int.log 2 |x| := by
    rw [← Int.zpow_le_iff_le_log (by norm_num) hx]
    exact_mod_cast h
  unfold Binary64.exponent
  rw [max_eq_left hlog]
  exact_mod_cast Int.zpow_log_le_self (R := ℚ) (b := 2) (by norm_num) hx

theorem exponent_mono (x y : ℚ) (hx : x ≠ 0) (h : |x| ≤ |y|) :
    Binary64.exponent x ≤ Binary64.exponent y := by
  unfold Binary64.exponent
  exact max_le_max (Int.log_mono_right (abs_pos.mpr hx) h) (le_refl _)

theorem ulp_eq (x : ℚ) (e : ℤ) (h : Binary64.exponent x = e) :
    Binary64.ulp x = (2 : ℚ) ^ (e - 52) := by
  unfold Binary64.ulp
  rw [h]

/-- The rounded value of a number whose binade and nearest significand are known. -/
theorem nearest_eq (x : ℚ) (e m : ℤ) (h1 : (2 : ℚ) ^ e ≤ |x|) (h2 : |x| < (2 : ℚ) ^ (e + 1))
    (h3 : -1022 ≤ e) (hm1 : (m : ℚ) - 1 / 2 < x / (2 : ℚ) ^ (e - 52))
    (hm2 : x / (2 : ℚ) ^ (e - 52) < (m : ℚ) + 1 / 2) :
    Binary64.nearest x = (m : ℚ) * (2 : ℚ) ^ (e - 52) := by
  unfold Binary64.nearest
  rw [ulp_eq x e (exponent_eq x e h1 h2 h3), roundEven_of_lt _ m hm1 hm2]

/-- The binary64 value of an exact result whose binade and nearest significand are
known. -/
theorem ofRat_eq (x : ℚ) (e m : ℤ) (h1 : (2 : ℚ) ^ e ≤ |x|) (h2 : |x| < (2 : ℚ) ^ (e + 1))
    (h3 : -1022 ≤ e) (hm1 : (m : ℚ) - 1 / 2 < x / (2 : ℚ) ^ (e - 52))
    (hm2 : x / (2 : ℚ) ^ (e - 52) < (m : ℚ) + 1 / 2)
    (hfin : |(m : ℚ) * (2 : ℚ) ^ (e - 52)| < (2 : ℚ) ^ (1024 : ℕ)) :
    Binary64.ofRat x = fin ((m : ℚ) * (2 : ℚ) ^ (e - 52)) := by
  have hx : x ≠ 0 := by
    intro h0
    rw [h0, abs_zero] at h1
    exact absurd h1 (not_le.mpr (two_zpow_pos e))
  unfold Binary64.ofRat
  rw [if_neg hx, nearest_eq x e m h1 h2 h3 hm1 hm2, if_neg (not_le.mpr hfin)]

/-- The rounding error is at most half a unit in the last place. -/
theorem nearest_error (x : ℚ) : |Binary64.nearest x - x| ≤ Binary64.ulp x / 2 := by
  have hu := ulp_pos x
  obtain ⟨h1, h2⟩ := roundEven_error (x / Binary64.ulp x)
  have hx : x / Binary64.ulp x * Binary64.ulp x = x := div_mul_cancel₀ x hu.ne'
  unfold Binary64.nearest
  rw [abs_le]
  constructor
  · have := mul_le_mul_of_nonneg_right h1 hu.le
    rw [sub_mul, hx] at this
    linarith
  · have := mul_le_mul_of_nonneg_right h2 hu.le
    rw [add_mul, hx] at this
    linarith

/-- A bound on the grid of `x` is kept by rounding: from above. -/
theorem nearest_le_of_le (x : ℚ) (c : ℤ) (n : ℕ)
    (h : x ≤ (c : ℚ) * ((2 : ℚ) ^ n * Binary64.ulp x)) :
    Binary64.nearest x ≤ (c : ℚ) * ((2 : ℚ) ^ n * Binary64.ulp x) := by
  have hu := ulp_pos x
  have hk : x / Binary64.ulp x ≤ ((c * 2 ^ n : ℤ) : ℚ) := by
    rw [div_le_iff₀ hu]
    push_cast
    linarith
  have := roundEven_le _ _ hk
  have h2 : (Binary64.roundEven (x / Binary64.ulp x) : ℚ) ≤ ((c * 2 ^ n : ℤ) : ℚ) := by
    exact_mod_cast this
  unfold Binary64.nearest
  have := mul_le_mul_of_nonneg_right h2 hu.le
  push_cast at this
  linarith

/-- A bound on the grid of `x` is kept by rounding: from below. -/
theorem le_nearest_of_le (x : ℚ) (c : ℤ) (n : ℕ)
    (h : (c : ℚ) * ((2 : ℚ) ^ n * Binary64.ulp x) ≤ x) :
    (c : ℚ) * ((2 : ℚ) ^ n * Binary64.ulp x) ≤ Binary64.nearest x := by
  have hu := ulp_pos x
  have hk : ((c * 2 ^ n : ℤ) : ℚ) ≤ x / Binary64.ulp x := by
    rw [le_div_iff₀ hu]
    push_cast
    linarith
  have := roundEven_ge _ _ hk
  have h2 : ((c * 2 ^ n : ℤ) : ℚ) ≤ (Binary64.roundEven (x / Binary64.ulp x) : ℚ) := by
    exact_mod_cast this
  unfold Binary64.nearest
  have := mul_le_mul_of_nonneg_right h2 hu.le
  push_cast at this
  linarith

/-- A power of two at or above the unit in the last place of `x`, written on the
grid of `x`. -/
theorem zpow_eq_grid (x : ℚ) (e : ℤ) (h : Binary64.exponent x - 52 ≤ e) :
    (2 : ℚ) ^ e = (2 : ℚ) ^ (e - (Binary64.exponent x - 52)).toNat * Binary64.ulp x := by
  unfold Binary64.ulp
  rw [← zpow_natCast, ← zpow_add₀ (by norm_num : (2 : ℚ) ≠ 0)]
  congr 1
  rw [Int.toNat_of_nonneg (by omega)]
  ring

theorem nearest_le_zpow (x : ℚ) (e : ℤ) (he : Binary64.exponent x - 52 ≤ e)
    (h : x ≤ (2 : ℚ) ^ e) : Binary64.nearest x ≤ (2 : ℚ) ^ e := by
  have hg := zpow_eq_grid x e he
  have := nearest_le_of_le x 1 _ (by rw [Int.cast_one, one_mul, ← hg]; exact h)
  rw [Int.cast_one, one_mul, ← hg] at this
  exact this

theorem zpow_le_nearest (x : ℚ) (e : ℤ) (he : Binary64.exponent x - 52 ≤ e)
    (h : (2 : ℚ) ^ e ≤ x) : (2 : ℚ) ^ e ≤ Binary64.nearest x := by
  have hg := zpow_eq_grid x e he
  have := le_nearest_of_le x 1 _ (by rw [Int.cast_one, one_mul, ← hg]; exact h)
  rw [Int.cast_one, one_mul, ← hg] at this
  exact this

theorem nearest_nonneg (x : ℚ) (h : 0 ≤ x) : 0 ≤ Binary64.nearest x := by
  have := le_nearest_of_le x 0 0 (by simpa using h)
  simpa using this

theorem exponent_le_of_lt (x : ℚ) (e : ℤ) (hx : x ≠ 0) (h : |x| < (2 : ℚ) ^ (e + 1))
    (he : -1022 ≤ e) : Binary64.exponent x ≤ e := by
  unfold Binary64.exponent
  apply max_le _ he
  have : Int.log 2 |x| < e + 1 := by
    rw [← Int.lt_zpow_iff_log_lt (by norm_num) (abs_pos.mpr hx)]
    exact_mod_cast h
  omega

theorem le_exponent_of_le (x : ℚ) (e : ℤ) (h : (2 : ℚ) ^ e ≤ |x|) : e ≤ Binary64.exponent x := by
  have hx : 0 < |x| := lt_of_lt_of_le (two_zpow_pos e) h
  unfold Binary64.exponent
  apply le_trans _ (le_max_left _ _)
  rw [← Int.zpow_le_iff_le_log (by norm_num) hx]
  exact_mod_cast h

/-- Rounding is monotone on the positive numbers. -/
theorem nearest_mono (x y : ℚ) (hx : 0 < x) (h : x ≤ y) :
    Binary64.nearest x ≤ Binary64.nearest y := by
  have hy : 0 < y := lt_of_lt_of_le hx h
  have habs : |x| ≤ |y| := by rw [abs_of_pos hx, abs_of_pos hy]; exact h
  have he := exponent_mono x y hx.ne' habs
  rcases he.lt_or_eq with hlt | heq
  · have h1 : Binary64.nearest x ≤ (2 : ℚ) ^ (Binary64.exponent x + 1) := by
      apply nearest_le_zpow x _ (by omega)
      have := abs_lt_zpow_exponent x
      rw [abs_of_pos hx] at this
      exact this.le
    have h2 : (2 : ℚ) ^ (Binary64.exponent x + 1) ≤ (2 : ℚ) ^ Binary64.exponent y :=
      zpow_le_zpow_right₀ (by norm_num) (by omega)
    have hnorm : (2 : ℚ) ^ (-1022 : ℤ) ≤ |y| := by
      by_contra hc
      have := exponent_subnormal y hy.ne' (not_le.mp hc)
      have := exponent_ge x
      omega
    have h3 : (2 : ℚ) ^ Binary64.exponent y ≤ Binary64.nearest y := by
      apply zpow_le_nearest y _ (by omega)
      have := zpow_exponent_le y hnorm
      rw [abs_of_pos hy] at this
      exact this
    linarith
  · have hu : Binary64.ulp x = Binary64.ulp y := by
      unfold Binary64.ulp
      rw [heq]
    unfold Binary64.nearest
    rw [hu]
    have hpos := ulp_pos y
    apply mul_le_mul_of_nonneg_right _ hpos.le
    have : Binary64.roundEven (x / Binary64.ulp y) ≤ Binary64.roundEven (y / Binary64.ulp y) :=
      roundEven_mono _ _ (div_le_div_of_nonneg_right h hpos.le)
    exact_mod_cast this

/-- A number on its own grid is its own rounded value. -/
theorem nearest_of_grid (x : ℚ) (m : ℤ) (h : x = (m : ℚ) * Binary64.ulp x) :
    Binary64.nearest x = x := by
  have hu := ulp_pos x
  have hd : x / Binary64.ulp x = (m : ℚ) := by
    rw [div_eq_iff hu.ne']
    exact h
  unfold Binary64.nearest
  rw [hd, roundEven_intCast, ← h]

/-- The powers of two from `2^-1022` on are binary64 values. -/
theorem nearest_zpow (e : ℤ) (he : -1022 ≤ e) : Binary64.nearest ((2 : ℚ) ^ e) = (2 : ℚ) ^ e := by
  have h2 : |(2 : ℚ) ^ e| = (2 : ℚ) ^ e := abs_of_pos (two_zpow_pos e)
  have hexp : Binary64.exponent ((2 : ℚ) ^ e) = e := by
    apply exponent_eq _ e (by rw [h2]) _ he
    rw [h2]
    exact zpow_lt_zpow_right₀ (by norm_num) (by omega)
  apply nearest_of_grid _ ((2 : ℤ) ^ (52 : ℕ))
  rw [ulp_eq _ e hexp]
  have h52 : (((2 : ℤ) ^ (52 : ℕ) : ℤ) : ℚ) = (2 : ℚ) ^ (52 : ℤ) := by norm_num
  rw [h52, ← zpow_add₀ (by norm_num : (2 : ℚ) ≠ 0)]
  congr 1
  ring

/-- The integers of magnitude below `2^53` are binary64 values. -/
theorem ofRat_intCast (k : ℤ) (hk : |k| < 2 ^ 53) : Binary64.ofRat (k : ℚ) = fin (k : ℚ) := by
  by_cases h0 : k = 0
  · subst h0
    simp [Binary64.ofRat]
  have hq0 : (k : ℚ) ≠ 0 := by exact_mod_cast h0
  have habs : |(k : ℚ)| < (2 : ℚ) ^ ((52 : ℤ) + 1) := by
    have : ((|k| : ℤ) : ℚ) < ((2 ^ 53 : ℤ) : ℚ) := by exact_mod_cast hk
    push_cast at this
    norm_num
    exact this
  have hle : Binary64.exponent (k : ℚ) ≤ 52 := exponent_le_of_lt _ 52 hq0 habs (by norm_num)
  have hn : Binary64.nearest (k : ℚ) = (k : ℚ) := by
    apply nearest_of_grid _ (k * 2 ^ (52 - Binary64.exponent (k : ℚ)).toNat)
    unfold Binary64.ulp
    push_cast
    rw [mul_assoc, ← zpow_natCast, ← zpow_add₀ (by norm_num : (2 : ℚ) ≠ 0),
      Int.toNat_of_nonneg (by omega)]
    have : (52 - Binary64.exponent (k : ℚ) + (Binary64.exponent (k : ℚ) - 52)) = 0 := by ring
    rw [this, zpow_zero, mul_one]
  unfold Binary64.ofRat
  rw [if_neg hq0, hn, if_neg]
  rw [not_le]
  have h53 : (2 : ℚ) ^ ((52 : ℤ) + 1) < (2 : ℚ) ^ (1024 : ℕ) := by norm_num
  exact lt_trans habs h53

/-- On a positive number the binary64 value is `+Infinity` or the rounded value,
which is not negative and lies below `2^1024`. -/
theorem ofRat_pos (x : ℚ) (hx : 0 < x) :
    (Binary64.ofRat x = posInf ∧ (2 : ℚ) ^ (1024 : ℕ) ≤ Binary64.nearest x) ∨
    (Binary64.ofRat x = fin (Binary64.nearest x) ∧ Binary64.nearest x < (2 : ℚ) ^ (1024 : ℕ)) := by
  have hn := nearest_nonneg x hx.le
  unfold Binary64.ofRat
  rw [if_neg hx.ne', abs_of_nonneg hn]
  by_cases h : (2 : ℚ) ^ (1024 : ℕ) ≤ Binary64.nearest x
  · left
    rw [if_pos h]
    exact ⟨by simp [JSNum.infOfSign, hx], h⟩
  · right
    rw [if_neg h]
    exact ⟨rfl, not_le.mp h⟩

/-- A positive binary64 value is its own rounded value and lies below `2^1024`. -/
theorem isDouble_pos (x : ℚ) (hx : 0 < x) (h : Binary64.IsDouble x) :
    Binary64.nearest x = x ∧ x < (2 : ℚ) ^ (1024 : ℕ) := by
  unfold Binary64.IsDouble at h
  rcases ofRat_pos x hx with ⟨h1, _⟩ | ⟨h1, h2⟩
  · rw [h1] at h
    exact absurd h (by simp)
  · rw [h1] at h
    have : Binary64.nearest x = x := by injection h
    rw [this] at h2
    exact ⟨this, h2⟩

/-- The unit in the last place of a normal number is at most `2^-52` times the
number. -/
theorem ulp_le (x : ℚ) (h : (2 : ℚ) ^ (-1022 : ℤ) ≤ |x|) :
    Binary64.ulp x ≤ |x| * (2 : ℚ) ^ (-52 : ℤ) := by
  have := zpow_exponent_le x h
  unfold Binary64.ulp
  rw [sub_eq_add_neg, zpow_add₀ (by norm_num : (2 : ℚ) ≠ 0)]
  exact mul_le_mul_of_nonneg_right this (two_zpow_pos _).le

theorem ulp_mono (x y : ℚ) (hx : x ≠ 0) (h : |x| ≤ |y|) : Binary64.ulp x ≤ Binary64.ulp y := by
  unfold Binary64.ulp
  apply zpow_le_zpow_right₀ (by norm_num)
  have := exponent_mono x y hx h
  omega

/-! ## The beat grid in binary64 arithmetic -/

/-- The array length test on an integer of `2^32` or more. -/
theorem arrayLength64_large (z : ℤ) (hz : 2 ^ 32 ≤ z) :
    arrayLength (fin (z : ℚ)) = .error .rangeError := by
  have h2 : (4294967296 : ℤ) ≤ z := by norm_num at hz; exact hz
  simp [arrayLength]
  intro _
  exact h2

/-- The grid that `generateBeatGrid` returns when the interval `I` and the quotient
`q` are finite and `floor(q) + 1` is a valid array length. -/
theorem generateBeatGrid64_of (bpm duration I q : ℚ)
    (hI : Binary64.div (fin 60) (fin bpm) = fin I)
    (hq : Binary64.div (fin duration) (fin I) = fin q)
    (h0 : 0 ≤ ⌊q⌋) (hn : ⌊q⌋ + 1 < 2 ^ 32) :
    Binary64.generateBeatGrid (fin bpm) (fin duration)
      = .ok ((List.range (⌊q⌋.toNat + 1)).map
          fun (i : Nat) => Binary64.mul (fin (i : ℚ)) (fin I)) := by
  have hadd : Binary64.add (JSNum.floor (fin q)) (fin 1) = fin ((⌊q⌋ + 1 : ℤ) : ℚ) := by
    have := ofRat_intCast (⌊q⌋ + 1) (by rw [abs_of_nonneg (by omega)]; omega)
    simp only [Binary64.add, JSNum.floor, JSNum.add, Binary64.store]
    rw [← this]
    push_cast
    rfl
  have hlen : (⌊q⌋ + 1).toNat = ⌊q⌋.toNat + 1 := by omega
  simp only [Binary64.generateBeatGrid, hI, hq, hadd,
    arrayLength_int (⌊q⌋ + 1) (by omega) hn, hlen]

theorem interval_174 :
    Binary64.div (fin 60) (fin 174) = fin (6211861554993788 * (2 : ℚ) ^ (-54 : ℤ)) := by
  have h := ofRat_eq (60 / 174) (-2) 6211861554993788 (by norm_num [abs_of_pos])
    (by norm_num [abs_of_pos]) (by norm_num) (by norm_num) (by norm_num)
    (by norm_num [abs_of_pos])
  simp only [Binary64.div, JSNum.div, Binary64.store]
  norm_num at h ⊢
  exact h

theorem quotient_174 :
    Binary64.div (fin 10) (fin (6211861554993788 * (2 : ℚ) ^ (-54 : ℤ)))
      = fin (8162774324609023 * (2 : ℚ) ^ (-48 : ℤ)) := by
  have h := ofRat_eq (10 / (6211861554993788 * (2 : ℚ) ^ (-54 : ℤ))) 4 8162774324609023
    (by norm_num [abs_of_pos]) (by norm_num [abs_of_pos]) (by norm_num) (by norm_num)
    (by norm_num) (by norm_num [abs_of_pos])
  simp only [Binary64.div, JSNum.div, Binary64.store]
  norm_num at h ⊢
  exact h

/-! ## The histogram of binary64 keys and the search for its mode -/

theorem get_bump64 (k k2 : JSNum) (h : Binary64.Histogram) :
    (Binary64.Histogram.bump k h).get k2 = h.get k2 + if k2 = k then 1 else 0 := by
  induction h with
  | nil =>
    by_cases hk : k = k2
    · subst hk; simp [Binary64.Histogram.bump, Binary64.Histogram.get]
    · have hk2 : ¬ k2 = k := fun e => hk e.symm
      simp [Binary64.Histogram.bump, Binary64.Histogram.get, hk, hk2]
  | cons e rest ih =>
    obtain ⟨k0, c⟩ := e
    by_cases h0 : k0 = k
    · subst h0
      by_cases h1 : k0 = k2
      · subst h1; simp [Binary64.Histogram.bump, Binary64.Histogram.get]
      · have h2 : ¬ k2 = k0 := fun e => h1 e.symm
        simp [Binary64.Histogram.bump, Binary64.Histogram.get, h1, h2]
    · by_cases h1 : k0 = k2
      · subst h1
        simp [Binary64.Histogram.bump, Binary64.Histogram.get, h0]
      · simp [Binary64.Histogram.bump, Binary64.Histogram.get, h0, h1, ih]

theorem keys_bump64 (k : JSNum) (h : Binary64.Histogram) :
    (Binary64.Histogram.bump k h).keys = if k ∈ h.keys then h.keys else h.keys ++ [k] := by
  induction h with
  | nil => simp [Binary64.Histogram.bump, Binary64.Histogram.keys]
  | cons e rest ih =>
    obtain ⟨k0, c⟩ := e
    simp only [Binary64.Histogram.keys] at ih
    by_cases h0 : k0 = k
    · subst h0; simp [Binary64.Histogram.bump, Binary64.Histogram.keys]
    · have h1 : ¬ k = k0 := fun e => h0 e.symm
      by_cases hm : k ∈ List.map Prod.fst rest
      · simp only [hm, if_true] at ih
        simp [Binary64.Histogram.bump, Binary64.Histogram.keys, h0, h1, hm, ih]
      · simp only [hm, if_false] at ih
        simp [Binary64.Histogram.bump, Binary64.Histogram.keys, h0, h1, hm, ih]

theorem keys_bump_nodup64 (k : JSNum) (h : Binary64.Histogram) (hn : h.keys.Nodup) :
    (Binary64.Histogram.bump k h).keys.Nodup := by
  rw [keys_bump64]
  split_ifs with hk
  · exact hn
  · exact List.Nodup.append hn (List.nodup_singleton k) (by simpa using hk)

theorem mem_keys_bump64 (k k2 : JSNum) (h : Binary64.Histogram) :
    k2 ∈ (Binary64.Histogram.bump k h).keys ↔ k2 ∈ h.keys ∨ k2 = k := by
  rw [keys_bump64]
  split_ifs with hk
  · constructor
    · intro h1; exact Or.inl h1
    · rintro (h1 | h1)
      · exact h1
      · subst h1; exact hk
  · simp

theorem get_of_mem64 (h : Binary64.Histogram) (hn : h.keys.Nodup) (k : JSNum) (c : Nat)
    (hm : (k, c) ∈ h) : h.get k = c := by
  induction h with
  | nil => simp at hm
  | cons e rest ih =>
    obtain ⟨k0, c0⟩ := e
    simp only [Binary64.Histogram.keys, List.map_cons, List.nodup_cons] at hn
    rcases List.mem_cons.mp hm with h1 | h1
    · injection h1 with h2 h3
      subst h2; subst h3
      simp [Binary64.Histogram.get]
    · have hne : ¬ k0 = k := by
        intro e; subst e
        exact hn.1 (List.mem_map_of_mem Prod.fst h1)
      simp only [Binary64.Histogram.get, hne, if_false]
      exact ih hn.2 h1

theorem foldl_bump_spec64 (l : List ℚ) (h : Binary64.Histogram) (hn : h.keys.Nodup) :
    (l.foldl (fun h interval => Binary64.Histogram.bump (Binary64.roundedInterval interval) h) h).keys.Nodup ∧
    (∀ k, (l.foldl (fun h interval => Binary64.Histogram.bump (Binary64.roundedInterval interval) h) h).get k
        = h.get k + (l.map Binary64.roundedInterval).count k) ∧
    (∀ k, k ∈ (l.foldl (fun h interval => Binary64.Histogram.bump (Binary64.roundedInterval interval) h) h).keys
        ↔ k ∈ h.keys ∨ k ∈ l.map Binary64.roundedInterval) := by
  induction l generalizing h with
  | nil => simp [hn]
  | cons a rest ih =>
    obtain ⟨h1, h2, h3⟩ := ih (Binary64.Histogram.bump (Binary64.roundedInterval a) h) (keys_bump_nodup64 _ _ hn)
    refine ⟨h1, ?_, ?_⟩
    · intro k
      rw [List.foldl_cons, h2 k, get_bump64, List.map_cons, List.count_cons]
      by_cases hk : k = Binary64.roundedInterval a
      · subst hk; simp; omega
      · have hk2 : ¬ Binary64.roundedInterval a = k := fun e => hk e.symm
        simp [hk, hk2]
    · intro k
      rw [List.foldl_cons, h3 k, mem_keys_bump64, List.map_cons, List.mem_cons]
      tauto

theorem buildHistogram_spec64 (intervals : List ℚ) :
    (Binary64.buildHistogram intervals).keys.Nodup ∧
    (∀ k, (Binary64.buildHistogram intervals).get k = (intervals.map Binary64.roundedInterval).count k) ∧
    (∀ k, k ∈ (Binary64.buildHistogram intervals).keys ↔ k ∈ intervals.map Binary64.roundedInterval) := by
  obtain ⟨h1, h2, h3⟩ := foldl_bump_spec64 intervals [] (by simp [Binary64.Histogram.keys])
  refine ⟨h1, ?_, ?_⟩
  · intro k; simpa [Binary64.Histogram.get] using h2 k
  · intro k; simpa [Binary64.Histogram.keys] using h3 k

theorem forInOrder_perm64 (h : Binary64.Histogram) : (Binary64.forInOrder h).Perm h := by
  unfold Binary64.forInOrder
  refine (List.Perm.append_right _ (List.perm_insertionSort _ _)).trans ?_
  exact List.filter_append_perm (fun e => Binary64.isArrayIndex e.1) h

theorem foldl_mostCommonStep_ge64 (l : List (JSNum × Nat)) (acc : Nat × JSNum) :
    acc.1 ≤ (l.foldl Binary64.mostCommonStep acc).1 ∧
    ∀ e ∈ l, e.2 ≤ (l.foldl Binary64.mostCommonStep acc).1 := by
  induction l generalizing acc with
  | nil => simp
  | cons a rest ih =>
    obtain ⟨h1, h2⟩ := ih (Binary64.mostCommonStep acc a)
    have hstep : acc.1 ≤ (Binary64.mostCommonStep acc a).1 ∧ a.2 ≤ (Binary64.mostCommonStep acc a).1 := by
      unfold Binary64.mostCommonStep
      split_ifs with hc
      · exact ⟨le_of_lt hc, le_refl _⟩
      · exact ⟨le_refl _, not_lt.mp hc⟩
    refine ⟨le_trans hstep.1 h1, ?_⟩
    intro e he
    rcases List.mem_cons.mp he with h3 | h3
    · subst h3; exact le_trans hstep.2 h1
    · exact h2 e h3

theorem foldl_mostCommonStep_mem64 (l : List (JSNum × Nat)) (acc : Nat × JSNum) :
    l.foldl Binary64.mostCommonStep acc = acc ∨
    (((l.foldl Binary64.mostCommonStep acc).2, (l.foldl Binary64.mostCommonStep acc).1) ∈ l ∧
      acc.1 < (l.foldl Binary64.mostCommonStep acc).1) := by
  induction l generalizing acc with
  | nil => simp
  | cons a rest ih =>
    rw [List.foldl_cons]
    have hstep : Binary64.mostCommonStep acc a = acc ∨
        (Binary64.mostCommonStep acc a = (a.2, a.1) ∧ acc.1 < a.2) := by
      unfold Binary64.mostCommonStep
      split_ifs with hc
      · exact Or.inr ⟨rfl, hc⟩
      · exact Or.inl rfl
    have hge := (foldl_mostCommonStep_ge64 rest (Binary64.mostCommonStep acc a)).1
    rcases ih (Binary64.mostCommonStep acc a) with h1 | ⟨h1, h2⟩
    · rw [h1]
      rcases hstep with h3 | ⟨h3, h4⟩
      · exact Or.inl h3
      · refine Or.inr ⟨?_, ?_⟩
        · rw [h3]; exact List.mem_cons_self _ _
        · rw [h3]; exact h4
    · refine Or.inr ⟨List.mem_cons_of_mem _ h1, ?_⟩
      rcases hstep with h3 | ⟨h3, h4⟩
      · exact lt_of_le_of_lt (le_of_eq (congrArg Prod.fst h3.symm)) h2
      · exact lt_trans (lt_of_lt_of_eq h4 (congrArg Prod.fst h3.symm)) h2

/-- The outcome of the binary64 search on a non-empty interval list: the winning
key is the key of some interval, its count is the number of intervals with that
key, and no key occurs more often. -/
theorem mostCommon_spec64 (intervals : List ℚ) (hne : intervals ≠ []) :
    (Binary64.mostCommon intervals).2 ∈ intervals.map Binary64.roundedInterval ∧
    (Binary64.mostCommon intervals).1 = (intervals.map Binary64.roundedInterval).count (Binary64.mostCommon intervals).2 ∧
    ∀ k, (intervals.map Binary64.roundedInterval).count k ≤ (Binary64.mostCommon intervals).1 := by
  obtain ⟨hn, hget, hkeys⟩ := buildHistogram_spec64 intervals
  have hperm := forInOrder_perm64 (Binary64.buildHistogram intervals)
  have hge := foldl_mostCommonStep_ge64 (Binary64.forInOrder (Binary64.buildHistogram intervals)) (0, fin 0)
  have hmax : ∀ k, (intervals.map Binary64.roundedInterval).count k ≤ (Binary64.mostCommon intervals).1 := by
    intro k
    by_cases hk : k ∈ intervals.map Binary64.roundedInterval
    · have hk2 : k ∈ (Binary64.buildHistogram intervals).keys := (hkeys k).mpr hk
      obtain ⟨e, he, hek⟩ := List.mem_map.mp hk2
      have he2 : (k, e.2) ∈ Binary64.buildHistogram intervals := by rw [← hek]; exact he
      have hc := get_of_mem64 _ hn k e.2 he2
      rw [← hget k, hc]
      exact hge.2 e (hperm.mem_iff.mpr he)
    · rw [List.count_eq_zero_of_not_mem hk]; exact Nat.zero_le _
  obtain ⟨a, ha⟩ := List.exists_mem_of_ne_nil intervals hne
  have hpos : 0 < (Binary64.mostCommon intervals).1 :=
    lt_of_lt_of_le (List.count_pos_iff.mpr (List.mem_map_of_mem Binary64.roundedInterval ha))
      (hmax (Binary64.roundedInterval a))
  rcases foldl_mostCommonStep_mem64 (Binary64.forInOrder (Binary64.buildHistogram intervals)) (0, fin 0) with h1 | ⟨h1, _⟩
  · exfalso
    have : (Binary64.mostCommon intervals).1 = 0 := by unfold Binary64.mostCommon; rw [h1]
    omega
  · have hmem : ((Binary64.mostCommon intervals).2, (Binary64.mostCommon intervals).1) ∈ Binary64.buildHistogram intervals :=
      hperm.mem_iff.mp h1
    have hc := get_of_mem64 _ hn _ _ hmem
    refine ⟨?_, ?_, hmax⟩
    · exact (hkeys _).mp (List.mem_map_of_mem Prod.fst hmem)
    · rw [← hget, hc]

/-! ## Binary64 values used by the examples -/

theorem ofRat_120 : Binary64.ofRat 120 = fin 120 := by
  have := ofRat_intCast 120 (by norm_num)
  simpa using this

theorem ofRat_1200 : Binary64.ofRat 1200 = fin 1200 := by
  have := ofRat_intCast 1200 (by norm_num)
  simpa using this

theorem ofRat_half : Binary64.ofRat (1 / 2) = fin (1 / 2) := by
  have h := ofRat_eq (1 / 2) (-1) 4503599627370496 (by norm_num [abs_of_pos])
    (by norm_num [abs_of_pos]) (by norm_num) (by norm_num) (by norm_num)
    (by norm_num [abs_of_pos])
  norm_num at h ⊢
  exact h

/-- The rational `d495` is the binary64 value of the literal `0.495`. -/
theorem ofRat_495 : Binary64.ofRat (495 / 1000) = fin d495 := by
  have h := ofRat_eq (495 / 1000) (-2) 8917127262193582 (by norm_num [abs_of_pos])
    (by norm_num [abs_of_pos]) (by norm_num) (by norm_num) (by norm_num)
    (by norm_num [abs_of_pos])
  unfold d495
  norm_num at h ⊢
  exact h

theorem isDouble_d495 : Binary64.IsDouble d495 := by
  have h := ofRat_eq d495 (-2) 8917127262193582 (by norm_num [abs_of_pos, d495])
    (by norm_num [abs_of_pos, d495]) (by norm_num) (by norm_num [d495]) (by norm_num [d495])
    (by norm_num [abs_of_pos])
  unfold Binary64.IsDouble
  rw [h]
  unfold d495
  norm_num

/-- The rational `d49` is the binary64 value of the literal `0.49`. -/
theorem ofRat_49 : Binary64.ofRat (49 / 100) = fin d49 := by
  have h := ofRat_eq (49 / 100) (-2) 8827055269646172 (by norm_num [abs_of_pos])
    (by norm_num [abs_of_pos]) (by norm_num) (by norm_num) (by norm_num)
    (by norm_num [abs_of_pos])
  unfold d49
  norm_num at h ⊢
  exact h

theorem isDouble_d49 : Binary64.IsDouble d49 := by
  have h := ofRat_eq d49 (-2) 8827055269646172 (by norm_num [abs_of_pos, d49])
    (by norm_num [abs_of_pos, d49]) (by norm_num) (by norm_num [d49]) (by norm_num [d49])
    (by norm_num [abs_of_pos])
  unfold Binary64.IsDouble
  rw [h]
  unfold d49
  norm_num

/-- In binary64 the product `0.495 * 100` is exactly 49.5, so the key of the interval
`0.495` is 0.5. -/
theorem roundedInterval64_d495 : Binary64.roundedInterval d495 = fin (1 / 2) := by
  have hmul : Binary64.ofRat (d495 * 100) = fin (99 / 2) := by
    have h := ofRat_eq (d495 * 100) 5 6966505673588736 (by norm_num [abs_of_pos, d495])
      (by norm_num [abs_of_pos, d495]) (by norm_num) (by norm_num [d495]) (by norm_num [d495])
      (by norm_num [abs_of_pos])
    norm_num at h ⊢
    exact h
  have hfl : ⌊(99 / 2 : ℚ) + 1 / 2⌋ = 50 := by
    rw [Int.floor_eq_iff]; norm_num
  simp only [Binary64.roundedInterval, Binary64.mul, JSNum.mul, Binary64.store, hmul, JSNum.round,
    hfl, Binary64.div, JSNum.div]
  norm_num
  exact ofRat_half

/-! ## The contract of the beat grid in binary64 arithmetic -/

/-- The binary64 product of two finite numbers. -/
theorem mul64_fin (a b : ℚ) : Binary64.mul (fin a) (fin b) = Binary64.ofRat (a * b) := rfl

/-- The binary64 quotient of two finite numbers, the divisor not zero. -/
theorem div64_fin (a b : ℚ) (hb : b ≠ 0) :
    Binary64.div (fin a) (fin b) = Binary64.ofRat (a / b) := by
  simp [Binary64.div, JSNum.div, Binary64.store, hb]

/-- A finite binary64 value of a positive exact result is the rounded result. -/
theorem ofRat_pos_fin (x y : ℚ) (hx : 0 < x) (h : Binary64.ofRat x = fin y) :
    y = Binary64.nearest x ∧ Binary64.nearest x < (2 : ℚ) ^ (1024 : ℕ) := by
  rcases ofRat_pos x hx with ⟨h1, _⟩ | ⟨h1, h2⟩
  · rw [h1] at h
    exact absurd h (by simp)
  · rw [h1] at h
    injection h with h3
    exact ⟨h3.symm, h2⟩

/-- A positive exact result that is at most a positive binary64 value has a finite
binary64 value, which is at most that value. -/
theorem ofRat_le_isDouble (x d : ℚ) (hx : 0 < x) (hxd : x ≤ d) (hd : Binary64.IsDouble d) :
    Binary64.ofRat x = fin (Binary64.nearest x) ∧ Binary64.nearest x ≤ d := by
  obtain ⟨hd1, hd2⟩ := isDouble_pos d (lt_of_lt_of_le hx hxd) hd
  have hle : Binary64.nearest x ≤ d := by
    have := nearest_mono x d hx hxd
    rw [hd1] at this
    exact this
  rcases ofRat_pos x hx with ⟨_, h2⟩ | ⟨h1, _⟩
  · exfalso
    linarith
  · exact ⟨h1, hle⟩

/-- The beat interval of a positive binary64 tempo, when it is finite: positive, and
not below the smallest normal number. -/
theorem beatInterval64_facts (bpm I : ℚ) (hb : 0 < bpm) (hbd : Binary64.IsDouble bpm)
    (hI : Binary64.div (fin 60) (fin bpm) = fin I) :
    I = Binary64.nearest (60 / bpm) ∧ (2 : ℚ) ^ (-1022 : ℤ) ≤ I := by
  have hx : (0 : ℚ) < 60 / bpm := div_pos (by norm_num) hb
  rw [div64_fin 60 bpm hb.ne'] at hI
  obtain ⟨h1, _⟩ := ofRat_pos_fin _ _ hx hI
  obtain ⟨_, hb2⟩ := isDouble_pos bpm hb hbd
  have hlow : (2 : ℚ) ^ (-1022 : ℤ) ≤ 60 / bpm := by
    rw [le_div_iff₀ hb]
    have h3 : (2 : ℚ) ^ (-1022 : ℤ) * (2 : ℚ) ^ (1024 : ℕ) = 4 := by
      rw [← zpow_natCast, ← zpow_add₀ (by norm_num : (2 : ℚ) ≠ 0)]
      norm_num
    have h4 := mul_le_mul_of_nonneg_left hb2.le (two_zpow_pos (-1022)).le
    linarith
  refine ⟨h1, ?_⟩
  have := nearest_mono _ _ (two_zpow_pos (-1022)) hlow
  rw [nearest_zpow _ (le_refl _)] at this
  rw [h1]
  exact this

/-- The quotient `duration / interval` in binary64, when it is finite: not negative,
and, once it reaches 1, within the relative error `2^-53` of the exact quotient. -/
theorem quotient64_facts (duration I q : ℚ) (hd : 0 < duration) (hIpos : 0 < I)
    (hq : Binary64.div (fin duration) (fin I) = fin q) :
    0 ≤ q ∧ (1 ≤ q → q ≤ duration / I * (1 + (2 : ℚ) ^ (-53 : ℤ))) := by
  have hy : (0 : ℚ) < duration / I := div_pos hd hIpos
  rw [div64_fin duration I hIpos.ne'] at hq
  obtain ⟨h1, _⟩ := ofRat_pos_fin _ _ hy hq
  refine ⟨by rw [h1]; exact nearest_nonneg _ hy.le, ?_⟩
  intro hq1
  have hnorm : (2 : ℚ) ^ (-1022 : ℤ) ≤ |duration / I| := by
    by_contra hc
    have hc2 := not_le.mp hc
    have hexp := exponent_subnormal _ hy.ne' hc2
    rw [abs_of_pos hy] at hc2
    have := nearest_le_zpow (duration / I) (-1022) (by rw [hexp]; norm_num) hc2.le
    rw [← h1] at this
    have hsmall : (2 : ℚ) ^ (-1022 : ℤ) < 1 := by
      apply zpow_lt_one_of_neg₀ (by norm_num) (by norm_num)
    linarith
  have hu := ulp_le _ hnorm
  rw [abs_of_pos hy] at hu
  have herr := nearest_error (duration / I)
  rw [← h1, abs_le] at herr
  have h53 : (2 : ℚ) ^ (-53 : ℤ) = (2 : ℚ) ^ (-52 : ℤ) / 2 := by norm_num
  rw [h53]
  nlinarith [herr.2, hu]

/-- An entry of the binary64 beat grid that is not the last one: it is finite, lies in
`[0, duration]`, and is strictly below the next entry. -/
theorem beatGrid64_entry (duration I q : ℚ) (i : ℕ) (hd : 0 < duration)
    (hdd : Binary64.IsDouble duration) (hIlow : (2 : ℚ) ^ (-1022 : ℤ) ≤ I)
    (hq1 : q ≤ duration / I * (1 + (2 : ℚ) ^ (-53 : ℤ)))
    (hi : ((i + 1 : ℕ) : ℚ) ≤ q) (hi32 : i + 1 ≤ 2 ^ 32) :
    ∃ a : ℚ, Binary64.mul (fin (i : ℚ)) (fin I) = fin a ∧ 0 ≤ a ∧ a ≤ duration ∧
      JSNum.lt (fin a) (Binary64.mul (fin ((i + 1 : ℕ) : ℚ)) (fin I)) = true := by
  have c53 : (2 : ℚ) ^ (-53 : ℤ) = 1 / 9007199254740992 := by norm_num
  have c52 : (2 : ℚ) ^ (-52 : ℤ) = 1 / 4503599627370496 := by norm_num
  have c32 : (2 : ℚ) ^ (32 : ℕ) = 4294967296 := by norm_num
  have hIpos : 0 < I := lt_of_lt_of_le (two_zpow_pos _) hIlow
  have hi1 : (1 : ℚ) ≤ ((i + 1 : ℕ) : ℚ) := by
    have : 1 ≤ i + 1 := Nat.le_add_left 1 i
    exact_mod_cast this
  have hPpos : 0 < ((i + 1 : ℕ) : ℚ) * I := by positivity
  have hPI : I ≤ ((i + 1 : ℕ) : ℚ) * I := by nlinarith
  -- the exact product (i + 1) * I is at most duration * (1 + 2^-53)
  have hP : ((i + 1 : ℕ) : ℚ) * I ≤ duration * (1 + 1 / 9007199254740992) := by
    have h1 : ((i + 1 : ℕ) : ℚ) * I ≤ q * I := mul_le_mul_of_nonneg_right hi hIpos.le
    have h2 : q * I ≤ duration / I * (1 + (2 : ℚ) ^ (-53 : ℤ)) * I :=
      mul_le_mul_of_nonneg_right hq1 hIpos.le
    have h3 : duration / I * (1 + (2 : ℚ) ^ (-53 : ℤ)) * I
        = duration * (1 + (2 : ℚ) ^ (-53 : ℤ)) := by
      field_simp
      ring
    rw [h3, c53] at h2
    linarith
  -- the interval is at least 2^-32 of that product
  have hI32 : ((i + 1 : ℕ) : ℚ) * I ≤ 4294967296 * I := by
    rw [← c32]
    apply mul_le_mul_of_nonneg_right _ hIpos.le
    exact_mod_cast hi32
  have hXP : (i : ℚ) * I = ((i + 1 : ℕ) : ℚ) * I - I := by
    push_cast
    ring
  have hnormP : (2 : ℚ) ^ (-1022 : ℤ) ≤ |((i + 1 : ℕ) : ℚ) * I| := by
    rw [abs_of_pos hPpos]
    linarith
  have huP := ulp_le _ hnormP
  rw [abs_of_pos hPpos, c52] at huP
  have herrP := nearest_error (((i + 1 : ℕ) : ℚ) * I)
  rw [abs_le] at herrP
  have hlowP : (2 : ℚ) ^ (-1022 : ℤ) ≤ Binary64.nearest (((i + 1 : ℕ) : ℚ) * I) := by
    have := nearest_mono _ _ (two_zpow_pos (-1022)) (le_trans hIlow hPI)
    rw [nearest_zpow _ (le_refl _)] at this
    exact this
  have herrX := nearest_error ((i : ℚ) * I)
  rw [abs_le] at herrX
  rw [mul64_fin, mul64_fin]
  rcases Nat.eq_zero_or_pos i with h0 | hpos
  · -- the first entry is 0
    have hX0 : (i : ℚ) * I = 0 := by rw [h0]; simp
    rw [hX0]
    refine ⟨0, by simp [Binary64.ofRat], le_refl _, hd.le, ?_⟩
    rcases ofRat_pos _ hPpos with ⟨h1, _⟩ | ⟨h1, _⟩
    · rw [h1]; rfl
    · rw [h1]
      simp only [JSNum.lt, decide_eq_true_eq]
      exact lt_of_lt_of_le (two_zpow_pos _) hlowP
  · have hXpos : 0 < (i : ℚ) * I := by
      have : (0 : ℚ) < (i : ℚ) := by exact_mod_cast hpos
      positivity
    have huX : Binary64.ulp ((i : ℚ) * I) ≤ Binary64.ulp (((i + 1 : ℕ) : ℚ) * I) := by
      apply ulp_mono _ _ hXpos.ne'
      rw [abs_of_pos hXpos, abs_of_pos hPpos, hXP]
      linarith
    have hX : (i : ℚ) * I ≤ duration := by
      rw [hXP]
      linarith
    obtain ⟨hfin, hle⟩ := ofRat_le_isDouble _ _ hXpos hX hdd
    refine ⟨_, hfin, nearest_nonneg _ hXpos.le, hle, ?_⟩
    rcases ofRat_pos _ hPpos with ⟨h1, _⟩ | ⟨h1, _⟩
    · rw [h1]; rfl
    · rw [h1]
      simp only [JSNum.lt, decide_eq_true_eq]
      rw [hXP] at herrX huX ⊢
      linarith [herrX.2, herrP.1]

/-- C3 (amended): for binary64 numbers `bpm > 0` and `duration > 0`, let `I` be the
binary64 quotient `60 / bpm` and `q` the binary64 quotient `duration / I`, both
finite, with `floor(q) + 1` below `2^32`. Then `generateBeatGrid(bpm, duration)` is
the list of the binary64 products `i * I` for `i = 0 .. floor(q)`: it has exactly
`floor(q) + 1` entries, its first entry is 0, every entry but the last is finite,
lies in `[0, duration]` and is strictly below the next entry, and the last entry
is `Infinity` or a finite number in `[0, duration * (1 + 2^-51)]`. -/
theorem C3_generateBeatGrid_binary64 (bpm duration I q : ℚ) (hb : 0 < bpm) (hd : 0 < duration)
    (hbd : Binary64.IsDouble bpm) (hdd : Binary64.IsDouble duration)
    (hI : Binary64.div (fin 60) (fin bpm) = fin I)
    (hq : Binary64.div (fin duration) (fin I) = fin q)
    (hn : ⌊q⌋ + 1 < 2 ^ 32) :
    Binary64.generateBeatGrid (fin bpm) (fin duration)
      = .ok ((List.range (⌊q⌋.toNat + 1)).map
          fun (i : Nat) => Binary64.mul (fin (i : ℚ)) (fin I)) ∧
    0 < I ∧ 0 ≤ ⌊q⌋ ∧
    Binary64.mul (fin ((0 : ℕ) : ℚ)) (fin I) = fin 0 ∧
    (∀ i : ℕ, i < ⌊q⌋.toNat →
      ∃ a : ℚ, Binary64.mul (fin (i : ℚ)) (fin I) = fin a ∧ 0 ≤ a ∧ a ≤ duration ∧
        JSNum.lt (fin a) (Binary64.mul (fin ((i + 1 : ℕ) : ℚ)) (fin I)) = true) ∧
    (Binary64.mul (fin (⌊q⌋.toNat : ℚ)) (fin I) = posInf ∨
      ∃ a : ℚ, Binary64.mul (fin (⌊q⌋.toNat : ℚ)) (fin I) = fin a ∧ 0 ≤ a ∧
        a ≤ duration * (1 + (2 : ℚ) ^ (-51 : ℤ))) := by
  obtain ⟨_, hIlow⟩ := beatInterval64_facts bpm I hb hbd hI
  have hIpos : 0 < I := lt_of_lt_of_le (two_zpow_pos _) hIlow
  obtain ⟨hq0, hq1⟩ := quotient64_facts duration I q hd hIpos hq
  have hfl0 : 0 ≤ ⌊q⌋ := Int.floor_nonneg.mpr hq0
  refine ⟨generateBeatGrid64_of bpm duration I q hI hq hfl0 hn, hIpos, hfl0, ?_, ?_, ?_⟩
  · simp [Binary64.mul, JSNum.mul, Binary64.store, Binary64.ofRat]
  · intro i hi
    have hiz : ((i + 1 : ℕ) : ℤ) ≤ ⌊q⌋ := by
      have := Int.toNat_of_nonneg hfl0
      omega
    have hiq : ((i + 1 : ℕ) : ℚ) ≤ q := by
      have h1 : (((i + 1 : ℕ) : ℤ) : ℚ) ≤ ((⌊q⌋ : ℤ) : ℚ) := by exact_mod_cast hiz
      have h2 := Int.floor_le q
      push_cast at h1 ⊢
      linarith
    have hone : (1 : ℚ) ≤ q := by
      have : (1 : ℚ) ≤ ((i + 1 : ℕ) : ℚ) := by
        have : 1 ≤ i + 1 := Nat.le_add_left 1 i
        exact_mod_cast this
      linarith
    have hi32 : i + 1 ≤ 2 ^ 32 := by
      have : ((i + 1 : ℕ) : ℤ) < 2 ^ 32 := by omega
      have h2 : ((i + 1 : ℕ) : ℤ) ≤ ((2 ^ 32 : ℕ) : ℤ) := by
        push_cast
        omega
      exact_mod_cast h2
    exact beatGrid64_entry duration I q i hd hdd hIlow (hq1 hone) hiq hi32
  · have c53 : (2 : ℚ) ^ (-53 : ℤ) = 1 / 9007199254740992 := by norm_num
    have c52 : (2 : ℚ) ^ (-52 : ℤ) = 1 / 4503599627370496 := by norm_num
    have c51 : (2 : ℚ) ^ (-51 : ℤ) = 1 / 2251799813685248 := by norm_num
    rw [mul64_fin]
    rcases Nat.eq_zero_or_pos ⌊q⌋.toNat with h0 | hpos
    · right
      refine ⟨0, by rw [h0]; simp [Binary64.ofRat], le_refl _, ?_⟩
      rw [c51]
      nlinarith
    · have hnq : ((⌊q⌋.toNat : ℕ) : ℚ) ≤ q := by
        have h1 : ((⌊q⌋.toNat : ℕ) : ℤ) = ⌊q⌋ := Int.toNat_of_nonneg hfl0
        have h2 : (((⌊q⌋.toNat : ℕ) : ℤ) : ℚ) = ((⌊q⌋ : ℤ) : ℚ) := by rw [h1]
        have h3 := Int.floor_le q
        push_cast at h2
        linarith
      have hn1 : (1 : ℚ) ≤ ((⌊q⌋.toNat : ℕ) : ℚ) := by exact_mod_cast hpos
      have hone : (1 : ℚ) ≤ q := le_trans hn1 hnq
      have hPpos : 0 < ((⌊q⌋.toNat : ℕ) : ℚ) * I := by positivity
      have hPI : I ≤ ((⌊q⌋.toNat : ℕ) : ℚ) * I := by nlinarith
      have hP : ((⌊q⌋.toNat : ℕ) : ℚ) * I ≤ duration * (1 + 1 / 9007199254740992) := by
        have h1 : ((⌊q⌋.toNat : ℕ) : ℚ) * I ≤ q * I := mul_le_mul_of_nonneg_right hnq hIpos.le
        have h2 : q * I ≤ duration / I * (1 + (2 : ℚ) ^ (-53 : ℤ)) * I :=
          mul_le_mul_of_nonneg_right (hq1 hone) hIpos.le
        have h3 : duration / I * (1 + (2 : ℚ) ^ (-53 : ℤ)) * I
            = duration * (1 + (2 : ℚ) ^ (-53 : ℤ)) := by
          field_simp
          ring
        rw [h3, c53] at h2
        linarith
      rcases ofRat_pos _ hPpos with ⟨h1, _⟩ | ⟨h1, _⟩
      · left; exact h1
      · right
        refine ⟨_, h1, nearest_nonneg _ hPpos.le, ?_⟩
        have hnormP : (2 : ℚ) ^ (-1022 : ℤ) ≤ |((⌊q⌋.toNat : ℕ) : ℚ) * I| := by
          rw [abs_of_pos hPpos]
          linarith
        have huP := ulp_le _ hnormP
        rw [abs_of_pos hPpos, c52] at huP
        have herrP := nearest_error (((⌊q⌋.toNat : ℕ) : ℚ) * I)
        rw [abs_le] at herrP
        rw [c51]
        linarith [herrP.2]

/-- The integers of magnitude below `2^53` are binary64 values. -/
theorem isDouble_intCast (k : ℤ) (hk : |k| < 2 ^ 53) : Binary64.IsDouble (k : ℚ) :=
  ofRat_intCast k hk

theorem interval_79 :
    Binary64.div (fin 60) (fin 79) = fin (6840910826385564 * (2 : ℚ) ^ (-53 : ℤ)) := by
  have h := ofRat_eq (60 / 79) (-1) 6840910826385564 (by norm_num [abs_of_pos])
    (by norm_num [abs_of_pos]) (by norm_num) (by norm_num) (by norm_num)
    (by norm_num [abs_of_pos])
  simp only [Binary64.div, JSNum.div, Binary64.store]
  norm_num at h ⊢
  exact h

theorem quotient_79 :
    Binary64.div (fin 60) (fin (6840910826385564 * (2 : ℚ) ^ (-53 : ℤ))) = fin 79 := by
  have h := ofRat_eq (60 / (6840910826385564 * (2 : ℚ) ^ (-53 : ℤ))) 6 5559130790035456
    (by norm_num [abs_of_pos]) (by norm_num [abs_of_pos]) (by norm_num) (by norm_num)
    (by norm_num) (by norm_num [abs_of_pos])
  simp only [Binary64.div, JSNum.div, Binary64.store]
  norm_num at h ⊢
  exact h

theorem last_entry_79 :
    Binary64.mul (fin ((79 : ℕ) : ℚ)) (fin (6840910826385564 * (2 : ℚ) ^ (-53 : ℤ)))
      = fin (8444249301319681 * (2 : ℚ) ^ (-47 : ℤ)) := by
  have h := ofRat_eq (79 * (6840910826385564 * (2 : ℚ) ^ (-53 : ℤ))) 5 8444249301319681
    (by norm_num [abs_of_pos]) (by norm_num [abs_of_pos]) (by norm_num) (by norm_num)
    (by norm_num) (by norm_num [abs_of_pos])
  simp only [Binary64.mul, JSNum.mul, Binary64.store]
  norm_num at h ⊢
  exact h

/-- The result of `generateBeatGrid` when `floor(q) + 1` is `2^32` or more: the
array cannot be created. -/
theorem generateBeatGrid64_too_long (bpm duration I q : ℚ)
    (hI : Binary64.div (fin 60) (fin bpm) = fin I)
    (hq : Binary64.div (fin duration) (fin I) = fin q)
    (h0 : 2 ^ 32 ≤ ⌊q⌋ + 1) (hn : ⌊q⌋ + 1 < 2 ^ 53) :
    Binary64.generateBeatGrid (fin bpm) (fin duration) = .error .rangeError := by
  have hadd : Binary64.add (JSNum.floor (fin q)) (fin 1) = fin ((⌊q⌋ + 1 : ℤ) : ℚ) := by
    have := ofRat_intCast (⌊q⌋ + 1) (by rw [abs_of_nonneg (by omega)]; omega)
    simp only [Binary64.add, JSNum.floor, JSNum.add, Binary64.store]
    rw [← this]
    push_cast
    rfl
  simp only [Binary64.generateBeatGrid, hI, hq, hadd, arrayLength64_large (⌊q⌋ + 1) h0]

theorem grid_overflowing_length :
    Binary64.generateBeatGrid (fin 60) (fin 4294967296) = .error .rangeError := by
  have hI : Binary64.div (fin 60) (fin 60) = fin 1 := by
    rw [div64_fin _ _ (by norm_num)]
    norm_num
    have := ofRat_intCast 1 (by norm_num)
    simpa using this
  have hq : Binary64.div (fin 4294967296) (fin 1) = fin 4294967296 := by
    rw [div64_fin _ _ (by norm_num)]
    norm_num
    have := ofRat_intCast 4294967296 (by norm_num)
    simpa using this
  have hfl : ⌊(4294967296 : ℚ)⌋ = 4294967296 := by
    rw [Int.floor_eq_iff]; norm_num
  exact generateBeatGrid64_too_long 60 4294967296 1 4294967296 hI hq (by rw [hfl]; norm_num)
    (by rw [hfl]; norm_num)

/-- C3 (counterexample): with binary64 inputs, `generateBeatGrid(174, 10)` has 29
entries where `floor(10 / (60/174)) + 1` is 30; the last of the 80 entries of
`generateBeatGrid(79, 60)` lies above the duration 60; and
`generateBeatGrid(60, 2^32)` raises a `RangeError` instead of returning
`2^32 + 1` entries. -/
theorem C3_counterexample :
    Binary64.IsDouble 174 ∧ Binary64.IsDouble 10 ∧ Binary64.IsDouble 79 ∧
    Binary64.IsDouble 60 ∧ Binary64.IsDouble 4294967296 ∧
    (∃ l, Binary64.generateBeatGrid (fin 174) (fin 10) = .ok l ∧ l.length = 29 ∧
      ⌊(10 : ℚ) / (60 / 174)⌋ + 1 = 30) ∧
    (∃ l, Binary64.generateBeatGrid (fin 79) (fin 60) = .ok l ∧ l.length = 80 ∧
      l.getD 79 (fin 0) = fin (8444249301319681 * (2 : ℚ) ^ (-47 : ℤ)) ∧
      (60 : ℚ) < 8444249301319681 * (2 : ℚ) ^ (-47 : ℤ)) ∧
    Binary64.generateBeatGrid (fin 60) (fin 4294967296) = .error .rangeError := by
  have d1 : Binary64.IsDouble 174 := by
    have := isDouble_intCast 174 (by norm_num)
    simpa using this
  have d2 : Binary64.IsDouble 10 := by
    have := isDouble_intCast 10 (by norm_num)
    simpa using this
  have d3 : Binary64.IsDouble 79 := by
    have := isDouble_intCast 79 (by norm_num)
    simpa using this
  have d4 : Binary64.IsDouble 60 := by
    have := isDouble_intCast 60 (by norm_num)
    simpa using this
  have d5 : Binary64.IsDouble 4294967296 := by
    have := isDouble_intCast 4294967296 (by norm_num)
    simpa using this
  refine ⟨d1, d2, d3, d4, d5, ?_, ?_, grid_overflowing_length⟩
  · have hfl : ⌊(8162774324609023 * (2 : ℚ) ^ (-48 : ℤ))⌋ = 28 := by
      rw [Int.floor_eq_iff]; norm_num
    have h := generateBeatGrid64_of 174 10 _ _ interval_174 quotient_174
      (by rw [hfl]; norm_num) (by rw [hfl]; norm_num)
    have ht : (28 : ℤ).toNat + 1 = 29 := rfl
    rw [hfl, ht] at h
    refine ⟨_, h, by simp, ?_⟩
    have : ⌊(10 : ℚ) / (60 / 174)⌋ = 29 := by
      rw [Int.floor_eq_iff]; norm_num
    rw [this]; norm_num
  · have hfl : ⌊(79 : ℚ)⌋ = 79 := by
      rw [Int.floor_eq_iff]; norm_num
    have h := generateBeatGrid64_of 79 60 _ _ interval_79 quotient_79
      (by rw [hfl]; norm_num) (by rw [hfl]; norm_num)
    have ht : (79 : ℤ).toNat + 1 = 80 := rfl
    rw [hfl, ht] at h
    refine ⟨_, h, by simp, ?_, by norm_num⟩
    rw [List.getD_eq_getElem?_getD, List.getElem?_map, List.getElem?_range (by norm_num)]
    simp only [Option.map_some', Option.getD_some]
    exact last_entry_79

/-- C3 at a concrete input: `generateBeatGrid(120, 30)` in binary64 has the interval
0.5 and the quotient 60, hence 61 entries `i * 0.5`, each of the first 60 in
`[0, 30]` and strictly below the next. -/
theorem C3_generateBeatGrid_binary64_witness :
    (0 : ℚ) < 120 ∧ (0 : ℚ) < 30 ∧ Binary64.IsDouble 120 ∧ Binary64.IsDouble 30 ∧
    Binary64.generateBeatGrid (fin 120) (fin 30)
      = .ok ((List.range 61).map fun (i : Nat) => Binary64.mul (fin (i : ℚ)) (fin (1 / 2))) ∧
    (∀ i : ℕ, i < 60 →
      ∃ a : ℚ, Binary64.mul (fin (i : ℚ)) (fin (1 / 2)) = fin a ∧ 0 ≤ a ∧ a ≤ 30 ∧
        JSNum.lt (fin a) (Binary64.mul (fin ((i + 1 : ℕ) : ℚ)) (fin (1 / 2))) = true) := by
  have d1 : Binary64.IsDouble 120 := ofRat_120
  have d2 : Binary64.IsDouble 30 := by
    have := isDouble_intCast 30 (by norm_num)
    simpa using this
  have hI : Binary64.div (fin 60) (fin 120) = fin (1 / 2) := by
    rw [div64_fin _ _ (by norm_num)]
    norm_num
    exact ofRat_half
  have hq : Binary64.div (fin 30) (fin (1 / 2)) = fin 60 := by
    rw [div64_fin _ _ (by norm_num)]
    norm_num
    have := ofRat_intCast 60 (by norm_num)
    simpa using this
  have hfl : ⌊(60 : ℚ)⌋ = 60 := by
    rw [Int.floor_eq_iff]; norm_num
  obtain ⟨h1, _, _, _, h5, _⟩ := C3_generateBeatGrid_binary64 120 30 (1 / 2) 60 (by norm_num)
    (by norm_num) d1 d2 hI hq (by rw [hfl]; norm_num)
  have ht : (60 : ℤ).toNat = 60 := rfl
  rw [hfl, ht] at h1 h5
  exact ⟨by norm_num, by norm_num, d1, d2, h1, h5⟩

/-! ## The tempo estimator in binary64 arithmetic -/

/-- The result of the binary64 `determineBPM` on a non-empty list, in terms of the
search result. -/
theorem determineBPM64_eq (intervals : List ℚ) (hne : intervals ≠ []) :
    Binary64.determineBPM intervals
      = { bpm := Binary64.roundToTenth
            (Binary64.octaveCorrect (Binary64.div (fin 60) (Binary64.mostCommon intervals).2)),
          confidence := Binary64.div (fin ((Binary64.mostCommon intervals).1 : ℚ))
            (fin (intervals.length : ℚ)) } := by
  have hlen : intervals.length ≠ 0 := by
    intro h0
    exact hne (List.length_eq_zero.mp h0)
  unfold Binary64.determineBPM
  rw [if_neg hlen]

/-- The binary64 key of an interval: the product by 100 is rounded to binary64,
`Math.round` takes the nearest integer, and the quotient by 100 is rounded to
binary64. -/
theorem roundedInterval64_eq (x : ℚ) :
    Binary64.roundedInterval x
      = Binary64.div (JSNum.round (Binary64.ofRat (x * 100))) (fin 100) := rfl

/-- The binary64 octave correction on a finite tempo. -/
theorem octaveCorrect64_fin (b : ℚ) :
    Binary64.octaveCorrect (fin b)
      = if b < 60 then Binary64.ofRat (b * 2)
        else if 180 < b then Binary64.ofRat (b / 2) else fin b := by
  unfold Binary64.octaveCorrect
  by_cases h1 : b < 60
  · simp [JSNum.lt, h1, Binary64.mul, JSNum.mul, Binary64.store]
  · by_cases h2 : 180 < b
    · simp [JSNum.lt, JSNum.gt, h1, h2, Binary64.div, JSNum.div, Binary64.store]
    · simp [JSNum.lt, JSNum.gt, h1, h2]

/-- C8 (amended): for every non-empty list of intervals the bpm returned by the
binary64 `determineBPM` is `Math.round(c(60 / m) * 10) / 10`, where `m` is the key
of a bucket of maximal count in the histogram of the binary64 keys
`Math.round(interval * 100) / 100`, `c` doubles a value below 60, halves a value
above 180 and keeps the others, applied once, and every product and quotient is
rounded to binary64. -/
theorem C8_bpm_from_binary64_mode (intervals : List ℚ) (hne : intervals ≠ []) :
    ∃ m : JSNum, m ∈ intervals.map Binary64.roundedInterval ∧
      (∀ k, (intervals.map Binary64.roundedInterval).count k
        ≤ (intervals.map Binary64.roundedInterval).count m) ∧
      (Binary64.determineBPM intervals).bpm
        = Binary64.roundToTenth (Binary64.octaveCorrect (Binary64.div (fin 60) m)) ∧
      (∀ x, Binary64.roundedInterval x
        = Binary64.div (JSNum.round (Binary64.ofRat (x * 100))) (fin 100)) ∧
      (∀ b : ℚ, Binary64.octaveCorrect (fin b)
        = if b < 60 then Binary64.ofRat (b * 2)
          else if 180 < b then Binary64.ofRat (b / 2) else fin b) := by
  obtain ⟨h1, h2, h3⟩ := mostCommon_spec64 intervals hne
  refine ⟨(Binary64.mostCommon intervals).2, h1, ?_, ?_, roundedInterval64_eq,
    octaveCorrect64_fin⟩
  · intro k
    rw [← h2]
    exact h3 k
  · rw [determineBPM64_eq intervals hne]

/-- The binary64 bpm for the winning key 0.5 is 120. -/
theorem bpm64_of_half :
    Binary64.roundToTenth (Binary64.octaveCorrect (Binary64.div (fin 60) (fin (1 / 2))))
      = fin 120 := by
  have hdiv : Binary64.div (fin 60) (fin (1 / 2)) = fin 120 := by
    simp only [Binary64.div, JSNum.div, Binary64.store]
    norm_num
    exact ofRat_120
  have hfl : ⌊(1200 : ℚ) + 1 / 2⌋ = 1200 := by
    rw [Int.floor_eq_iff]; norm_num
  rw [hdiv, octaveCorrect64_fin]
  norm_num
  simp only [Binary64.roundToTenth, Binary64.mul, JSNum.mul, Binary64.store]
  norm_num
  rw [ofRat_1200]
  simp only [JSNum.round, hfl, Binary64.div, JSNum.div, Binary64.store]
  norm_num
  exact ofRat_120

/-- C8 (counterexample): the one interval `d495`, the binary64 value of `0.495`.
Quantized to the nearest 0.01 s it is 0.49, for which the claim gives
`round(60 / 0.49, 1) = 122.4`; the code computes `0.495 * 100 = 49.5` in binary64,
takes the key 0.5 and returns 120. -/
theorem C8_counterexample :
    Binary64.IsDouble d495 ∧
    (Binary64.determineBPM [d495]).bpm = fin 120 ∧
    [d495].map nearestHundredth = [49 / 100] ∧
    nearestTenth (specOctave (60 / (49 / 100))) = 612 / 5 ∧
    (fin 120 : JSNum) ≠ fin (612 / 5) := by
  refine ⟨isDouble_d495, ?_, ?_, ?_, ?_⟩
  · obtain ⟨h1, _, _⟩ := mostCommon_spec64 [d495] (by simp)
    rw [List.map_singleton, roundedInterval64_d495, List.mem_singleton] at h1
    rw [determineBPM64_eq [d495] (by simp), h1]
    exact bpm64_of_half
  · have hfl : ⌊d495 * 100 + 1 / 2⌋ = 49 := by
      rw [Int.floor_eq_iff]; norm_num [d495]
    simp only [List.map_singleton, nearestHundredth, round_eq, hfl]
    norm_num
  · have hs : specOctave (60 / (49 / 100)) = 6000 / 49 := by
      unfold specOctave
      norm_num
    have hfl : ⌊(6000 / 49 : ℚ) * 10 + 1 / 2⌋ = 1224 := by
      rw [Int.floor_eq_iff]; norm_num
    rw [hs]
    simp only [nearestTenth, round_eq, hfl]
    norm_num
  · intro h
    injection h with h2
    norm_num at h2

theorem count_map_eq_length_filter64 (f : ℚ → JSNum) (l : List ℚ) (k : JSNum) :
    (l.map f).count k = (l.filter fun i => decide (f i = k)).length := by
  induction l with
  | nil => simp
  | cons a rest ih =>
    by_cases h : f a = k
    · simp [List.count_cons, List.filter_cons, h, ih]
    · simp [List.count_cons, List.filter_cons, h, ih]

/-- The binary64 quotient of a count by a total of less than `2^32`: a finite
number in `(0, 1]`, within `2^-53` of the exact quotient. -/
theorem confidence64_bounds (c t : ℕ) (hc : 0 < c) (hct : c ≤ t) (ht : t < 2 ^ 32) :
    ∃ y : ℚ, Binary64.div (fin (c : ℚ)) (fin (t : ℚ)) = fin y ∧ 0 < y ∧ y ≤ 1 ∧
      |y - (c : ℚ) / (t : ℚ)| ≤ (2 : ℚ) ^ (-53 : ℤ) := by
  have hcq : (0 : ℚ) < (c : ℚ) := by exact_mod_cast hc
  have htq : (0 : ℚ) < (t : ℚ) := lt_of_lt_of_le hcq (by exact_mod_cast hct)
  have hx : (0 : ℚ) < (c : ℚ) / (t : ℚ) := div_pos hcq htq
  have hx1 : (c : ℚ) / (t : ℚ) ≤ 1 := (div_le_one htq).mpr (by exact_mod_cast hct)
  have hxlo : (2 : ℚ) ^ (-32 : ℤ) ≤ (c : ℚ) / (t : ℚ) := by
    rw [le_div_iff₀ htq]
    have h1 : (1 : ℚ) ≤ (c : ℚ) := by exact_mod_cast hc
    have h2 : (t : ℚ) ≤ (2 : ℚ) ^ (32 : ℕ) := by exact_mod_cast ht.le
    have h3 : (2 : ℚ) ^ (-32 : ℤ) * (2 : ℚ) ^ (32 : ℕ) = 1 := by norm_num
    nlinarith [two_zpow_pos (-32)]
  have hexp : Binary64.exponent ((c : ℚ) / (t : ℚ)) ≤ 0 := by
    apply exponent_le_of_lt _ 0 hx.ne' _ (by norm_num)
    rw [abs_of_pos hx]
    norm_num
    linarith
  have hle1 : Binary64.nearest ((c : ℚ) / (t : ℚ)) ≤ 1 := by
    have := nearest_le_zpow ((c : ℚ) / (t : ℚ)) 0 (by omega) (by simpa using hx1)
    simpa using this
  have hlo : (2 : ℚ) ^ (-32 : ℤ) ≤ Binary64.nearest ((c : ℚ) / (t : ℚ)) :=
    zpow_le_nearest _ (-32) (by omega) hxlo
  have herr : |Binary64.nearest ((c : ℚ) / (t : ℚ)) - (c : ℚ) / (t : ℚ)|
      ≤ (2 : ℚ) ^ (-53 : ℤ) := by
    refine le_trans (nearest_error _) ?_
    have hu : Binary64.ulp ((c : ℚ) / (t : ℚ)) ≤ (2 : ℚ) ^ (-52 : ℤ) := by
      unfold Binary64.ulp
      exact zpow_le_zpow_right₀ (by norm_num) (by omega)
    have h53 : (2 : ℚ) ^ (-52 : ℤ) / 2 = (2 : ℚ) ^ (-53 : ℤ) := by norm_num
    linarith
  have hdiv : Binary64.div (fin (c : ℚ)) (fin (t : ℚ)) = Binary64.ofRat ((c : ℚ) / (t : ℚ)) := by
    simp [Binary64.div, JSNum.div, Binary64.store, htq.ne']
  rcases ofRat_pos _ hx with ⟨_, h2⟩ | ⟨h1, _⟩
  · exfalso
    have : (1 : ℚ) < (2 : ℚ) ^ (1024 : ℕ) := by norm_num
    linarith
  · refine ⟨_, by rw [hdiv, h1], lt_of_lt_of_le (two_zpow_pos _) hlo, hle1, herr⟩

/-- C9 (amended): the confidence returned by the binary64 `determineBPM` is 0 for
the empty list; for a non-empty list of fewer than `2^32` intervals it is the
binary64 quotient of the number of intervals whose binary64 key
`Math.round(interval * 100) / 100` is the winning key by the number of intervals,
a finite number in `(0, 1]` within `2^-53` of the exact quotient. -/
theorem C9_confidence_binary64_fraction (intervals : List ℚ)
    (hlen : intervals.length < 2 ^ 32) :
    ∃ c : ℚ, (Binary64.determineBPM intervals).confidence = fin c ∧ 0 ≤ c ∧ c ≤ 1 ∧
      (intervals = [] → c = 0) ∧
      (intervals ≠ [] →
        fin c = Binary64.div
          (fin ((intervals.filter fun i =>
            decide (Binary64.roundedInterval i = (Binary64.mostCommon intervals).2)).length : ℚ))
          (fin (intervals.length : ℚ)) ∧
        |c - ((intervals.filter fun i =>
            decide (Binary64.roundedInterval i = (Binary64.mostCommon intervals).2)).length : ℚ)
          / (intervals.length : ℚ)| ≤ (2 : ℚ) ^ (-53 : ℤ) ∧
        0 < c) := by
  by_cases hne : intervals = []
  · subst hne
    exact ⟨0, by simp [Binary64.determineBPM], le_refl _, by norm_num, fun _ => rfl,
      fun h => absurd rfl h⟩
  · obtain ⟨h1, h2, _⟩ := mostCommon_spec64 intervals hne
    have hcount : (Binary64.mostCommon intervals).1 = (intervals.filter fun i =>
        decide (Binary64.roundedInterval i = (Binary64.mostCommon intervals).2)).length := by
      rw [h2, count_map_eq_length_filter64]
    have hle : (Binary64.mostCommon intervals).1 ≤ intervals.length := by
      rw [hcount]; exact List.length_filter_le _ _
    have hpos : 0 < (Binary64.mostCommon intervals).1 := by
      rw [h2]; exact List.count_pos_iff.mpr h1
    obtain ⟨y, hy, hy0, hy1, hyerr⟩ := confidence64_bounds _ _ hpos hle hlen
    have hconf : (Binary64.determineBPM intervals).confidence = fin y := by
      rw [determineBPM64_eq intervals hne]
      exact hy
    refine ⟨y, hconf, hy0.le, hy1, fun h => absurd h hne, fun _ => ⟨?_, ?_, hy0⟩⟩
    · rw [← hcount, hy]
    · rw [← hcount]; exact hyerr

theorem ofRat_50 : Binary64.ofRat 50 = fin 50 := by
  have := ofRat_intCast 50 (by norm_num)
  simpa using this

theorem roundedInterval64_half : Binary64.roundedInterval (1 / 2) = fin (1 / 2) := by
  have hfl : ⌊(50 : ℚ) + 1 / 2⌋ = 50 := by
    rw [Int.floor_eq_iff]; norm_num
  simp only [Binary64.roundedInterval, Binary64.mul, JSNum.mul, Binary64.store]
  norm_num
  rw [ofRat_50]
  simp only [JSNum.round, hfl, Binary64.div, JSNum.div, Binary64.store]
  norm_num
  exact ofRat_half

theorem roundedInterval64_d49 : Binary64.roundedInterval d49 = fin d49 := by
  have hmul : Binary64.ofRat (d49 * 100) = fin 49 := by
    have h := ofRat_eq (d49 * 100) 5 6896136929411072 (by norm_num [abs_of_pos, d49])
      (by norm_num [abs_of_pos, d49]) (by norm_num) (by norm_num [d49]) (by norm_num [d49])
      (by norm_num [abs_of_pos])
    norm_num at h ⊢
    exact h
  have hfl : ⌊(49 : ℚ) + 1 / 2⌋ = 49 := by
    rw [Int.floor_eq_iff]; norm_num
  simp only [Binary64.roundedInterval, Binary64.mul, JSNum.mul, Binary64.store, hmul, JSNum.round,
    hfl, Binary64.div, JSNum.div]
  norm_num
  exact ofRat_49

theorem ofRat_three_quarters : Binary64.ofRat (3 / 4) = fin (3 / 4) := by
  have h := ofRat_eq (3 / 4) (-1) 6755399441055744 (by norm_num [abs_of_pos])
    (by norm_num [abs_of_pos]) (by norm_num) (by norm_num) (by norm_num)
    (by norm_num [abs_of_pos])
  norm_num at h ⊢
  exact h

/-- The binary64 keys of the intervals `[0.495, 0.5, 0.5, 0.49]` and the result of
the search on them: three of the four intervals share the winning key 0.5. -/
theorem mostCommon64_example :
    ([d495, 1 / 2, 1 / 2, d49] : List ℚ).map Binary64.roundedInterval
      = [fin (1 / 2), fin (1 / 2), fin (1 / 2), fin d49] ∧
    Binary64.mostCommon [d495, 1 / 2, 1 / 2, d49] = (3, fin (1 / 2)) := by
  have hkeys : ([d495, 1 / 2, 1 / 2, d49] : List ℚ).map Binary64.roundedInterval
      = [fin (1 / 2), fin (1 / 2), fin (1 / 2), fin d49] := by
    simp only [List.map_cons, List.map_nil, roundedInterval64_d495, roundedInterval64_half,
      roundedInterval64_d49]
  have hne : (fin d49 : JSNum) ≠ fin (1 / 2) := by
    intro h
    injection h with h2
    norm_num [d49] at h2
  have hq1 : ¬ d49 = (2 : ℚ)⁻¹ := by norm_num [d49]
  have hq2 : ¬ (2 : ℚ)⁻¹ = d49 := fun h => hq1 h.symm
  have hc3 : ([fin (1 / 2), fin (1 / 2), fin (1 / 2), fin d49] : List JSNum).count (fin (1 / 2))
      = 3 := by
    simp [List.count_cons, hq1]
  have hc1 : ([fin (1 / 2), fin (1 / 2), fin (1 / 2), fin d49] : List JSNum).count (fin d49)
      = 1 := by
    simp [List.count_cons, hq2]
  obtain ⟨h1, h2, h3⟩ := mostCommon_spec64 [d495, 1 / 2, 1 / 2, d49] (by simp)
  rw [hkeys] at h1 h2 h3
  have hkey : (Binary64.mostCommon [d495, 1 / 2, 1 / 2, d49]).2 = fin (1 / 2) := by
    have h4 := h3 (fin (1 / 2))
    rw [hc3, h2] at h4
    simp only [List.mem_cons, List.mem_singleton, List.not_mem_nil, or_false] at h1
    rcases h1 with h | h | h | h
    · exact h
    · exact h
    · exact h
    · rw [h, hc1] at h4
      omega
  refine ⟨hkeys, ?_⟩
  rw [hkey, hc3] at h2
  exact Prod.ext h2 hkey

/-- C9 (counterexample): the intervals `[0.495, 0.5, 0.5, 0.49]` as binary64 values.
Quantized to the nearest 0.01 s they are `[0.49, 0.5, 0.5, 0.49]`, so two of the
four intervals have the winning key 0.5 and the claim gives 2/4; the code counts
`0.495` under the key 0.5 as well and returns the confidence 3/4. -/
theorem C9_counterexample :
    Binary64.IsDouble d495 ∧ Binary64.IsDouble (1 / 2) ∧ Binary64.IsDouble d49 ∧
    (Binary64.mostCommon [d495, 1 / 2, 1 / 2, d49]).2 = fin (1 / 2) ∧
    (Binary64.determineBPM [d495, 1 / 2, 1 / 2, d49]).confidence = fin (3 / 4) ∧
    ([d495, 1 / 2, 1 / 2, d49] : List ℚ).map nearestHundredth
      = [49 / 100, 1 / 2, 1 / 2, 49 / 100] ∧
    ((([d495, 1 / 2, 1 / 2, d49] : List ℚ).filter
        fun i => decide (nearestHundredth i = 1 / 2)).length : ℚ)
      / (([d495, 1 / 2, 1 / 2, d49] : List ℚ).length : ℚ) = 1 / 2 := by
  obtain ⟨_, hmc⟩ := mostCommon64_example
  have hq : ([d495, 1 / 2, 1 / 2, d49] : List ℚ).map nearestHundredth
      = [49 / 100, 1 / 2, 1 / 2, 49 / 100] := by
    have f1 : ⌊d495 * 100 + 1 / 2⌋ = 49 := by
      rw [Int.floor_eq_iff]; norm_num [d495]
    have f2 : ⌊(1 / 2 : ℚ) * 100 + 1 / 2⌋ = 50 := by
      rw [Int.floor_eq_iff]; norm_num
    have f3 : ⌊d49 * 100 + 1 / 2⌋ = 49 := by
      rw [Int.floor_eq_iff]; norm_num [d49]
    simp only [List.map_cons, List.map_nil, nearestHundredth, round_eq, f1, f2, f3]
    norm_num
  refine ⟨isDouble_d495, ofRat_half, isDouble_d49, ?_, ?_, hq, ?_⟩
  · rw [hmc]
  · rw [determineBPM64_eq _ (by simp), hmc]
    simp only [Binary64.div, JSNum.div, Binary64.store, List.length_cons, List.length_nil]
    norm_num
    exact ofRat_three_quarters
  · have g1 : ¬ nearestHundredth d495 = 1 / 2 := by
      have := congrArg (fun l => l.getD 0 0) hq
      simp at this
      rw [this]; norm_num
    have g2 : nearestHundredth (1 / 2) = 1 / 2 := by
      have := congrArg (fun l => l.getD 1 0) hq
      simpa using this
    have g3 : ¬ nearestHundredth d49 = 1 / 2 := by
      have := congrArg (fun l => l.getD 3 0) hq
      simp at this
      rw [this]; norm_num
    simp only [List.filter_cons, List.filter_nil, decide_eq_true_eq, if_neg g1, if_pos g2,
      if_neg g3, List.length_cons, List.length_nil]
    norm_num

/-- C9 at a concrete input: for the four intervals `[0.495, 0.5, 0.5, 0.49]` the
confidence is a finite number in `(0, 1]`. -/
theorem C9_confidence_binary64_fraction_witness :
    ([d495, 1 / 2, 1 / 2, d49] : List ℚ).length < 2 ^ 32 ∧
    ∃ c : ℚ, (Binary64.determineBPM [d495, 1 / 2, 1 / 2, d49]).confidence = fin c ∧
      0 < c ∧ c ≤ 1 := by
  obtain ⟨c, h1, _, h3, _, h5⟩ := C9_confidence_binary64_fraction [d495, 1 / 2, 1 / 2, d49]
    (by norm_num)
  exact ⟨by norm_num, c, h1, (h5 (by simp)).2.2, h3⟩

/-- C8 at a concrete input: the intervals `[0.5, 0.5, 0.495]` all have the binary64
key 0.5, and the returned bpm is 120. -/
theorem C8_bpm_from_binary64_mode_witness :
    ([1 / 2, 1 / 2, d495] : List ℚ) ≠ [] ∧
    ([1 / 2, 1 / 2, d495] : List ℚ).map Binary64.roundedInterval
      = [fin (1 / 2), fin (1 / 2), fin (1 / 2)] ∧
    (Binary64.determineBPM [1 / 2, 1 / 2, d495]).bpm = fin 120 := by
  have hkeys : ([1 / 2, 1 / 2, d495] : List ℚ).map Binary64.roundedInterval
      = [fin (1 / 2), fin (1 / 2), fin (1 / 2)] := by
    simp only [List.map_cons, List.map_nil, roundedInterval64_d495, roundedInterval64_half]
  obtain ⟨m, h1, _, h3, _⟩ := C8_bpm_from_binary64_mode [1 / 2, 1 / 2, d495] (by simp)
  rw [hkeys] at h1
  have hm : m = fin (1 / 2) := by
    simp only [List.mem_cons, List.mem_singleton, List.not_mem_nil, or_false, or_self] at h1
    exact h1
  rw [hm, bpm64_of_half] at h3
  exact ⟨by simp, hkeys, h3⟩

end RetroMix
